import Mathlib

/-!
Shallow embedding of the libgref core (src/gref.c) and verification of the
claims about it.

Modelling conventions:
* C machine integers are modelled as `Nat` (or `Int` for pointer offsets);
  wrap-around is written explicitly (`% 2 ^ 64`) where the C code can wrap
  on values that are later observed.
* The string-keyed hash map `H` (module hmap, a thin collaborator) is
  modelled as a `List String` of the keys in id order; `hmap_get_id`
  allocates fresh consecutive ids and the fixed-size object slots are kept
  in a parallel `List gref_section` (new slots are zero-initialised, which
  is the behaviour the C code relies on for sections that are referenced
  by a link before any segment is appended).
* `psort_half` (module psort, a thin collaborator) sorts records by the
  low-half key (the `from` gid for 8-byte link pairs, the `kmer` for
  16-byte tuples).  It is modelled as a comparison sort; the claims only
  depend on the grouping induced by the key, never on the order of ties.
* The per-gid `link_idx_base` values, stored by the C code inside the hmap
  object of each section (`struct gref_section_half_s`, where entry `gid`
  is the half-struct at byte offset `24 * gid`), are modelled as one list
  `link_idx_table` indexed by `gid`.
* Undefined behaviour (dereferencing a popped-to-NULL stack frame, reading
  the sequence buffer out of bounds after a `uint32` underflow of
  `rem_len`, shifting a 32-bit `int` by 32 or more bits) is modelled as
  `none` / a `crash` result.  The one place where the C code reads a
  defined but stale value (`kmer[0]` in `gref_iter_next` when
  `kmer_occ = 0`) is modelled by `List.getD _ _ 0`; no claim depends on
  the stale value itself, only on the fact that a tuple is emitted.
* The iterator stack, bump-allocated in one fixed buffer in C (with a
  `fixme: check remaining memory size` note in the source), is modelled as
  an unbounded list of frames; no claim concerns the arena capacity.
-/

/-- enum gref_type -/
def GREF_POOL : Nat := 1

/-- enum gref_type -/
def GREF_ACV : Nat := 2

/-- enum gref_type -/
def GREF_IDX : Nat := 3

/-- gref_encode_2bit (gref.c): IUPAC ascii to 2-bit code, table indexed by the
low 5 bits of the character; unknown characters map to 0. -/
def gref_encode_2bit (c : Nat) : Nat :=
  let b := c % 32
  if b = 1 then 0          -- 'A'
  else if b = 3 then 1     -- 'C'
  else if b = 7 then 2     -- 'G'
  else if b = 20 then 3    -- 'T'
  else if b = 21 then 3    -- 'U'
  else 0                   -- 'N' -> A (= 0), '_' and unknown -> 0

/-- gref_encode_4bit (gref.c): IUPAC ascii to 4-bit ambiguity code
(A = 1, C = 2, G = 4, T = 8, OR-combinations for ambiguity codes,
N and unknown = 0). -/
def gref_encode_4bit (c : Nat) : Nat :=
  let b := c % 32
  if b = 1 then 1           -- 'A'
  else if b = 3 then 2      -- 'C'
  else if b = 7 then 4      -- 'G'
  else if b = 20 then 8     -- 'T'
  else if b = 21 then 8     -- 'U'
  else if b = 18 then 5     -- 'R' = A|G
  else if b = 25 then 10    -- 'Y' = C|T
  else if b = 19 then 6     -- 'S' = G|C
  else if b = 23 then 9     -- 'W' = A|T
  else if b = 11 then 12    -- 'K' = G|T
  else if b = 13 then 3     -- 'M' = A|C
  else if b = 2 then 14     -- 'B' = C|G|T
  else if b = 4 then 13     -- 'D' = A|G|T
  else if b = 8 then 11     -- 'H' = A|C|T
  else if b = 22 then 7     -- 'V' = A|C|G
  else 0                    -- 'N', '_' and unknown -> 0 (gap)

/-- struct gref_section_s. -/
structure gref_section where
  id : Nat
  len : Nat
  base : Nat
deriving DecidableEq

/-- struct gref_s, the tri-state object (POOL / ACV / IDX share one struct). -/
structure gref_pool where
  names : List String
  secs : List gref_section
  tail_id : Nat
  gtype : Nat
  k : Nat
  seq : List Nat
  link : List (Nat × Nat)
  link_idx_table : List Nat
  link_table : List Nat
  mask : Nat
  kmer_idx_table : List Nat
  kmer_table : List (Nat × Nat)
deriving DecidableEq

/-- gref_init_pool (gref.c), for the default configuration the claims use
(ASCII input, COPY mode); the parameter sanity checks are applied by the
theorems through explicit hypotheses on k. -/
def gref_init_pool (k : Nat) : gref_pool :=
  { names := [], secs := [], tail_id := 0, gtype := GREF_POOL, k := k,
    seq := [], link := [], link_idx_table := [], link_table := [],
    mask := 0, kmer_idx_table := [], kmer_table := [] }

/-- hmap_get_id: return the id of an existing key or allocate the next
consecutive id together with a zero-initialised object slot. -/
def hmap_alloc (g : gref_pool) (name : String) : gref_pool × Nat :=
  match g.names.findIdx? (fun n => n == name) with
  | some i => (g, i)
  | none => ({ g with
               names := g.names ++ [name]
               secs := g.secs ++ [⟨0, 0, 0⟩] }, g.names.length)

/-- gref_copy_seq_ascii (gref.c): encode each character with
gref_encode_4bit and append one code per byte; returns the interval
[base, tail) of the appended block. -/
def gref_copy_seq_ascii (g : gref_pool) (chars : List Nat) : gref_pool × Nat × Nat :=
  ({ g with seq := g.seq ++ chars.map gref_encode_4bit },
   g.seq.length, g.seq.length + chars.length)

/-- gref_append_segment (gref.c).  Note: the C function has no state check
and unconditionally returns 0. -/
def gref_append_segment (g : gref_pool) (name : String) (chars : List Nat) :
    Nat × gref_pool :=
  let r := gref_copy_seq_ascii g chars
  let g1 := r.1
  let base := r.2.1
  let tail := r.2.2
  let len := min (tail - base) 0x80000000
  let a := hmap_alloc g1 name
  let g2 := a.1
  let id := a.2
  (0, { g2 with
        tail_id := max g2.tail_id (id + 1)
        secs := g2.secs.set id ⟨id, len, base⟩ })

/-- encode and decode id macros: _encode_id(x, d) = (x<<1) | (1 & d). -/
def gref_encode_gid (x d : Nat) : Nat := 2 * x + (1 &&& d)

/-- rev macro: _rev(d) = 1 ^ d. -/
def gref_rev_dir (d : Nat) : Nat := 1 ^^^ d

/-- gref_append_link (gref.c): push the forward pair and the reverse twin;
note tail_id is updated to MAX3(tail_id, src_id, dst_id), without + 1. -/
def gref_append_link (g : gref_pool) (src : String) (src_ori : Nat)
    (dst : String) (dst_ori : Nat) : Nat × gref_pool :=
  let a := hmap_alloc g src
  let b := hmap_alloc a.1 dst
  let g2 := b.1
  let src_id := a.2
  let dst_id := b.2
  (0, { g2 with
    link := g2.link ++
      [(gref_encode_gid src_id src_ori, gref_encode_gid dst_id dst_ori),
       (gref_encode_gid dst_id (gref_rev_dir dst_ori),
        gref_encode_gid src_id (gref_rev_dir src_ori))]
    tail_id := max (max g2.tail_id src_id) dst_id })

/-- a pool-building operation (the two POOL-state mutators). -/
inductive gref_op where
  | seg (name : String) (chars : List Nat)
  | lnk (src : String) (src_ori : Nat) (dst : String) (dst_ori : Nat)
deriving DecidableEq

/-- apply one pool operation. -/
def gref_apply_op (g : gref_pool) (op : gref_op) : gref_pool :=
  match op with
  | .seg n cs => (gref_append_segment g n cs).2
  | .lnk s so d dor => (gref_append_link g s so d dor).2

/-- a pool built by a sequence of append operations. -/
def gref_apply_ops (k : Nat) (ops : List gref_op) : gref_pool :=
  ops.foldl gref_apply_op (gref_init_pool k)

/-- the sentinel name tried by gref_add_tail_section: the template
"tail_sentinel_" followed by m zero characters. -/
def gref_tail_sentinel_name (m : Nat) : String :=
  String.mk ("tail_sentinel_".toList ++ List.replicate m '0')

/-- the do-while loop of gref_add_tail_section: push names
tail_sentinel_0, tail_sentinel_00, ... until one lands on the target id or
the name length reaches 256 (template length 14, so at most 242 tries). -/
def gref_add_tail_loop (target : Nat) : Nat → gref_pool → Nat → gref_pool
  | 0, g, _ => g
  | fuel + 1, g, m =>
    let a := hmap_alloc g (gref_tail_sentinel_name m)
    if a.2 = target ∨ 256 ≤ 14 + m then a.1
    else gref_add_tail_loop target fuel a.1 (m + 1)

/-- gref_add_tail_section (gref.c): if the registry already holds at least
tail_id + 1 entries do nothing, otherwise push sentinel names until one
gets id tail_id + 1 and write the sentinel section (len 0) into that slot. -/
def gref_add_tail_section (g : gref_pool) : gref_pool :=
  let tid := g.tail_id + 1
  if tid ≤ g.names.length then g
  else
    let g1 := gref_add_tail_loop tid 242 g 1
    { g1 with secs := g1.secs.set tid ⟨tid, 0, 0⟩ }

/-- order on link pairs realised by the sort step: by from-gid, ties by
to-gid (psort_half sorts by the low-half key, the from field; the tie
order is irrelevant to every property proved below). -/
def gref_pair_le (p q : Nat × Nat) : Prop :=
  p.1 < q.1 ∨ (p.1 = q.1 ∧ p.2 ≤ q.2)

instance : DecidableRel gref_pair_le := by
  intro p q; unfold gref_pair_le; infer_instance

instance : IsTotal (Nat × Nat) gref_pair_le := by
  constructor; intro a b; unfold gref_pair_le; omega

instance : IsTrans (Nat × Nat) gref_pair_le := by
  constructor; intro a b c; unfold gref_pair_le; omega

/-- psort_half on the link pair buffer. -/
def psort_half_pairs (l : List (Nat × Nat)) : List (Nat × Nat) :=
  List.insertionSort gref_pair_le l

/-- the index-filling loop shared by gref_build_link_idx_table and
gref_build_kmer_idx_table: scan the sorted keys, on every key change fill
the gap entries (prev, key] with the current scan position, and fill the
tail up to entry n with the total count.  Both C loops write the entries
in strictly increasing index order exactly once, so the resulting array is
this list (the caller conses the initial 0 entry). -/
def gref_idx_scan (n total : Nat) : List Nat → Nat → Nat → List Nat
  | [], _, prev => List.replicate (n - prev) total
  | key :: rest, i, prev =>
    if prev = key then gref_idx_scan n total rest (i + 1) prev
    else List.replicate (key - prev) i ++ gref_idx_scan n total rest (i + 1) key

/-- gref_build_link_idx_table (gref.c): sort the pair buffer with
psort_half, then fill link_idx_base[0 .. 2 * (tail_id + 1)]. -/
def gref_build_link_idx_table (g : gref_pool) : gref_pool :=
  let sorted := psort_half_pairs g.link
  { g with
    link := sorted
    link_idx_table :=
      0 :: gref_idx_scan (2 * (g.tail_id + 1)) sorted.length (sorted.map Prod.fst) 0 0 }

/-- gref_shrink_link_table (gref.c): overwrite the pair buffer in place
with just the to field (modelled as a fresh list). -/
def gref_shrink_link_table (g : gref_pool) : gref_pool :=
  { g with link_table := g.link.map Prod.snd }

/-- gref_freeze_pool (gref.c). -/
def gref_freeze_pool (g : gref_pool) : Option gref_pool :=
  if g.gtype = GREF_POOL then
    some { gref_shrink_link_table (gref_build_link_idx_table (gref_add_tail_section g))
           with gtype := GREF_ACV }
  else none

/-- read of the link_idx_base array. -/
def gref_ltbl (g : gref_pool) (i : Nat) : Nat := g.link_idx_table.getD i 0

/-- gref_expand_link_table (gref.c): rebuild the (from, to) pairs from
link_idx_base and the destination array; the C loop writes pair j of
window i in place for j descending and i descending, which (for the
partitioning index tables produced by freeze) yields exactly this list. -/
def gref_expand_link_table (g : gref_pool) : gref_pool :=
  { g with link := (List.range (2 * (g.tail_id + 1))).flatMap (fun i =>
      ((g.link_table.drop (gref_ltbl g i)).take (gref_ltbl g (i + 1) - gref_ltbl g i)).map
        (fun t => (i, t))) }

/-- gref_melt_archive (gref.c). -/
def gref_melt_archive (g : gref_pool) : Option gref_pool :=
  if g.gtype = GREF_ACV then
    some { gref_expand_link_table g with gtype := GREF_POOL }
  else none

/-- gref_get_section_cnt (gref.c): returns tail_id. -/
def gref_get_section_cnt (g : gref_pool) : Nat := g.tail_id

/-- struct gref_iter_stack_s: one frame of the walker.  The field kmer
holds the live entries kmer[0 .. kmer_occ); its length is the C field
kmer_occ. -/
structure gref_iter_stack where
  global_rem_len : Nat
  shift_len : Nat
  sec_gid : Nat
  link_idx : Nat
  is_rev : Bool
  seq_base : Int
  rem_len : Nat
  pos : Nat
  cnt_arr : Nat
  kmer_idx : Nat
  kmer : List Nat
deriving DecidableEq

/-- struct gref_iter_s; the stack is the frame list, head = current frame,
an empty list is the NULL stack pointer. -/
structure gref_iter where
  base_gid : Nat
  tail_gid : Nat
  seed_len : Nat
  shift_len : Nat
  seq : List Nat
  link_table : List Nat
  secs : List gref_section
  link_idx_table : List Nat
  stack : List gref_iter_stack
deriving DecidableEq

/-- popcnt_table of gref_iter_append_base (0x0f deliberately maps to 0). -/
def gref_popcnt_table : List Nat := [0, 1, 1, 2, 1, 2, 2, 3, 1, 2, 2, 3, 2, 3, 3, 0]

/-- popcount of a 4-bit code per that table. -/
def gref_popcnt4 (c : Nat) : Nat := gref_popcnt_table.getD c 0

/-- encode_2bit expansion table of gref_iter_append_base: the concrete
2-bit bases of each 4-bit code, in ascending order. -/
def gref_exp_table : List (List Nat) :=
  [[], [0], [1], [0, 1], [2], [0, 2], [1, 2], [0, 1, 2],
   [3], [0, 3], [1, 3], [0, 1, 3], [2, 3], [0, 2, 3], [1, 2, 3], []]

/-- gref_iter_append_base (gref.c): push one 4-bit base into the frame,
replicating the kmer set per concrete expansion, then shrink the set by
the popcount of the base that just left the k-window (read from cnt_arr at
bit offset shift_len + 2 = 2 k). -/
def gref_iter_append_base (st : gref_iter_stack) (c : Nat) : gref_iter_stack :=
  let pcnt := gref_popcnt4 c
  let cnt_arr := ((st.cnt_arr <<< 2) ||| pcnt) % 2 ^ 64
  let row := gref_exp_table.getD c []
  let expanded := (List.range pcnt).flatMap (fun j =>
      st.kmer.map (fun w => (w >>> 2) ||| ((row.getD j 0) <<< st.shift_len)))
  let shrink_skip := 3 &&& (cnt_arr >>> (st.shift_len + 2))
  let merged := if 1 < shrink_skip then
      (List.range (st.kmer.length * pcnt / shrink_skip)).map
        (fun j => expanded.getD (j * shrink_skip) 0)
    else expanded
  { st with
    cnt_arr := cnt_arr
    kmer_idx := 0
    kmer := merged }

/-- gref_iter_calc_seq_base (gref.c): pointer to the anchor byte for a
frame that will fetch len bases of section gid.  (For len = 0 the C
expression wraps; the value is never dereferenced because the fetch guard
fires first.) -/
def gref_iter_calc_seq_base (it : gref_iter) (gid len : Nat) : Int :=
  let sec := it.secs.getD (gid / 2) ⟨0, 0, 0⟩
  (sec.base : Int) +
    (if gid % 2 = 0 then (len : Int) - 1 else (sec.len : Int) - (len : Int))

/-- gref_iter_foward_fetch (gref.c): decrement rem_len, advance pos and
read seq_base[-(rem_len)]; a read with rem_len = 0 underflows the uint32
and dereferences out of bounds (modelled none), as does any out-of-range
index. -/
def gref_iter_foward_fetch (seq : List Nat) (st : gref_iter_stack) :
    Option (Nat × gref_iter_stack) :=
  if st.rem_len = 0 then none
  else
    let rem := st.rem_len - 1
    let idx := st.seq_base - (rem : Int)
    if 0 ≤ idx ∧ idx < (seq.length : Int) then
      some (seq.getD idx.toNat 0, { st with rem_len := rem, pos := st.pos + 1 })
    else none

/-- gref_iter_reverse_fetch (gref.c): as the forward fetch but reading
seq_base[rem_len], i.e. walking the section from its far end. -/
def gref_iter_reverse_fetch (seq : List Nat) (st : gref_iter_stack) :
    Option (Nat × gref_iter_stack) :=
  if st.rem_len = 0 then none
  else
    let rem := st.rem_len - 1
    let idx := st.seq_base + (rem : Int)
    if 0 ≤ idx ∧ idx < (seq.length : Int) then
      some (seq.getD idx.toNat 0, { st with rem_len := rem, pos := st.pos + 1 })
    else none

/-- the per-frame fetch function pointer, selected by the direction bit. -/
def gref_iter_stack_fetch (it : gref_iter) (st : gref_iter_stack) :
    Option (Nat × gref_iter_stack) :=
  if st.is_rev then gref_iter_reverse_fetch it.seq st
  else gref_iter_foward_fetch it.seq st

/-- fw_link_idx_base of the section of gid: the half-struct array entry at
index 2 * decode_id(gid).  Note it depends only on the section id, not on
the orientation bit of gid. -/
def gref_fw_link_idx_base (it : gref_iter) (gid : Nat) : Nat :=
  it.link_idx_table.getD (2 * (gid / 2)) 0

/-- rv_link_idx_base of the section of gid: the half-struct array entry at
index 2 * decode_id(gid) + 1. -/
def gref_rv_link_idx_base (it : gref_iter) (gid : Nat) : Nat :=
  it.link_idx_table.getD (2 * (gid / 2) + 1) 0

/-- result of gref_iter_fetch: a new stack, the NULL stack (end of this
base segment), or undefined behaviour. -/
inductive gref_fetch_result where
  | next (s : List gref_iter_stack)
  | done
  | crash
deriving DecidableEq

/-- the descend step of gref_iter_fetch: consume link_table[link_idx++],
push a frame for the successor gid (gref_iter_add_stack), initialise its
link window and fetch geometry, and unconditionally fetch one base. -/
def gref_iter_descend (it : gref_iter) (st : gref_iter_stack)
    (rest : List gref_iter_stack) : gref_fetch_result :=
  let gid := it.link_table.getD st.link_idx 0
  let parent := { st with link_idx := st.link_idx + 1 }
  let sec := it.secs.getD (gid / 2) ⟨0, 0, 0⟩
  let rl := min parent.global_rem_len sec.len
  let nf : gref_iter_stack :=
    { global_rem_len := parent.global_rem_len - rl
      shift_len := parent.shift_len
      sec_gid := gid
      link_idx := gref_fw_link_idx_base it gid
      is_rev := gid % 2 = 1
      seq_base := gref_iter_calc_seq_base it gid rl
      rem_len := rl
      pos := parent.pos
      cnt_arr := parent.cnt_arr
      kmer_idx := 0
      kmer := parent.kmer }
  match gref_iter_stack_fetch it nf with
  | none => .crash
  | some (c, nf2) => .next (gref_iter_append_base nf2 c :: parent :: rest)

/-- the while loop of gref_iter_fetch: pop frames whose link window is
exhausted; popping the root yields done; entering with the NULL stack
(after the global_rem_len pop of the root) dereferences NULL. -/
def gref_iter_pop_loop (it : gref_iter) : List gref_iter_stack → gref_fetch_result
  | [] => .crash
  | st :: rest =>
    if st.link_idx = gref_rv_link_idx_base it st.sec_gid then
      match rest with
      | [] => .done
      | _ :: _ => gref_iter_pop_loop it rest
    else gref_iter_descend it st rest

/-- gref_iter_fetch (gref.c). -/
def gref_iter_fetch (it : gref_iter) : List gref_iter_stack → gref_fetch_result
  | [] => .crash
  | st :: rest =>
    if 0 < st.rem_len then
      match gref_iter_stack_fetch it st with
      | none => .crash
      | some (c, st2) => .next (gref_iter_append_base st2 c :: rest)
    else
      gref_iter_pop_loop it (if st.global_rem_len = 0 then rest else st :: rest)

/-- the seed loop of gref_iter_init_stack: seed_len fetches; a done result
before the last iteration means the next iteration dereferences the NULL
stack (none); a done on the last iteration is the NULL stack result. -/
def gref_iter_seed_loop (it : gref_iter) : Nat → List gref_iter_stack →
    Option (List gref_iter_stack)
  | 0, stk => some stk
  | n + 1, stk =>
    match gref_iter_fetch it stk with
    | .crash => none
    | .done => if n = 0 then some [] else none
    | .next stk2 => gref_iter_seed_loop it n stk2

/-- gref_iter_init_stack (gref.c): build the root frame on base_gid and
run the seed loop. -/
def gref_iter_init_stack (it : gref_iter) : Option (List gref_iter_stack) :=
  let gid := it.base_gid
  let sec := it.secs.getD (gid / 2) ⟨0, 0, 0⟩
  let root : gref_iter_stack :=
    { global_rem_len := it.seed_len - 1
      shift_len := it.shift_len
      sec_gid := gid
      link_idx := gref_fw_link_idx_base it gid
      is_rev := false
      seq_base := gref_iter_calc_seq_base it gid sec.len
      rem_len := sec.len
      pos := 0
      cnt_arr := 0
      kmer_idx := 0
      kmer := [0] }
  gref_iter_seed_loop it it.seed_len [root]

/-- GREF_ITER_KMER_TERM: the terminal kmer value, ~0 as a uint64. -/
def GREF_ITER_KMER_TERM : Nat := 2 ^ 64 - 1

/-- struct gref_kmer_tuple_s (the nested gref_gid_pos_s flattened). -/
structure gref_kmer_tuple where
  kmer : Nat
  gid : Nat
  pos : Nat
deriving DecidableEq

/-- gref_iter_init (gref.c): none when the seeding dereferences an absent
frame; a NULL stack result is kept (stack = []) and first dereferenced by
gref_iter_next, as in the C code. -/
def gref_iter_init (g : gref_pool) : Option gref_iter :=
  let it : gref_iter :=
    { base_gid := 0
      tail_gid := 2 * g.tail_id
      seed_len := g.k
      shift_len := 2 * (g.k - 1)
      seq := g.seq
      link_table := g.link_table
      secs := g.secs
      link_idx_table := g.link_idx_table
      stack := [] }
  match gref_iter_init_stack it with
  | none => none
  | some stk => some { it with stack := stk }

/-- the return_kmer macro of gref_iter_next: emit kmer[kmer_idx++] of the
current frame, with gid = base_gid and pos = pos - seed_len (a uint32
subtraction, which wraps when a backtracked window is shorter than
seed_len bases). -/
def gref_iter_return_kmer (it : gref_iter) (st : gref_iter_stack)
    (rest : List gref_iter_stack) : gref_kmer_tuple × gref_iter :=
  (⟨st.kmer.getD st.kmer_idx 0, it.base_gid,
    (st.pos + (2 ^ 32 - it.seed_len % 2 ^ 32)) % 2 ^ 32⟩,
   { it with stack := { st with kmer_idx := st.kmer_idx + 1 } :: rest })

/-- gref_iter_next (gref.c); none models the NULL dereference (stack
pointer NULL, or a crashed fetch / reinitialisation). -/
def gref_iter_next (it : gref_iter) : Option (gref_kmer_tuple × gref_iter) :=
  match it.stack with
  | [] => none
  | st :: rest =>
    if st.kmer_idx < st.kmer.length then
      some (gref_iter_return_kmer it st rest)
    else
      match gref_iter_fetch it (st :: rest) with
      | .crash => none
      | .next stk2 =>
        match stk2 with
        | [] => none
        | st2 :: rest2 => some (gref_iter_return_kmer it st2 rest2)
      | .done =>
        let it2 := { it with base_gid := it.base_gid + 2, stack := [] }
        if it2.base_gid < it2.tail_gid then
          match gref_iter_init_stack it2 with
          | none => none
          | some [] => none
          | some (st2 :: rest2) =>
            some (gref_iter_return_kmer { it2 with stack := st2 :: rest2 } st2 rest2)
        else
          some (⟨GREF_ITER_KMER_TERM, 2 ^ 32 - 1, 0⟩, it2)

/-- the drain loop of gref_build_index: call gref_iter_next until the
terminal kmer; fuel only bounds the recursion, the loop stops at the
terminal tuple like the C while loop. -/
def gref_iter_collect (it : gref_iter) : Nat → Option (List gref_kmer_tuple)
  | 0 => none
  | n + 1 =>
    match gref_iter_next it with
    | none => none
    | some (t, it2) =>
      if t.kmer = GREF_ITER_KMER_TERM then some []
      else
        match gref_iter_collect it2 n with
        | none => none
        | some l => some (t :: l)

/-- order on kmer tuples realised by the sort step of gref_build_index
(psort_half with 16-byte elements keys on the low 8 bytes, the kmer). -/
def gref_tuple_le (a b : gref_kmer_tuple) : Prop := a.kmer ≤ b.kmer

instance : DecidableRel gref_tuple_le := by
  intro a b; unfold gref_tuple_le; infer_instance

instance : IsTotal gref_kmer_tuple gref_tuple_le := by
  constructor; intro a b; unfold gref_tuple_le; omega

instance : IsTrans gref_kmer_tuple gref_tuple_le := by
  constructor; intro a b c; unfold gref_tuple_le; omega

/-- psort_half on the kmer tuple vector. -/
def psort_half_tuples (l : List gref_kmer_tuple) : List gref_kmer_tuple :=
  List.insertionSort gref_tuple_le l

/-- mask constant of gref_build_index: the C expression
(0x01 << (2 * k)) - 1 shifts the 32-bit int literal 0x01; for 2 k >= 32
the shift is undefined behaviour. -/
def gref_mask_const (k : Nat) : Option Nat :=
  if 2 * k < 32 then some (2 ^ (2 * k) - 1) else none

/-- gref_build_kmer_idx_table (gref.c): same scan-and-fill loop as the
link index table, over the keyspace of 4 ^ k kmers. -/
def gref_build_kmer_idx_table (k : Nat) (kmers : List Nat) : List Nat :=
  0 :: gref_idx_scan (2 ^ (2 * k)) kmers.length kmers 0 0

/-- gref_build_index (gref.c): drain the walker, sort the tuples by kmer,
build the prefix index, compact the tuple vector to (gid, pos) pairs,
store the mask and mark IDX. -/
def gref_build_index (fuel : Nat) (g : gref_pool) : Option gref_pool :=
  if g.gtype = GREF_ACV then
    match gref_iter_init g with
    | none => none
    | some it =>
      match gref_iter_collect it fuel with
      | none => none
      | some v =>
        let sorted := psort_half_tuples v
        match gref_mask_const g.k with
        | none => none
        | some m =>
          some { g with
            kmer_idx_table := gref_build_kmer_idx_table g.k (sorted.map gref_kmer_tuple.kmer)
            kmer_table := sorted.map (fun t => (t.gid, t.pos))
            mask := m
            gtype := GREF_IDX }
  else none

/-- gref_match_2bitpacked (gref.c): mask the query word and return the
kmer_table slice delimited by the prefix index. -/
def gref_match_2bitpacked (g : gref_pool) (w : Nat) : List (Nat × Nat) :=
  let s := w &&& g.mask
  let base := g.kmer_idx_table.getD s 0
  let tail := g.kmer_idx_table.getD (s + 1) 0
  (g.kmer_table.drop base).take (tail - base)

/-- the 2-bit packing fold of gref_match (gref.c). -/
def gref_pack_ascii (k : Nat) (chars : List Nat) : Nat :=
  chars.foldl (fun p c => (p >>> 2) ||| (gref_encode_2bit c <<< (2 * (k - 1)))) 0

/-- gref_match (gref.c): pack the length-k ascii query and look it up. -/
def gref_match (g : gref_pool) (chars : List Nat) : List (Nat × Nat) :=
  gref_match_2bitpacked g (gref_pack_ascii g.k chars)

/-- ascii codes of a string (helper for concrete inputs). -/
def gref_str (s : String) : List Nat := s.toList.map Char.toNat

/-- drain a frozen archive with the walker (gref_iter_init followed by the
drain loop of gref_build_index). -/
def gref_enum (fuel : Nat) (g : gref_pool) : Option (List gref_kmer_tuple) :=
  (gref_iter_init g).bind (fun it => gref_iter_collect it fuel)

/-- the link-table window of a gid: L[link_idx_base[gid] .. link_idx_base[gid+1]]. -/
def gref_link_successors (g : gref_pool) (gid : Nat) : List Nat :=
  (g.link_table.drop (gref_ltbl g gid)).take (gref_ltbl g (gid + 1) - gref_ltbl g gid)

/-- product of the 4-bit popcounts of a code list (the nominal number of
concrete expansions of a window). -/
def gref_win_prod (codes : List Nat) : Nat :=
  codes.foldl (fun a c => a * gref_popcnt4 c) 1

/-- number of tuples emitted for a given (gid, pos). -/
def gref_count_pos (gid pos : Nat) (l : List gref_kmer_tuple) : Nat :=
  l.countP (fun t => t.gid == gid && t.pos == pos)

/-- a fallback iterator value used to extract concrete states (never the
result of a successful evaluation in the statements below). -/
def gref_iter_fallback : gref_iter :=
  { base_gid := 0, tail_gid := 0, seed_len := 0, shift_len := 0, seq := [],
    link_table := [], secs := [], link_idx_table := [], stack := [] }

/-- concrete archive: one segment "ACG" with k = 3 (used to drive the
iterator to its terminal tuple). -/
def gref_ex_short : gref_pool :=
  (gref_freeze_pool (gref_apply_ops 3 [gref_op.seg "s" (gref_str "ACG")])).getD
    (gref_init_pool 0)

/-- the iterator on gref_ex_short after its single real tuple has been
returned (the next call returns the terminal tuple). -/
def gref_ex9 : gref_iter :=
  ((gref_iter_init gref_ex_short).bind
    (fun it => (gref_iter_next it).map Prod.snd)).getD gref_iter_fallback

/-- the iterator state right after the terminal tuple. -/
def gref_ex9b : gref_iter :=
  ((gref_iter_next gref_ex9).map Prod.snd).getD gref_iter_fallback

/-- concrete archive exercising a reverse-entered frame: X = "A" links to
the reverse orientation of Y = "G", whose section has a forward link to
Z = "CTT"; k = 3 (the freeze succeeds, so getD returns the archive). -/
def gref_ex4ops : List gref_op :=
  [gref_op.seg "X" (gref_str "A"), gref_op.lnk "X" 0 "Y" 1,
   gref_op.seg "Y" (gref_str "G"), gref_op.lnk "Y" 0 "Z" 0,
   gref_op.seg "Z" (gref_str "CTT")]

def gref_ex4 : gref_pool :=
  (gref_freeze_pool (gref_apply_ops 3 gref_ex4ops)).getD (gref_init_pool 0)

/-- the pool obtained by melting gref_ex4 back to the POOL state. -/
def gref_ex4p : gref_pool :=
  (gref_melt_archive gref_ex4).getD (gref_init_pool 0)

/-- concrete archive: single linkless segment "NAARA", k = 3. -/
def gref_ex2a : gref_pool :=
  (gref_freeze_pool (gref_apply_ops 3 [gref_op.seg "s" (gref_str "NAARA")])).getD
    (gref_init_pool 0)

/-- concrete archive: single linkless segment "ANAA", k = 3. -/
def gref_ex2b : gref_pool :=
  (gref_freeze_pool (gref_apply_ops 3 [gref_op.seg "s" (gref_str "ANAA")])).getD
    (gref_init_pool 0)
/-- concrete archive: single all-concrete segment "ACGT", k = 3. -/
def gref_ex1acv : gref_pool :=
  (gref_freeze_pool (gref_apply_ops 3 [gref_op.seg "sec0" (gref_str "ACGT")])).getD
    (gref_init_pool 0)

/-- the index built on gref_ex1acv. -/
def gref_ex1idx : gref_pool :=
  (gref_build_index 50 gref_ex1acv).getD (gref_init_pool 0)

/-- the archive frozen from the single-segment pool "A", k = 3. -/
def gref_ex5 : gref_pool :=
  (gref_freeze_pool (gref_apply_ops 3 [gref_op.seg "s" (gref_str "A")])).getD
    (gref_init_pool 0)

/-- concrete archive: single linkless segment "GGRA", k = 3. -/
def gref_ex2c : gref_pool :=
  (gref_freeze_pool (gref_apply_ops 3 [gref_op.seg "s" (gref_str "GGRA")])).getD
    (gref_init_pool 0)

/-- the value of the 2-bit-per-entry history register cnt_arr before
truncation: the packed popcount list, most recent entry in the low bits. -/
def gref_pack4 : List Nat → Nat
  | [] => 0
  | p :: ps => p * 4 ^ ps.length + gref_pack4 ps

/-- one step of the kmer word fold shared by gref_iter_append_base (on a
concrete base) and the query fold of gref_match: shift the word right two
bits and place the 2-bit value e at the top of the 2 k-bit window. -/
def gref_pack_step (k w e : Nat) : Nat := (w >>> 2) ||| (e <<< (2 * (k - 1)))

/-- the kmer word after pushing the 2-bit values es into w. -/
def gref_pack_fold (k w : Nat) (es : List Nat) : Nat := es.foldl (gref_pack_step k) w

/-- the walker frame shape held while enumerating the windows of a single
linkless base segment of length L at offset 0 (m bases consumed so far,
popcount history ps). -/
def gref_c2_frame (k L : Nat) (ps : List Nat) (m : Nat) (st : gref_iter_stack) : Prop :=
  st.is_rev = false ∧ st.sec_gid = 0 ∧ st.link_idx = 0 ∧ st.global_rem_len = k - 1 ∧
  st.shift_len = 2 * (k - 1) ∧ st.seq_base = (L : Int) - 1 ∧
  st.rem_len = L - m ∧ st.pos = m ∧
  st.cnt_arr = gref_pack4 (ps.take m) % 2 ^ 64 ∧
  st.kmer.length = ((ps.take m).drop (m - k)).prod ∧
  (∀ w ∈ st.kmer, w < 4 ^ k)

/-- the iterator fields fixed while draining the single-segment archive of
gref_c2_frame. -/
def gref_c2_iter (k : Nat) (codes : List Nat) (it : gref_iter) : Prop :=
  it.base_gid = 0 ∧ it.tail_gid = 2 ∧ it.seed_len = k ∧
  it.seq = codes ∧ gref_rv_link_idx_base it 0 = 0

/-- the walker frame shape held while enumerating the windows of base
segment sec with 2-bit code list es (m bases consumed); every base is
concrete, so the kmer set is the singleton word of the last k codes. -/
def gref_c1_frame (k : Nat) (sec : gref_section) (es : List Nat) (m : Nat)
    (st : gref_iter_stack) : Prop :=
  st.is_rev = false ∧
  st.seq_base = (sec.base : Int) + ((sec.len : Int) - 1) ∧
  st.rem_len = sec.len - m ∧ st.pos = m ∧
  st.cnt_arr = gref_pack4 (List.replicate m 1) % 2 ^ 64 ∧
  st.shift_len = 2 * (k - 1) ∧
  st.kmer = [gref_pack_fold k 0 (es.take m)]

/-- the iterator fields that stay fixed across the whole drain loop. -/
def gref_c1_iter (k N : Nat) (seq : List Nat) (secs : List gref_section)
    (it : gref_iter) : Prop :=
  it.seed_len = k ∧ it.shift_len = 2 * (k - 1) ∧ it.tail_gid = 2 * N ∧
  it.seq = seq ∧ it.secs = secs

/-- every live frame carries the window shift for seed length k and only
valid 2 k-bit kmer words. -/
def gref_stack_bound (k : Nat) (stk : List gref_iter_stack) : Prop :=
  ∀ st ∈ stk, st.shift_len = 2 * (k - 1) ∧ ∀ w ∈ st.kmer, w < 4 ^ k

/-- well-formedness facts maintained by the pool-building operations. -/
structure gref_wf (g : gref_pool) : Prop where
  names_secs : g.secs.length = g.names.length
  tail_le : g.tail_id ≤ g.names.length
  link_bound : ∀ p ∈ g.link, p.1 ≤ 2 * g.tail_id + 1 ∧ p.2 ≤ 2 * g.tail_id + 1
  secs_bound : ∀ s ∈ g.secs, s.base + s.len ≤ g.seq.length
  is_pool : g.gtype = GREF_POOL

/-- C5, counterexample. -/
theorem C5_counterexample :
    gref_get_section_cnt (gref_apply_ops 3 [gref_op.lnk "a" 0 "b" 0]) = 1 ∧
    (gref_apply_ops 3 [gref_op.lnk "a" 0 "b" 0]).names.length = 2 ∧
    (gref_freeze_pool (gref_apply_ops 3 [gref_op.seg "s" (gref_str "A")])).map
      (fun a => a.names.length) = some 3 ∧
    (gref_apply_ops 3 [gref_op.seg "s" (gref_str "A")]).names.length = 1 := by
  refine ⟨by decide, by decide, by decide, by decide⟩

/-- C10, counterexample. -/
theorem C10_counterexample :
    (gref_freeze_pool (gref_apply_ops 3 [])).map gref_iter_init = some none ∧
    (gref_freeze_pool (gref_apply_ops 3 [gref_op.seg "s" (gref_str "AC")])).map
      (fun a => (gref_iter_init a).map
        (fun it => (it.stack, gref_iter_next it))) = some (some ([], none)) := by
  refine ⟨by decide, by decide⟩

/-- C9, counterexample. -/
theorem C9_counterexample :
    (gref_iter_next gref_ex9).map (fun p => (p.1, p.2.stack)) =
      some (⟨GREF_ITER_KMER_TERM, 2 ^ 32 - 1, 0⟩, []) ∧
    gref_iter_next gref_ex9b = none := by
  refine ⟨by decide, by decide⟩

/-- C4, failing-input evaluation. -/
theorem C4_failing_eval :
    (gref_enum 300 gref_ex4).map
      (fun l => decide ((⟨8, 0, 0⟩ : gref_kmer_tuple) ∈ l)) = some true ∧
    gref_ltbl gref_ex4 3 = 3 ∧ gref_ltbl gref_ex4 4 = 3 ∧
    gref_link_successors gref_ex4 3 = [] := by
  refine ⟨by decide, by decide, by decide, by decide⟩

/-- C2, counterexample. -/
theorem C2_counterexample :
    (gref_enum 100 gref_ex2a).map (gref_count_pos 0 1) = some 1 ∧
    (gref_enum 100 gref_ex2b).map (gref_count_pos 0 1) = some 1 := by
  refine ⟨by decide, by decide⟩

/-- C8, counterexample. -/
theorem C8_counterexample :
    (gref_freeze_pool (gref_apply_ops 3 [gref_op.seg "s" (gref_str "A")])).map
      (fun a => ((gref_append_segment a "t" (gref_str "A")).1,
                 (gref_append_segment a "t" (gref_str "A")).2.seq.length,
                 a.seq.length,
                 decide ((gref_append_segment a "t" (gref_str "A")).2 = a)))
      = some (0, 2, 1, false) := by
  decide
/-- C8 (amended): gref_append_segment performs no state check. -/
theorem C8_amended (g : gref_pool) (name : String) (chars : List Nat) :
    (gref_append_segment g name chars).1 = 0 ∧
    (gref_append_segment g name chars).2.seq = g.seq ++ chars.map gref_encode_4bit ∧
    (gref_append_segment g name chars).2.gtype = g.gtype := by
  unfold gref_append_segment gref_copy_seq_ascii hmap_alloc
  cases h : (g.names.findIdx? (fun n => n == name)) <;> simp [h]

/-- C9 (amended): terminal then crash. -/
theorem C9_amended (it it2 : gref_iter) (t : gref_kmer_tuple)
    (heven : it.base_gid % 2 = 0)
    (h : gref_iter_next it = some (t, it2))
    (hgid : t.gid = 2 ^ 32 - 1) :
    it2.stack = [] ∧ gref_iter_next it2 = none := by
  unfold gref_iter_next at h
  split at h
  · exact absurd h (by simp)
  · rename_i st rest
    split at h
    · simp [gref_iter_return_kmer] at h
      rw [← h.1] at hgid
      simp at hgid
      omega
    · split at h
      · exact absurd h (by simp)
      · rename_i stk2 _
        match stk2, h with
        | [], h => exact absurd h (by simp)
        | st2 :: rest2, h =>
          simp [gref_iter_return_kmer] at h
          rw [← h.1] at hgid
          simp at hgid
          omega
      · dsimp only at h
        split at h
        · split at h
          · exact absurd h (by simp)
          · exact absurd h (by simp)
          · simp [gref_iter_return_kmer] at h
            rw [← h.1] at hgid
            simp at hgid
            omega
        · simp at h
          obtain ⟨ht, hit⟩ := h
          constructor
          · rw [← hit]
          · rw [← hit]
            unfold gref_iter_next
            simp
/-- C7 theorem. -/
theorem C7_theorem (fuel : Nat) (g idx : gref_pool)
    (hk15 : g.k ≤ 15)
    (hb : gref_build_index fuel g = some idx) :
    idx.mask = 2 ^ (2 * g.k) - 1 ∧
    (∀ w, gref_match_2bitpacked idx w =
          gref_match_2bitpacked idx (w &&& (2 ^ (2 * g.k) - 1))) ∧
    gref_mask_const 16 = none := by
  unfold gref_build_index at hb
  split at hb
  case isFalse => exact absurd hb (by simp)
  split at hb
  case h_1 => exact absurd hb (by simp)
  split at hb
  case h_1 => exact absurd hb (by simp)
  rename_i it hit v hv
  split at hb
  case h_1 hm =>
    unfold gref_mask_const at hm
    split at hm
    · exact absurd hm (by simp)
    · omega
  case h_2 m hm =>
    unfold gref_mask_const at hm
    split at hm
    case isFalse => exact absurd hm (by simp)
    case isTrue =>
      have hmask : idx.mask = 2 ^ (2 * g.k) - 1 := by
        rw [← Option.some_inj.mp hb]
        simpa using (Option.some_inj.mp hm).symm
      refine ⟨hmask, ?_, by decide⟩
      intro w
      unfold gref_match_2bitpacked
      rw [hmask, Nat.and_pow_two_sub_one_eq_mod, Nat.and_pow_two_sub_one_eq_mod,
        Nat.mod_mod_of_dvd]
      exact dvd_refl _
/-- C7 witness. -/
theorem C7_witness :
    gref_ex1acv.k ≤ 15 ∧
    gref_build_index 50 gref_ex1acv = some gref_ex1idx ∧
    gref_match_2bitpacked gref_ex1idx 0xDEADBEEF =
      gref_match_2bitpacked gref_ex1idx (0xDEADBEEF &&& (2 ^ (2 * gref_ex1acv.k) - 1)) :=
  ⟨by decide, by decide,
   (C7_theorem 50 gref_ex1acv gref_ex1idx (by decide) (by decide)).2.1 0xDEADBEEF⟩

/-- C9 witness. -/
theorem C9_witness :
    gref_ex9.base_gid % 2 = 0 ∧
    gref_iter_next gref_ex9 = some (⟨GREF_ITER_KMER_TERM, 2 ^ 32 - 1, 0⟩, gref_ex9b) ∧
    gref_ex9b.stack = [] ∧ gref_iter_next gref_ex9b = none := by
  refine ⟨by decide, by decide, ?_⟩
  exact C9_amended gref_ex9 gref_ex9b ⟨GREF_ITER_KMER_TERM, 2 ^ 32 - 1, 0⟩
    (by decide) (by decide) (by decide)
/-- one fetch step of the walker inside a frame that still has bases left
(forward orientation, in-bounds read). -/
theorem gref_root_fetch_step (it : gref_iter) (st : gref_iter_stack)
    (rest : List gref_iter_stack)
    (hrev : st.is_rev = false) (hrem : 0 < st.rem_len)
    (hlow : 0 ≤ st.seq_base + 1 - st.rem_len)
    (hhigh : st.seq_base < (it.seq.length : Int)) :
    gref_iter_fetch it (st :: rest) =
      .next (gref_iter_append_base
        { st with rem_len := st.rem_len - 1, pos := st.pos + 1 }
        (it.seq.getD (st.seq_base - ((st.rem_len - 1 : Nat) : Int)).toNat 0) :: rest) := by
  have hfe : gref_iter_stack_fetch it st =
      some (it.seq.getD (st.seq_base - ((st.rem_len - 1 : Nat) : Int)).toNat 0,
        { st with rem_len := st.rem_len - 1, pos := st.pos + 1 }) := by
    unfold gref_iter_stack_fetch gref_iter_foward_fetch
    rw [hrev]
    simp only [Bool.false_eq_true, if_false]
    rw [if_neg (by omega)]
    rw [if_pos (by constructor <;> omega)]
  simp only [gref_iter_fetch]
  rw [if_pos hrem, hfe]

/-- running the seed loop n steps inside one forward frame with enough
bases left succeeds and only advances rem_len and pos. -/
theorem gref_seed_loop_run (it : gref_iter) :
    ∀ (n : Nat) (st : gref_iter_stack) (rest : List gref_iter_stack),
      st.is_rev = false → n ≤ st.rem_len →
      0 ≤ st.seq_base + 1 - st.rem_len → st.seq_base < (it.seq.length : Int) →
      ∃ st2, gref_iter_seed_loop it n (st :: rest) = some (st2 :: rest) ∧
        st2.is_rev = false ∧ st2.seq_base = st.seq_base ∧
        st2.rem_len = st.rem_len - n ∧ st2.pos = st.pos + n
  | 0, st, rest, hrev, hn, hlow, hhigh => by
    exact ⟨st, rfl, hrev, rfl, by omega, by omega⟩
  | n + 1, st, rest, hrev, hn, hlow, hhigh => by
    have hrem : 0 < st.rem_len := by omega
    have hstep := gref_root_fetch_step it st rest hrev hrem hlow hhigh
    unfold gref_iter_seed_loop
    rw [hstep]
    set c := it.seq.getD (st.seq_base - ((st.rem_len - 1 : Nat) : Int)).toNat 0 with hc
    set st1 := gref_iter_append_base
      { st with rem_len := st.rem_len - 1, pos := st.pos + 1 } c with hst1
    have h1 : st1.is_rev = false := by rw [hst1]; simp [gref_iter_append_base, hrev]
    have h2 : st1.seq_base = st.seq_base := by rw [hst1]; simp [gref_iter_append_base]
    have h3 : st1.rem_len = st.rem_len - 1 := by rw [hst1]; simp [gref_iter_append_base]
    have h4 : st1.pos = st.pos + 1 := by rw [hst1]; simp [gref_iter_append_base]
    obtain ⟨st2, hrun, r1, r2, r3, r4⟩ :=
      gref_seed_loop_run it n st1 rest h1 (by omega)
        (by rw [h2, h3]; omega) (by rw [h2]; exact hhigh)
    exact ⟨st2, hrun, r1, by rw [r2, h2], by omega, by omega⟩

/-- C10 (amended): gref_iter_init completes the k-base seeding, with a
live stack frame, whenever the base segment itself holds at least k
in-bounds bases. -/
theorem C10_amended (g : gref_pool)
    (hlen : g.k ≤ (g.secs.getD 0 ⟨0, 0, 0⟩).len)
    (hbound : (g.secs.getD 0 ⟨0, 0, 0⟩).base + (g.secs.getD 0 ⟨0, 0, 0⟩).len ≤ g.seq.length) :
    ∃ it, gref_iter_init g = some it ∧ it.stack ≠ [] := by
  unfold gref_iter_init gref_iter_init_stack
  simp only [Nat.zero_div]
  set it0 : gref_iter :=
    { base_gid := 0
      tail_gid := 2 * g.tail_id
      seed_len := g.k
      shift_len := 2 * (g.k - 1)
      seq := g.seq
      link_table := g.link_table
      secs := g.secs
      link_idx_table := g.link_idx_table
      stack := [] } with hit0
  set sec := g.secs.getD 0 ⟨0, 0, 0⟩ with hsec
  set root : gref_iter_stack :=
    { global_rem_len := g.k - 1
      shift_len := 2 * (g.k - 1)
      sec_gid := 0
      link_idx := gref_fw_link_idx_base it0 0
      is_rev := false
      seq_base := gref_iter_calc_seq_base it0 0 sec.len
      rem_len := sec.len
      pos := 0
      cnt_arr := 0
      kmer_idx := 0
      kmer := [0] } with hroot
  have hsb : root.seq_base = (sec.base : Int) + ((sec.len : Int) - 1) := by
    rw [hroot]
    unfold gref_iter_calc_seq_base
    simp [hit0, hsec]
  obtain ⟨st2, hrun, -, -, -, -⟩ :=
    gref_seed_loop_run it0 g.k root []
      (by rw [hroot]) (by rw [hroot]; exact hlen)
      (by rw [hsb, hroot]; simp only; omega)
      (by rw [hsb, hit0]; simp only; omega)
  rw [hrun]
  exact ⟨{ it0 with stack := [st2] }, rfl, by simp⟩

/-- C10 witness. -/
theorem C10_witness :
    gref_ex_short.k ≤ (gref_ex_short.secs.getD 0 ⟨0, 0, 0⟩).len ∧
    (gref_ex_short.secs.getD 0 ⟨0, 0, 0⟩).base +
      (gref_ex_short.secs.getD 0 ⟨0, 0, 0⟩).len ≤ gref_ex_short.seq.length ∧
    ∃ it, gref_iter_init gref_ex_short = some it ∧ it.stack ≠ [] :=
  ⟨by decide, by decide, C10_amended gref_ex_short (by decide) (by decide)⟩
/-- hmap_alloc preserves the well-formedness facts and returns an
in-range id, leaving tail_id, link, seq and the state tag unchanged. -/
theorem hmap_alloc_wf (g : gref_pool) (name : String) (hns : g.secs.length = g.names.length)
    (htl : g.tail_id ≤ g.names.length) :
    ∃ g2 id, hmap_alloc g name = (g2, id) ∧
      g2.secs.length = g2.names.length ∧ g2.tail_id ≤ g2.names.length ∧
      id < g2.names.length ∧ g.names.length ≤ g2.names.length ∧
      g2.tail_id = g.tail_id ∧ g2.link = g.link ∧ g2.seq = g.seq ∧
      g2.gtype = g.gtype ∧ g2.k = g.k ∧
      (∀ s ∈ g2.secs, s ∈ g.secs ∨ s = ⟨0, 0, 0⟩) := by
  unfold hmap_alloc
  cases hfind : g.names.findIdx? (fun n => n == name) with
  | none =>
    refine ⟨_, _, rfl, ?_⟩
    refine ⟨by simp [hns], by simp; omega, by simp, by simp, rfl, rfl, rfl, rfl, rfl, ?_⟩
    intro s hs
    rcases List.mem_append.mp hs with h1 | h1
    · exact Or.inl h1
    · right; simpa using h1
  | some i =>
    have hi : i < g.names.length := (List.findIdx?_eq_some_iff_getElem.mp hfind).1
    exact ⟨g, i, rfl, hns, htl, hi, le_refl _, rfl, rfl, rfl, rfl, rfl,
      fun s hs => Or.inl hs⟩

/-- the well-formedness facts are preserved by every pool operation. -/
theorem gref_wf_apply_op (g : gref_pool) (op : gref_op) (hw : gref_wf g) :
    gref_wf (gref_apply_op g op) := by
  obtain ⟨hns, htl, hlb, hsb, hip⟩ := hw
  cases op with
  | seg name cs =>
    obtain ⟨g2, id, heq, w1, w2, w3, w4, w5, w6, w7, w8, w9, w10⟩ :=
      hmap_alloc_wf { g with seq := g.seq ++ cs.map gref_encode_4bit } name
        (by simpa using hns) (by simpa using htl)
    refine ⟨?_, ?_, ?_, ?_, ?_⟩ <;>
      simp only [gref_apply_op, gref_append_segment, gref_copy_seq_ascii, heq]
    · simp [List.length_set, w1]
    · simp only [sup_le_iff]
      omega
    · intro p hp
      rw [w6] at hp
      have := hlb p hp
      have h2 : g.tail_id ≤ g2.tail_id ⊔ (id + 1) := by
        rw [w5]; exact le_sup_left
      constructor <;> omega
    · intro s hs
      rcases List.mem_or_eq_of_mem_set hs with h1 | h1
      · rcases w10 s h1 with h2 | h2
        · have := hsb s h2
          simp only at h2 ⊢
          rw [w7]
          simp only [List.length_append]
          omega
        · rw [h2, w7]
          simp
      · subst h1
        rw [w7]
        simp only [List.length_append, List.length_map]
        have hmin : (g.seq.length + cs.length - g.seq.length) ⊓ 2147483648 ≤
            g.seq.length + cs.length - g.seq.length := inf_le_left
        omega
    · rw [w8]; exact hip
  | lnk src so dst dor =>
    obtain ⟨g1, sid, heq1, a1, a2, a3, a4, a5, a6, a7, a8, a9, a10⟩ :=
      hmap_alloc_wf g src hns htl
    obtain ⟨g2, did, heq2, b1, b2, b3, b4, b5, b6, b7, b8, b9, b10⟩ :=
      hmap_alloc_wf g1 dst a1 a2
    refine ⟨?_, ?_, ?_, ?_, ?_⟩ <;>
      simp only [gref_apply_op, gref_append_link, heq1, heq2]
    · exact b1
    · simp only [sup_le_iff]
      refine ⟨⟨?_, ?_⟩, ?_⟩ <;> omega
    · intro p hp
      rw [b6, a6] at hp
      rcases List.mem_append.mp hp with h1 | h1
      · have := hlb p h1
        have h2 : g.tail_id ≤ g2.tail_id ⊔ sid ⊔ did := by
          rw [b5, a5]
          calc g.tail_id ≤ g.tail_id ⊔ sid := le_sup_left
          _ ≤ g.tail_id ⊔ sid ⊔ did := le_sup_left
        constructor <;> omega
      · have hs1 : sid ≤ g2.tail_id ⊔ sid ⊔ did :=
          le_trans le_sup_right le_sup_left
        have hd1 : did ≤ g2.tail_id ⊔ sid ⊔ did := le_sup_right
        have hb1 : ∀ d, (1 &&& d) ≤ 1 := fun d => Nat.and_le_left
        simp only [List.mem_cons, List.mem_singleton, List.not_mem_nil, or_false] at h1
        rcases h1 with h2 | h2
        · subst h2
          simp only [gref_encode_gid]
          have c1 := hb1 so
          have c2 := hb1 dor
          constructor <;> omega
        · subst h2
          simp only [gref_encode_gid]
          have c1 := hb1 (gref_rev_dir so)
          have c2 := hb1 (gref_rev_dir dor)
          constructor <;> omega
    · intro s hs
      rcases b10 s hs with h1 | h1
      · rcases a10 s h1 with h2 | h2
        · have := hsb s h2
          rw [b7, a7]
          omega
        · rw [h2, b7, a7]; simp
      · rw [h1, b7, a7]; simp
    · rw [b8, a8]; exact hip

/-- the well-formedness facts propagate through a fold of operations. -/
theorem gref_wf_foldl (ops : List gref_op) :
    ∀ g : gref_pool, gref_wf g → gref_wf (ops.foldl gref_apply_op g) := by
  induction ops with
  | nil => intro g hg; exact hg
  | cons op rest ih =>
    intro g hg
    rw [List.foldl_cons]
    exact ih _ (gref_wf_apply_op g op hg)

/-- the well-formedness facts hold for every pool built by the append
operations. -/
theorem gref_wf_apply_ops (k : Nat) (ops : List gref_op) :
    gref_wf (gref_apply_ops k ops) := by
  have hinit : gref_wf (gref_init_pool k) := by
    refine ⟨rfl, le_refl _, ?_, ?_, rfl⟩ <;> intro p hp <;> simp [gref_init_pool] at hp
  exact gref_wf_foldl ops _ hinit
/-- characterization of the index-filling scan: over nondecreasing keys
bounded by n, the produced entries (for table indices prev+1 .. n) are the
counts of keys strictly below the index, offset by the scan position. -/
theorem gref_idx_scan_spec (n : Nat) :
    ∀ (keys : List Nat) (i prev : Nat),
      List.Pairwise (· ≤ ·) keys → (∀ x ∈ keys, prev ≤ x ∧ x ≤ n) →
      gref_idx_scan n (i + keys.length) keys i prev =
        (List.range' (prev + 1) (n - prev)).map
          (fun w => i + keys.countP (fun x => decide (x < w)))
  | [], i, prev, hch, hb => by
    simp [gref_idx_scan, List.eq_replicate_iff, List.mem_map]
  | key :: rest, i, prev, hch, hb => by
    have hkey := hb key (by simp)
    have hhead : ∀ x ∈ rest, key ≤ x := fun x hx => List.rel_of_pairwise_cons hch hx
    have hrest : ∀ x ∈ rest, key ≤ x ∧ x ≤ n := by
      intro x hx
      exact ⟨hhead x hx, (hb x (by simp [hx])).2⟩
    have hp : List.Pairwise (· ≤ ·) rest := hch.of_cons
    have hlen : i + (key :: rest).length = (i + 1) + rest.length := by
      simp only [List.length_cons]; omega
    have ih := gref_idx_scan_spec n rest (i + 1) key hp hrest
    unfold gref_idx_scan
    by_cases hpk : prev = key
    · rw [if_pos hpk]
      have ih2 := gref_idx_scan_spec n rest (i + 1) prev hp (hpk ▸ hrest)
      rw [hlen, ih2]
      apply List.map_congr_left
      intro w hw
      have hwmem := List.mem_range'_1.mp hw
      rw [List.countP_cons]
      have hdec : (decide (key < w)) = true := by
        simp only [decide_eq_true_eq]
        omega
      rw [hdec]
      simp
      omega
    · rw [if_neg hpk]
      have hplt : prev < key := by
        have := hkey.1
        omega
      rw [hlen, ih]
      have harith : n - prev = n - key + (key - prev) := by omega
      have hsplit : List.range' (prev + 1) (n - prev) =
          List.range' (prev + 1) (key - prev) ++ List.range' (key + 1) (n - key) := by
        rw [harith, ← List.range'_append (prev + 1) (key - prev) (n - key) 1,
          show prev + 1 + 1 * (key - prev) = key + 1 from by omega]
      rw [hsplit, List.map_append]
      congr 1
      · symm
        rw [List.eq_replicate_iff]
        refine ⟨by simp, ?_⟩
        intro b hbm
        rcases List.mem_map.mp hbm with ⟨w, hw, hfw⟩
        have hwmem := List.mem_range'_1.mp hw
        have hcnt : (key :: rest).countP (fun x => decide (x < w)) = 0 := by
          rw [List.countP_eq_zero]
          intro a ha
          simp only [decide_eq_true_eq]
          rcases List.mem_cons.mp ha with h2 | h2
          · omega
          · have := hhead a h2
            omega
        rw [hcnt] at hfw
        omega
      · apply List.map_congr_left
        intro w hw
        have hwmem := List.mem_range'_1.mp hw
        rw [List.countP_cons]
        have hdec : (decide (key < w)) = true := by
          simp only [decide_eq_true_eq]
          omega
        rw [hdec]
        simp
        omega

/-- reading the index table produced by the scan (with its prepended 0
entry) at w gives the number of keys strictly below w. -/
theorem gref_idx_table_lookup (n : Nat) (keys : List Nat) (w : Nat)
    (hch : List.Pairwise (· ≤ ·) keys) (hb : ∀ x ∈ keys, x ≤ n) (hw : w ≤ n) :
    (0 :: gref_idx_scan n keys.length keys 0 0).getD w 0 =
      keys.countP (fun x => decide (x < w)) := by
  have hspec := gref_idx_scan_spec n keys 0 0 hch (fun x hx => ⟨Nat.zero_le x, hb x hx⟩)
  rw [show (0 : Nat) + keys.length = keys.length from by omega] at hspec
  cases w with
  | zero =>
    have h0 : (0 :: gref_idx_scan n keys.length keys 0 0).getD 0 0 = 0 := rfl
    rw [h0]
    symm
    rw [List.countP_eq_zero]
    intro a ha
    simp
  | succ w2 =>
    rw [List.getD_cons_succ, hspec]
    rw [List.getD_eq_getElem?_getD, List.getElem?_map]
    have hlt : w2 < n - 0 := by omega
    rw [List.getElem?_range' 1 1 hlt]
    simp only [Option.map_some', Option.getD_some]
    rw [show (1 + 1 * w2) = w2 + 1 from by omega]
    omega

/-- in a sorted list whose keys are all at least w, the first
countP (key < w + 1) elements are exactly those with key = w. -/
theorem gref_take_countP_eq_filter {α : Type} (key : α → Nat) (w : Nat) :
    ∀ l : List α, List.Pairwise (fun a b => key a ≤ key b) l →
      (∀ b ∈ l, w ≤ key b) →
      l.take (l.countP (fun a => decide (key a < w + 1))) =
        l.filter (fun a => decide (key a = w))
  | [], _, _ => rfl
  | b :: l, hp, hge => by
    have hb := hge b (by simp)
    have hl : ∀ x ∈ l, w ≤ key x := fun x hx => hge x (by simp [hx])
    have hlb : ∀ x ∈ l, key b ≤ key x := fun x hx => List.rel_of_pairwise_cons hp hx
    rcases Nat.lt_or_ge w (key b) with hgt | hle
    · have hc : (b :: l).countP (fun a => decide (key a < w + 1)) = 0 := by
        rw [List.countP_eq_zero]
        intro a ha
        simp only [decide_eq_true_eq]
        rcases List.mem_cons.mp ha with h | h
        · subst h; omega
        · have := hlb a h; omega
      rw [hc]
      simp only [List.take_zero]
      symm
      rw [List.filter_eq_nil_iff]
      intro a ha
      simp only [decide_eq_true_eq]
      rcases List.mem_cons.mp ha with h | h
      · subst h; omega
      · have := hlb a h; omega
    · have hkb : key b = w := by omega
      rw [List.countP_cons]
      have hdec : (decide (key b < w + 1)) = true := by
        simp only [decide_eq_true_eq]; omega
      rw [hdec]
      simp only [if_true]
      rw [List.take_succ_cons]
      rw [List.filter_cons_of_pos (by simp only [decide_eq_true_eq]; omega)]
      congr 1
      exact gref_take_countP_eq_filter key w l hp.of_cons hl

/-- slice characterization for a sorted list: dropping the number of
elements with key below w and taking the count difference yields exactly
the elements with key equal to w. -/
theorem gref_sorted_slice {α : Type} (key : α → Nat) (w : Nat) :
    ∀ l : List α, List.Pairwise (fun a b => key a ≤ key b) l →
      (l.drop (l.countP (fun a => decide (key a < w)))).take
          (l.countP (fun a => decide (key a < w + 1)) -
           l.countP (fun a => decide (key a < w))) =
        l.filter (fun a => decide (key a = w))
  | [], _ => rfl
  | b :: l, hp => by
    have hlb : ∀ x ∈ l, key b ≤ key x := fun x hx => List.rel_of_pairwise_cons hp hx
    rcases lt_trichotomy (key b) w with h | h | h
    · rw [List.countP_cons, List.countP_cons]
      have h1 : (decide (key b < w)) = true := by
        simp only [decide_eq_true_eq]; omega
      have h2 : (decide (key b < w + 1)) = true := by
        simp only [decide_eq_true_eq]; omega
      rw [h1, h2]
      simp only [if_true]
      rw [List.drop_succ_cons, Nat.succ_sub_succ]
      rw [List.filter_cons_of_neg (by simp only [decide_eq_true_eq]; omega)]
      exact gref_sorted_slice key w l hp.of_cons
    · have hc : (b :: l).countP (fun a => decide (key a < w)) = 0 := by
        rw [List.countP_eq_zero]
        intro a ha
        simp only [decide_eq_true_eq]
        rcases List.mem_cons.mp ha with h2 | h2
        · subst h2; omega
        · have := hlb a h2; omega
      rw [hc, List.drop_zero, Nat.sub_zero]
      apply gref_take_countP_eq_filter key w (b :: l) hp
      intro x hx
      rcases List.mem_cons.mp hx with h2 | h2
      · subst h2; omega
      · have := hlb x h2; omega
    · have hc : (b :: l).countP (fun a => decide (key a < w)) = 0 := by
        rw [List.countP_eq_zero]
        intro a ha
        simp only [decide_eq_true_eq]
        rcases List.mem_cons.mp ha with h2 | h2
        · subst h2; omega
        · have := hlb a h2; omega
      have hc2 : (b :: l).countP (fun a => decide (key a < w + 1)) = 0 := by
        rw [List.countP_eq_zero]
        intro a ha
        simp only [decide_eq_true_eq]
        rcases List.mem_cons.mp ha with h2 | h2
        · subst h2; omega
        · have := hlb a h2; omega
      rw [hc, hc2]
      simp only [Nat.sub_zero, List.drop_zero, List.take_zero]
      symm
      rw [List.filter_eq_nil_iff]
      intro a ha
      simp only [decide_eq_true_eq]
      rcases List.mem_cons.mp ha with h2 | h2
      · subst h2; omega
      · have := hlb a h2; omega

/-- the sentinel-pushing loop touches only names and secs. -/
theorem gref_add_tail_loop_fields (target : Nat) :
    ∀ (fuel : Nat) (g : gref_pool) (m : Nat),
      (gref_add_tail_loop target fuel g m).tail_id = g.tail_id ∧
      (gref_add_tail_loop target fuel g m).link = g.link ∧
      (gref_add_tail_loop target fuel g m).seq = g.seq ∧
      (gref_add_tail_loop target fuel g m).k = g.k ∧
      (gref_add_tail_loop target fuel g m).gtype = g.gtype ∧
      (gref_add_tail_loop target fuel g m).link_idx_table = g.link_idx_table ∧
      (gref_add_tail_loop target fuel g m).link_table = g.link_table
  | 0, g, m => ⟨rfl, rfl, rfl, rfl, rfl, rfl, rfl⟩
  | fuel + 1, g, m => by
    unfold gref_add_tail_loop
    cases hfind : g.names.findIdx? (fun n => n == gref_tail_sentinel_name m) with
    | none =>
      simp only [hmap_alloc, hfind]
      split
      · exact ⟨rfl, rfl, rfl, rfl, rfl, rfl, rfl⟩
      · exact gref_add_tail_loop_fields target fuel _ (m + 1)
    | some i =>
      simp only [hmap_alloc, hfind]
      split
      · exact ⟨rfl, rfl, rfl, rfl, rfl, rfl, rfl⟩
      · exact gref_add_tail_loop_fields target fuel _ (m + 1)

/-- gref_add_tail_section touches only names and secs. -/
theorem gref_add_tail_section_fields (g : gref_pool) :
    (gref_add_tail_section g).tail_id = g.tail_id ∧
    (gref_add_tail_section g).link = g.link ∧
    (gref_add_tail_section g).seq = g.seq ∧
    (gref_add_tail_section g).k = g.k ∧
    (gref_add_tail_section g).gtype = g.gtype := by
  unfold gref_add_tail_section
  dsimp only
  split
  · exact ⟨rfl, rfl, rfl, rfl, rfl⟩
  · have := gref_add_tail_loop_fields (g.tail_id + 1) 242 g 1
    exact ⟨this.1, this.2.1, this.2.2.1, this.2.2.2.1, this.2.2.2.2.1⟩

/-- the fields of a frozen archive in terms of the pool it came from. -/
theorem gref_freeze_fields (g a : gref_pool) (hfz : gref_freeze_pool g = some a) :
    g.gtype = GREF_POOL ∧
    a.link = psort_half_pairs g.link ∧
    a.link_table = (psort_half_pairs g.link).map Prod.snd ∧
    a.link_idx_table = 0 :: gref_idx_scan (2 * (g.tail_id + 1))
      (psort_half_pairs g.link).length ((psort_half_pairs g.link).map Prod.fst) 0 0 ∧
    a.tail_id = g.tail_id ∧ a.seq = g.seq ∧ a.k = g.k ∧ a.gtype = GREF_ACV ∧
    a.names = (gref_add_tail_section g).names ∧
    a.secs = (gref_add_tail_section g).secs := by
  unfold gref_freeze_pool at hfz
  split at hfz
  case isFalse => exact absurd hfz (by simp)
  case isTrue hp =>
    obtain ⟨t1, t2, t3, t4, t5⟩ := gref_add_tail_section_fields g
    have ha := Option.some_inj.mp hfz
    subst ha
    unfold gref_shrink_link_table gref_build_link_idx_table
    refine ⟨hp, ?_, ?_, ?_, ?_, ?_, ?_, rfl, rfl, rfl⟩ <;> simp only [t1, t2, t3, t4, t5]

/-- concatenating the per-key filters over the whole keyspace is a
permutation of the original list. -/
theorem gref_flatMap_filter_perm {α : Type} (key : α → Nat) :
    ∀ (N : Nat) (l : List α), (∀ x ∈ l, key x < N) →
      ((List.range N).flatMap (fun i => l.filter (fun x => decide (key x = i)))).Perm l
  | 0, l, hb => by
    cases l with
    | nil => simp
    | cons a l => exact absurd (hb a (by simp)) (by omega)
  | N + 1, l, hb => by
    rw [List.range_succ, List.flatMap_append]
    simp only [List.flatMap_cons, List.flatMap_nil, List.append_nil]
    have hfil : ∀ i ∈ List.range N, l.filter (fun x => decide (key x = i)) =
        (l.filter (fun x => !decide (key x = N))).filter (fun x => decide (key x = i)) := by
      intro i hi
      have hiN : i < N := List.mem_range.mp hi
      rw [List.filter_filter]
      apply List.filter_congr
      intro x hx
      by_cases hk : key x = i
      · simp [hk]
        omega
      · simp [hk]
    have hflat : (List.range N).flatMap (fun i => l.filter (fun x => decide (key x = i))) =
        (List.range N).flatMap (fun i =>
          (l.filter (fun x => !decide (key x = N))).filter (fun x => decide (key x = i))) := by
      rw [List.flatMap_def, List.flatMap_def]
      congr 1
      exact List.map_congr_left hfil
    rw [hflat]
    have hsub : ∀ x ∈ l.filter (fun x => !decide (key x = N)), key x < N := by
      intro x hx
      rcases List.mem_filter.mp hx with ⟨hx1, hx2⟩
      have := hb x hx1
      simp at hx2
      omega
    have hih := gref_flatMap_filter_perm key N (l.filter (fun x => !decide (key x = N))) hsub
    refine (hih.append_right _).trans ?_
    refine List.Perm.trans List.perm_append_comm ?_
    exact List.filter_append_perm _ l

/-- shared window characterization: after a successful freeze the link
window of gid is the to-projection of the from = gid group of the sorted
pair list. -/
theorem gref_window_eq (k : Nat) (ops : List gref_op) (a : gref_pool) (gid : Nat)
    (hfz : gref_freeze_pool (gref_apply_ops k ops) = some a)
    (hgid : gid < 2 * ((gref_apply_ops k ops).tail_id + 1)) :
    gref_link_successors a gid =
      ((psort_half_pairs (gref_apply_ops k ops).link).filter
        (fun p => decide (p.1 = gid))).map Prod.snd := by
  obtain ⟨-, hlk, hlt, hidx, htail, -, -, -, -, -⟩ :=
    gref_freeze_fields (gref_apply_ops k ops) a hfz
  have hwf := gref_wf_apply_ops k ops
  set sorted := psort_half_pairs (gref_apply_ops k ops).link with hsorted
  have hsort : List.Sorted gref_pair_le sorted := List.sorted_insertionSort _ _
  have hpw : List.Pairwise (fun p q : Nat × Nat => p.1 ≤ q.1) sorted := by
    refine hsort.imp ?_
    intro p q h
    rcases h with h | ⟨h, -⟩
    · omega
    · omega
  have hperm : sorted.Perm (gref_apply_ops k ops).link := List.perm_insertionSort _ _
  have hbound : ∀ x ∈ sorted.map Prod.fst, x ≤ 2 * ((gref_apply_ops k ops).tail_id + 1) := by
    intro x hx
    rcases List.mem_map.mp hx with ⟨p, hp, rfl⟩
    have hpmem : p ∈ (gref_apply_ops k ops).link := hperm.subset hp
    have := hwf.link_bound p hpmem
    omega
  have hchain : List.Pairwise (· ≤ ·) (sorted.map Prod.fst) :=
    List.pairwise_map.mpr hpw
  have hlook : ∀ w, w ≤ 2 * ((gref_apply_ops k ops).tail_id + 1) →
      gref_ltbl a w = sorted.countP (fun p => decide (p.1 < w)) := by
    intro w hw
    unfold gref_ltbl
    rw [hidx]
    rw [show sorted.length = (sorted.map Prod.fst).length from
      (List.length_map _ _).symm]
    rw [gref_idx_table_lookup (2 * ((gref_apply_ops k ops).tail_id + 1))
      (sorted.map Prod.fst) w hchain (fun x hx => hbound x hx) hw]
    rw [List.countP_map]
    rfl
  have hslice := gref_sorted_slice (fun p : Nat × Nat => p.1) gid sorted hpw
  unfold gref_link_successors
  rw [hlt, hlook gid (by omega), hlook (gid + 1) (by omega)]
  rw [← List.map_drop, ← List.map_take, hslice]

/-- C3 (confirmed): after a successful freeze, for every gid below
2 * (tail_id + 1) the link-table window of gid holds exactly the to-gids
of the pairs whose from-gid is gid: as a list it is the to-projection of
the from = gid group of the sorted pair list (successors contiguous), and
as a multiset it is exactly the to-gids of the original pairs with
from = gid. -/
theorem C3_theorem (k : Nat) (ops : List gref_op) (a : gref_pool) (gid : Nat)
    (hfz : gref_freeze_pool (gref_apply_ops k ops) = some a)
    (hgid : gid < 2 * ((gref_apply_ops k ops).tail_id + 1)) :
    gref_link_successors a gid =
      ((psort_half_pairs (gref_apply_ops k ops).link).filter
        (fun p => decide (p.1 = gid))).map Prod.snd ∧
    (gref_link_successors a gid).Perm
      (((gref_apply_ops k ops).link.filter (fun p => decide (p.1 = gid))).map Prod.snd) := by
  have hw := gref_window_eq k ops a gid hfz hgid
  refine ⟨hw, ?_⟩
  rw [hw]
  exact ((List.perm_insertionSort gref_pair_le (gref_apply_ops k ops).link).filter
    (fun p => decide (p.1 = gid))).map Prod.snd

/-- C3 witness: concrete archive, the forward window of section 0 holds
exactly the successors of gid 0. -/
theorem C3_witness :
    (gref_freeze_pool (gref_apply_ops 3
      [gref_op.seg "X" (gref_str "A"), gref_op.lnk "X" 0 "Y" 1,
       gref_op.seg "Y" (gref_str "G"), gref_op.lnk "Y" 0 "Z" 0,
       gref_op.seg "Z" (gref_str "CTT")]) = some gref_ex4) ∧
    (0 < 2 * ((gref_apply_ops 3
      [gref_op.seg "X" (gref_str "A"), gref_op.lnk "X" 0 "Y" 1,
       gref_op.seg "Y" (gref_str "G"), gref_op.lnk "Y" 0 "Z" 0,
       gref_op.seg "Z" (gref_str "CTT")]).tail_id + 1)) ∧
    gref_link_successors gref_ex4 0 =
      ((psort_half_pairs (gref_apply_ops 3
        [gref_op.seg "X" (gref_str "A"), gref_op.lnk "X" 0 "Y" 1,
         gref_op.seg "Y" (gref_str "G"), gref_op.lnk "Y" 0 "Z" 0,
         gref_op.seg "Z" (gref_str "CTT")]).link).filter
        (fun p => decide (p.1 = 0))).map Prod.snd :=
  ⟨by decide, by decide,
   (C3_theorem 3
     [gref_op.seg "X" (gref_str "A"), gref_op.lnk "X" 0 "Y" 1,
      gref_op.seg "Y" (gref_str "G"), gref_op.lnk "Y" 0 "Z" 0,
      gref_op.seg "Z" (gref_str "CTT")] gref_ex4 0 (by decide) (by decide)).1⟩

/-- C6 (confirmed): melting a frozen archive reconstructs the same
multiset of link pairs the pool held at freeze time, marks the object
POOL again, and keeps the registry (the tail sentinel persists). -/
theorem C6_theorem (k : Nat) (ops : List gref_op) (a p2 : gref_pool)
    (hfz : gref_freeze_pool (gref_apply_ops k ops) = some a)
    (hm : gref_melt_archive a = some p2) :
    p2.link.Perm (gref_apply_ops k ops).link ∧ p2.gtype = GREF_POOL ∧
    p2.names = a.names ∧ p2.secs = a.secs := by
  obtain ⟨-, hlk, hlt, hidx, htail, -, -, hacv, -, -⟩ :=
    gref_freeze_fields (gref_apply_ops k ops) a hfz
  have hwf := gref_wf_apply_ops k ops
  unfold gref_melt_archive at hm
  rw [if_pos hacv] at hm
  have hp2 := Option.some_inj.mp hm
  subst hp2
  unfold gref_expand_link_table
  refine ⟨?_, rfl, rfl, rfl⟩
  have hperm : (psort_half_pairs (gref_apply_ops k ops).link).Perm
      (gref_apply_ops k ops).link := List.perm_insertionSort _ _
  have hwin : ∀ i ∈ List.range (2 * (a.tail_id + 1)),
      ((a.link_table.drop (gref_ltbl a i)).take
        (gref_ltbl a (i + 1) - gref_ltbl a i)).map (fun t => ((i : Nat), t)) =
      (psort_half_pairs (gref_apply_ops k ops).link).filter
        (fun p => decide (p.1 = i)) := by
    intro i hi
    have hiN : i < 2 * (a.tail_id + 1) := List.mem_range.mp hi
    have hw := gref_window_eq k ops a i hfz (by omega)
    unfold gref_link_successors at hw
    rw [hw, List.map_map]
    have : ∀ p ∈ (psort_half_pairs (gref_apply_ops k ops).link).filter
        (fun p => decide (p.1 = i)), ((fun t => ((i : Nat), t)) ∘ Prod.snd) p = p := by
      intro p hp
      rcases List.mem_filter.mp hp with ⟨-, hp2⟩
      simp only [decide_eq_true_eq] at hp2
      obtain ⟨x, y⟩ := p
      simp only at hp2
      subst hp2
      rfl
    calc ((psort_half_pairs (gref_apply_ops k ops).link).filter
          (fun p => decide (p.1 = i))).map ((fun t => ((i : Nat), t)) ∘ Prod.snd)
        = ((psort_half_pairs (gref_apply_ops k ops).link).filter
          (fun p => decide (p.1 = i))).map id := List.map_congr_left this
      _ = _ := List.map_id _
  have hflat : (List.range (2 * (a.tail_id + 1))).flatMap (fun i =>
      ((a.link_table.drop (gref_ltbl a i)).take
        (gref_ltbl a (i + 1) - gref_ltbl a i)).map (fun t => ((i : Nat), t))) =
      (List.range (2 * (a.tail_id + 1))).flatMap (fun i =>
        (psort_half_pairs (gref_apply_ops k ops).link).filter
          (fun p => decide (p.1 = i))) := by
    rw [List.flatMap_def, List.flatMap_def]
    congr 1
    exact List.map_congr_left hwin
  simp only
  rw [hflat]
  have hkeys : ∀ p ∈ psort_half_pairs (gref_apply_ops k ops).link,
      p.1 < 2 * (a.tail_id + 1) := by
    intro p hp
    have := hwf.link_bound p (hperm.subset hp)
    omega
  have := gref_flatMap_filter_perm (fun p : Nat × Nat => p.1)
    (2 * (a.tail_id + 1)) (psort_half_pairs (gref_apply_ops k ops).link) hkeys
  exact this.trans hperm

/-- C6 witness: the melt of the concrete archive gref_ex4 restores a POOL
whose link pairs are a permutation of the original five-op pool's pairs. -/
theorem C6_witness :
    gref_freeze_pool (gref_apply_ops 3 gref_ex4ops) = some gref_ex4 ∧
    gref_melt_archive gref_ex4 = some gref_ex4p ∧
    (gref_ex4p.link.Perm (gref_apply_ops 3 gref_ex4ops).link ∧
     gref_ex4p.gtype = GREF_POOL ∧ gref_ex4p.names = gref_ex4.names ∧
     gref_ex4p.secs = gref_ex4.secs) :=
  ⟨by decide, by decide,
   C6_theorem 3 gref_ex4ops gref_ex4 gref_ex4p (by decide) (by decide)⟩

/-- a findIdx? miss for a name not in the registry. -/
theorem gref_findIdx_none (l : List String) (s : String) (h : s ∉ l) :
    l.findIdx? (fun n => n == s) = none := by
  rw [List.findIdx?_eq_none_iff]
  intro x hx
  simp only [beq_eq_false_iff_ne, ne_eq]
  intro hxs
  exact h (hxs ▸ hx)

/-- over segment-only op lists the tail id tracks the registry size. -/
theorem gref_seg_tail_fold :
    ∀ (ops : List gref_op) (g : gref_pool),
      (∀ op ∈ ops, ∃ n cs, op = gref_op.seg n cs) →
      g.tail_id = g.names.length →
      (ops.foldl gref_apply_op g).tail_id = (ops.foldl gref_apply_op g).names.length
  | [], _, _, h => h
  | op :: ops, g, hseg, h => by
    obtain ⟨n, cs, rfl⟩ := hseg op (by simp)
    rw [List.foldl_cons]
    refine gref_seg_tail_fold ops _ (fun o ho => hseg o (by simp [ho])) ?_
    show (gref_append_segment g n cs).2.tail_id =
      (gref_append_segment g n cs).2.names.length
    unfold gref_append_segment gref_copy_seq_ascii hmap_alloc
    cases hfind : g.names.findIdx? (fun x => x == n) with
    | none =>
      simp only [hfind]
      simp only [List.length_append, List.length_cons, List.length_nil]
      rw [h]
      rw [Nat.max_eq_right (by omega)]
    | some i =>
      have hi : i < g.names.length := (List.findIdx?_eq_some_iff_getElem.mp hfind).1
      simp only [hfind]
      rw [h]
      rw [Nat.max_eq_left (by omega)]

/-- one unfolding of the sentinel-name loop. -/
theorem gref_add_tail_loop_succ (target fuel : Nat) (g : gref_pool) (m : Nat) :
    gref_add_tail_loop target (fuel + 1) g m =
      if (hmap_alloc g (gref_tail_sentinel_name m)).2 = target ∨ 256 ≤ 14 + m
      then (hmap_alloc g (gref_tail_sentinel_name m)).1
      else gref_add_tail_loop target fuel
        (hmap_alloc g (gref_tail_sentinel_name m)).1 (m + 1) := rfl

/-- with fresh sentinel names and a registry of exactly tail_id entries,
gref_add_tail_section pushes exactly two sentinel records and writes the
zero-length sentinel section into slot tail_id + 1. -/
theorem gref_add_tail_two (g : gref_pool)
    (htl : g.tail_id = g.names.length)
    (hf1 : gref_tail_sentinel_name 1 ∉ g.names)
    (hf2 : gref_tail_sentinel_name 2 ∉ g.names) :
    (gref_add_tail_section g).names =
      g.names ++ [gref_tail_sentinel_name 1, gref_tail_sentinel_name 2] ∧
    (gref_add_tail_section g).secs =
      (g.secs ++ [(⟨0, 0, 0⟩ : gref_section), ⟨0, 0, 0⟩]).set (g.tail_id + 1)
        ⟨g.tail_id + 1, 0, 0⟩ := by
  have h1 : hmap_alloc g (gref_tail_sentinel_name 1) =
      ({ g with
         names := g.names ++ [gref_tail_sentinel_name 1]
         secs := g.secs ++ [⟨0, 0, 0⟩] }, g.names.length) := by
    unfold hmap_alloc
    rw [gref_findIdx_none _ _ hf1]
  have hf2' : gref_tail_sentinel_name 2 ∉
      g.names ++ [gref_tail_sentinel_name 1] := by
    intro hmem
    rcases List.mem_append.mp hmem with h | h
    · exact hf2 h
    · have : gref_tail_sentinel_name 2 = gref_tail_sentinel_name 1 := by
        simpa using h
      exact absurd this (by decide)
  have h2 : hmap_alloc
      { g with
        names := g.names ++ [gref_tail_sentinel_name 1]
        secs := g.secs ++ [⟨0, 0, 0⟩] } (gref_tail_sentinel_name 2) =
      ({ g with
         names := g.names ++ [gref_tail_sentinel_name 1]
           ++ [gref_tail_sentinel_name 2]
         secs := g.secs ++ [⟨0, 0, 0⟩] ++ [⟨0, 0, 0⟩] }, g.names.length + 1) := by
    unfold hmap_alloc
    rw [gref_findIdx_none _ _ hf2']
    simp
  unfold gref_add_tail_section
  rw [if_neg (by omega)]
  rw [show (242 : Nat) = 241 + 1 from rfl, gref_add_tail_loop_succ, h1]
  rw [if_neg (by omega)]
  rw [show (241 : Nat) = 240 + 1 from rfl, gref_add_tail_loop_succ, h2]
  rw [if_pos (by omega)]
  constructor
  · simp
  · simp [htl]

/-- C5 (corrected): in the POOL state get_section_cnt returns tail_id,
which equals the number of distinct names only when every operation was
append_segment (append_link records MAX3 without + 1 and can undercount);
and a successful freeze adds exactly TWO sentinel entries to the registry
(names tail_sentinel_0 and tail_sentinel_00), the second of which is the
tail sentinel section with len = 0. -/
theorem C5_amended (k : Nat) (ops : List gref_op)
    (hseg : ∀ op ∈ ops, ∃ n cs, op = gref_op.seg n cs)
    (hf1 : gref_tail_sentinel_name 1 ∉ (gref_apply_ops k ops).names)
    (hf2 : gref_tail_sentinel_name 2 ∉ (gref_apply_ops k ops).names)
    (a : gref_pool) (hfz : gref_freeze_pool (gref_apply_ops k ops) = some a) :
    gref_get_section_cnt (gref_apply_ops k ops) =
      (gref_apply_ops k ops).names.length ∧
    a.names = (gref_apply_ops k ops).names ++
      [gref_tail_sentinel_name 1, gref_tail_sentinel_name 2] ∧
    a.secs.getD ((gref_apply_ops k ops).tail_id + 1) ⟨0, 0, 0⟩ =
      ⟨(gref_apply_ops k ops).tail_id + 1, 0, 0⟩ := by
  have htl : (gref_apply_ops k ops).tail_id =
      (gref_apply_ops k ops).names.length := by
    unfold gref_apply_ops
    exact gref_seg_tail_fold ops (gref_init_pool k) hseg rfl
  have hwf := gref_wf_apply_ops k ops
  obtain ⟨-, -, -, -, -, -, -, -, hnm, hsc⟩ :=
    gref_freeze_fields (gref_apply_ops k ops) a hfz
  obtain ⟨htn, hts⟩ := gref_add_tail_two (gref_apply_ops k ops) htl hf1 hf2
  refine ⟨htl, ?_, ?_⟩
  · rw [hnm, htn]
  · rw [hsc, hts]
    have hlen : ((gref_apply_ops k ops).secs ++
        [(⟨0, 0, 0⟩ : gref_section), ⟨0, 0, 0⟩]).length =
        (gref_apply_ops k ops).names.length + 2 := by
      simp [hwf.names_secs]
    rw [List.getD_eq_getElem?_getD]
    rw [List.getElem?_set_self (by omega)]
    simp

theorem C5_witness :
    gref_freeze_pool (gref_apply_ops 3 [gref_op.seg "s" (gref_str "A")]) =
      some gref_ex5 ∧
    (gref_get_section_cnt (gref_apply_ops 3 [gref_op.seg "s" (gref_str "A")]) =
      (gref_apply_ops 3 [gref_op.seg "s" (gref_str "A")]).names.length ∧
     gref_ex5.names = (gref_apply_ops 3 [gref_op.seg "s" (gref_str "A")]).names ++
       [gref_tail_sentinel_name 1, gref_tail_sentinel_name 2] ∧
     gref_ex5.secs.getD
       ((gref_apply_ops 3 [gref_op.seg "s" (gref_str "A")]).tail_id + 1) ⟨0, 0, 0⟩ =
       ⟨(gref_apply_ops 3 [gref_op.seg "s" (gref_str "A")]).tail_id + 1, 0, 0⟩) :=
  ⟨by decide,
   C5_amended 3 [gref_op.seg "s" (gref_str "A")]
     (fun op hop => ⟨"s", gref_str "A", List.mem_singleton.mp hop⟩)
     (by decide) (by decide) gref_ex5 (by decide)⟩

/-- disjoint-or: oring a value below 2 ^ s with a value shifted up by s is
addition. -/
theorem gref_lor_disjoint (a e s : Nat) (h : a < 2 ^ s) :
    a ||| (e <<< s) = e * 2 ^ s + a := by
  apply Nat.eq_of_testBit_eq
  intro i
  rw [Nat.testBit_lor, Nat.testBit_shiftLeft]
  have h1 : (e * 2 ^ s + a).testBit i =
      if i < s then a.testBit i else e.testBit (i - s) := by
    rw [Nat.mul_comm]
    exact Nat.testBit_mul_pow_two_add e h i
  rcases Nat.lt_or_ge i s with hi | hi
  · rw [h1, if_pos hi]
    simp [Nat.not_le.mpr hi]
  · rw [h1, if_neg (Nat.not_lt.mpr hi)]
    have h2 : a.testBit i = false := Nat.testBit_lt_two_pow (lt_of_lt_of_le h
      (Nat.pow_le_pow_right (by omega) hi))
    simp [hi, h2]

/-- appending one entry to the history register. -/
theorem gref_pack4_append (l : List Nat) (p : Nat) :
    gref_pack4 (l ++ [p]) = 4 * gref_pack4 l + p := by
  induction l with
  | nil => simp [gref_pack4]
  | cons q l ih =>
    show gref_pack4 (q :: (l ++ [p])) = 4 * gref_pack4 (q :: l) + p
    simp only [gref_pack4]
    rw [ih]
    simp only [List.length_append, List.length_cons, List.length_nil]
    ring

/-- the register of a history of bounded entries is bounded. -/
theorem gref_pack4_lt (l : List Nat) (h : ∀ x ∈ l, x ≤ 3) :
    gref_pack4 l < 4 ^ l.length := by
  induction l with
  | nil => simp [gref_pack4]
  | cons q l ih =>
    have hq : q ≤ 3 := h q (by simp)
    have ih2 := ih (fun x hx => h x (by simp [hx]))
    simp only [gref_pack4, List.length_cons, pow_succ]
    calc q * 4 ^ l.length + gref_pack4 l
        ≤ 3 * 4 ^ l.length + gref_pack4 l := by
          exact Nat.add_le_add_right (Nat.mul_le_mul_right _ hq) _
      _ < 4 ^ l.length * 4 := by omega

/-- the register of a concatenated history. -/
theorem gref_pack4_split (l1 l2 : List Nat) :
    gref_pack4 (l1 ++ l2) = gref_pack4 l1 * 4 ^ l2.length + gref_pack4 l2 := by
  induction l1 with
  | nil => simp [gref_pack4]
  | cons q l1 ih =>
    show gref_pack4 (q :: (l1 ++ l2)) =
      gref_pack4 (q :: l1) * 4 ^ l2.length + gref_pack4 l2
    simp only [gref_pack4]
    rw [ih]
    simp only [List.length_append]
    ring

/-- reading a 2-bit field above the whole history gives 0. -/
theorem gref_pack4_read_zero (l : List Nat) (k : Nat)
    (h : ∀ x ∈ l, x ≤ 3) (hlen : l.length ≤ k) (hk : k ≤ 31) :
    3 &&& ((gref_pack4 l % 2 ^ 64) >>> (2 * k)) = 0 := by
  have hlt : gref_pack4 l < 4 ^ l.length := gref_pack4_lt l h
  have hlt2 : gref_pack4 l < 2 ^ 64 := by
    calc gref_pack4 l < 4 ^ l.length := hlt
      _ ≤ 4 ^ 31 := Nat.pow_le_pow_right (by omega) (by omega)
      _ < 2 ^ 64 := by norm_num
  rw [Nat.mod_eq_of_lt hlt2, Nat.shiftRight_eq_div_pow]
  have : gref_pack4 l / 2 ^ (2 * k) = 0 := by
    apply Nat.div_eq_of_lt
    calc gref_pack4 l < 4 ^ l.length := hlt
      _ ≤ 4 ^ k := Nat.pow_le_pow_right (by omega) hlen
      _ = 2 ^ (2 * k) := by rw [show (4:Nat) = 2^2 from rfl, ← pow_mul, Nat.mul_comm]
  rw [this]
  decide

/-- reading the 2-bit field k entries below the most recent entry
recovers the entry pushed k steps before the end. -/
theorem gref_pack4_read (l1 l2 : List Nat) (q k : Nat)
    (hq : q ≤ 3) (h2 : ∀ x ∈ l2, x ≤ 3) (hlen : l2.length = k) (hk : k ≤ 31) :
    3 &&& ((gref_pack4 (l1 ++ q :: l2) % 2 ^ 64) >>> (2 * k)) = q := by
  have h4 : (4:Nat) ^ k = 2 ^ (2 * k) := by
    rw [show (4:Nat) = 2^2 from rfl, ← pow_mul, Nat.mul_comm]
  have hsplit : gref_pack4 (l1 ++ q :: l2) =
      gref_pack4 l1 * (4 ^ (k + 1)) + (q * 4 ^ k + gref_pack4 l2) := by
    rw [gref_pack4_split]
    simp only [gref_pack4, List.length_cons, hlen]
    try ring
  have hl2 : gref_pack4 l2 < 4 ^ k := hlen ▸ gref_pack4_lt l2 h2
  have hY : q * 4 ^ k + gref_pack4 l2 < 4 ^ (k + 1) := by
    have h1 : 4 ^ (k + 1) = 4 * 4 ^ k := by ring
    have h2 : q * 4 ^ k ≤ 3 * 4 ^ k := Nat.mul_le_mul_right _ hq
    omega
  have hdvd : (4:Nat) ^ (k + 1) ∣ 2 ^ 64 := by
    rw [show (4:Nat) = 2^2 from rfl, ← pow_mul]
    exact pow_dvd_pow 2 (by omega)
  have hmod : (gref_pack4 (l1 ++ q :: l2) % 2 ^ 64) % 4 ^ (k + 1) =
      q * 4 ^ k + gref_pack4 l2 := by
    rw [Nat.mod_mod_of_dvd _ hdvd, hsplit]
    rw [Nat.add_comm, Nat.add_mul_mod_self_right]
    exact Nat.mod_eq_of_lt hY
  have hand : (3 : Nat) &&& ((gref_pack4 (l1 ++ q :: l2) % 2 ^ 64) >>> (2 * k)) =
      ((gref_pack4 (l1 ++ q :: l2) % 2 ^ 64) >>> (2 * k)) % 4 := by
    rw [Nat.and_comm]
    have := Nat.and_pow_two_sub_one_eq_mod
      ((gref_pack4 (l1 ++ q :: l2) % 2 ^ 64) >>> (2 * k)) 2
    norm_num at this
    exact this
  rw [hand, Nat.shiftRight_eq_div_pow, ← h4]
  have hdiv : gref_pack4 (l1 ++ q :: l2) % 2 ^ 64 / 4 ^ k % 4 =
      gref_pack4 (l1 ++ q :: l2) % 2 ^ 64 % 4 ^ (k + 1) / 4 ^ k := by
    rw [← Nat.mod_mul_right_div_self, show (4:Nat) ^ k * 4 = 4 ^ (k + 1) by ring]
  rw [hdiv, hmod]
  rw [show q * 4 ^ k + gref_pack4 l2 = 4 ^ k * q + gref_pack4 l2 by ring]
  rw [Nat.mul_add_div (by positivity)]
  rw [Nat.div_eq_of_lt hl2]
  omega

/-- length of the replication flatMap of gref_iter_append_base. -/
theorem gref_flatMap_len {α β : Type} (n : Nat) (l : List α) (f : Nat → α → β) :
    ((List.range n).flatMap (fun j => l.map (f j))).length = n * l.length := by
  induction n with
  | zero => simp
  | succ n ih =>
    rw [List.range_succ, List.flatMap_append]
    simp only [List.length_append, ih, List.flatMap_cons, List.flatMap_nil]
    simp [Nat.succ_mul]

/-- getD stays within a bound satisfied by the entries and the default. -/
theorem gref_getD_le (l : List Nat) (j d b : Nat)
    (hl : ∀ x ∈ l, x ≤ b) (hd : d ≤ b) : l.getD j d ≤ b := by
  rcases Nat.lt_or_ge j l.length with hj | hj
  · rw [List.getD_eq_getElem l d hj]
    exact hl _ (List.getElem_mem hj)
  · rw [List.getD_eq_default l d hj]
    exact hd

/-- every entry of every expansion row is a 2-bit value. -/
theorem gref_exp_table_le (c j : Nat) :
    (gref_exp_table.getD c []).getD j 0 ≤ 3 := by
  have hrow : ∀ x ∈ gref_exp_table.getD c [], x ≤ 3 := by
    rcases Nat.lt_or_ge c gref_exp_table.length with hc | hc
    · rw [List.getD_eq_getElem _ _ hc]
      intro x hx
      have hc16 : c < 16 := by simpa [gref_exp_table] using hc
      interval_cases c <;> simp_all [gref_exp_table] <;> omega
    · rw [List.getD_eq_default _ _ hc]
      intro x hx
      simp at hx
  exact gref_getD_le _ _ _ _ hrow (by omega)

/-- the value form of the word step: push e on top, shift the rest down. -/
theorem gref_pack_step_eq (k w e : Nat) (hk : 1 ≤ k) (hw : w < 4 ^ k) :
    gref_pack_step k w e = e * 4 ^ (k - 1) + w / 4 := by
  unfold gref_pack_step
  have h1 : w >>> 2 = w / 4 := by
    rw [Nat.shiftRight_eq_div_pow]
  have h2 : (4:Nat) ^ (k - 1) = 2 ^ (2 * (k - 1)) := by
    rw [show (4:Nat) = 2^2 from rfl, ← pow_mul, Nat.mul_comm]
  have h3 : w / 4 < 2 ^ (2 * (k - 1)) := by
    rw [← h2]
    have h4 : (4:Nat) ^ k = 4 ^ (k - 1) * 4 := by
      rw [← pow_succ]
      congr 1
      omega
    apply Nat.div_lt_of_lt_mul
    omega
  rw [h1, gref_lor_disjoint _ _ _ h3, h2]

/-- the word stays a 2 k-bit value. -/
theorem gref_pack_step_lt (k w e : Nat) (hk : 1 ≤ k) (hw : w < 4 ^ k) (he : e ≤ 3) :
    gref_pack_step k w e < 4 ^ k := by
  rw [gref_pack_step_eq k w e hk hw]
  have h4 : (4:Nat) ^ k = 4 ^ (k - 1) * 4 := by
    rw [← pow_succ]
    congr 1
    omega
  have h5 : e * 4 ^ (k - 1) ≤ 3 * 4 ^ (k - 1) := Nat.mul_le_mul_right _ he
  have h6 : w / 4 < 4 ^ (k - 1) := by
    apply Nat.div_lt_of_lt_mul
    omega
  omega

/-- the fold keeps the word a 2 k-bit value. -/
theorem gref_pack_fold_lt (k : Nat) (hk : 1 ≤ k) :
    ∀ (es : List Nat) (w : Nat), (∀ e ∈ es, e ≤ 3) → w < 4 ^ k →
      gref_pack_fold k w es < 4 ^ k
  | [], w, _, hw => hw
  | e :: es, w, hes, hw => by
    show gref_pack_fold k (gref_pack_step k w e) es < 4 ^ k
    exact gref_pack_fold_lt k hk es _ (fun x hx => hes x (by simp [hx]))
      (gref_pack_step_lt k w e hk hw (hes e (by simp)))

/-- the initial word only survives as a high-order remainder. -/
theorem gref_pack_fold_drop (k : Nat) (hk : 1 ≤ k) :
    ∀ (es : List Nat) (w : Nat), (∀ e ∈ es, e ≤ 3) → es.length ≤ k → w < 4 ^ k →
      gref_pack_fold k w es = w / 4 ^ es.length + gref_pack_fold k 0 es
  | [], w, _, _, _ => by simp [gref_pack_fold]
  | e :: es, w, hes, hlen, hw => by
    show gref_pack_fold k (gref_pack_step k w e) es =
      w / 4 ^ (e :: es).length + gref_pack_fold k (gref_pack_step k 0 e) es
    have he : e ≤ 3 := hes e (by simp)
    have hes2 : ∀ x ∈ es, x ≤ 3 := fun x hx => hes x (by simp [hx])
    have hlen2 : es.length ≤ k := by simp at hlen; omega
    have hlen3 : es.length ≤ k - 1 := by simp at hlen; omega
    have hw0 : (0:Nat) < 4 ^ k := by positivity
    have hb1 : gref_pack_step k w e < 4 ^ k := gref_pack_step_lt k w e hk hw he
    have hb0 : gref_pack_step k 0 e < 4 ^ k := gref_pack_step_lt k 0 e hk hw0 he
    rw [gref_pack_fold_drop k hk es _ hes2 hlen2 hb1]
    rw [gref_pack_fold_drop k hk es _ hes2 hlen2 hb0]
    have hs1 := gref_pack_step_eq k w e hk hw
    have hs0 := gref_pack_step_eq k 0 e hk hw0
    have hX : e * 4 ^ (k - 1) = 4 ^ es.length * (e * 4 ^ (k - 1 - es.length)) := by
      rw [show 4 ^ es.length * (e * 4 ^ (k - 1 - es.length)) =
        e * (4 ^ es.length * 4 ^ (k - 1 - es.length)) by ring, ← pow_add]
      congr 2
      omega
    have hgoal : gref_pack_step k w e / 4 ^ es.length =
        w / 4 ^ (e :: es).length + gref_pack_step k 0 e / 4 ^ es.length := by
      rw [hs1, hs0]
      simp only [Nat.zero_div, Nat.add_zero]
      rw [hX]
      rw [Nat.mul_add_div (by positivity), Nat.mul_div_cancel_left _ (by positivity)]
      rw [Nat.div_div_eq_div_mul]
      simp only [List.length_cons]
      rw [show (4:Nat) * 4 ^ es.length = 4 ^ (es.length + 1) by rw [pow_succ]; ring]
      omega
    omega

/-- pushing a full window of k values erases the initial word. -/
theorem gref_pack_fold_window (k : Nat) (es : List Nat) (w : Nat) (hk : 1 ≤ k)
    (hes : ∀ e ∈ es, e ≤ 3) (hlen : es.length = k) (hw : w < 4 ^ k) :
    gref_pack_fold k w es = gref_pack_fold k 0 es := by
  rw [gref_pack_fold_drop k hk es w hes (by omega) hw, hlen,
    Nat.div_eq_of_lt hw, Nat.zero_add]

/-- the fold splits over a concatenation. -/
theorem gref_pack_fold_append (k : Nat) (l1 l2 : List Nat) (w : Nat) :
    gref_pack_fold k w (l1 ++ l2) = gref_pack_fold k (gref_pack_fold k w l1) l2 :=
  List.foldl_append _ _ _ _

/-- the cnt_arr update of gref_iter_append_base pushes one history entry. -/
theorem gref_cnt_step (x p : Nat) (l : List Nat)
    (hx : x = gref_pack4 l % 2 ^ 64) (hp : p ≤ 3) :
    ((x <<< 2) ||| p) % 2 ^ 64 = gref_pack4 (l ++ [p]) % 2 ^ 64 := by
  subst hx
  rw [Nat.lor_comm, gref_lor_disjoint p (gref_pack4 l % 2 ^ 64) 2 (by omega)]
  have h1 : (gref_pack4 l % 2 ^ 64 * 2 ^ 2 + p) % 2 ^ 64 =
      (gref_pack4 l * 2 ^ 2 + p) % 2 ^ 64 :=
    ((Nat.mod_modEq (gref_pack4 l) (2 ^ 64)).mul_right (2 ^ 2)).add_right p
  rw [h1, gref_pack4_append]
  congr 1
  ring

/-- every member of the shrink selection of a bounded list is bounded. -/
theorem gref_getD_map_bound (l : List Nat) (n sk B : Nat)
    (hl : ∀ x ∈ l, x < B) (hB : 0 < B) :
    ∀ w ∈ (List.range n).map (fun j => l.getD (j * sk) 0), w < B := by
  intro w hw
  rcases List.mem_map.mp hw with ⟨j, hj, rfl⟩
  rcases Nat.lt_or_ge (j * sk) l.length with hlt | hge
  · rw [List.getD_eq_getElem _ _ hlt]
    exact hl _ (List.getElem_mem hlt)
  · rw [List.getD_eq_default _ _ hge]
    exact hB

/-- gref_iter_append_base keeps every kmer word a 2 k-bit value. -/
theorem gref_append_base_bound (k : Nat) (st : gref_iter_stack) (c : Nat)
    (hk : 1 ≤ k) (hshift : st.shift_len = 2 * (k - 1))
    (hb : ∀ w ∈ st.kmer, w < 4 ^ k) :
    ∀ w ∈ (gref_iter_append_base st c).kmer, w < 4 ^ k := by
  intro w hw
  unfold gref_iter_append_base at hw
  dsimp only at hw
  have hexp : ∀ x ∈ (List.range (gref_popcnt4 c)).flatMap (fun j =>
      st.kmer.map (fun y => (y >>> 2) |||
        ((gref_exp_table.getD c []).getD j 0) <<< st.shift_len)),
      x < 4 ^ k := by
    intro x hx
    rcases List.mem_flatMap.mp hx with ⟨j, hj, hx2⟩
    rcases List.mem_map.mp hx2 with ⟨y, hy, rfl⟩
    have heq : (y >>> 2) ||| ((gref_exp_table.getD c []).getD j 0) <<< st.shift_len =
        gref_pack_step k y ((gref_exp_table.getD c []).getD j 0) := by
      unfold gref_pack_step
      rw [hshift]
    rw [heq]
    exact gref_pack_step_lt k y _ hk (hb y hy) (gref_exp_table_le c j)
  split at hw
  · exact gref_getD_map_bound _ _ _ _ hexp (by positivity) w hw
  · exact hexp w hw

/-- the kmer-set size evolution of gref_iter_append_base: the set is
replicated by the incoming popcount and, once the history covers the
window, shrunk by the popcount of the leaving base (an exact division when
no popcount is zero). -/
theorem gref_append_base_len (k : Nat) (st : gref_iter_stack) (c : Nat)
    (ps : List Nat)
    (hk : 1 ≤ k) (hk31 : k ≤ 31) (hshift : st.shift_len = 2 * (k - 1))
    (hcnt : st.cnt_arr = gref_pack4 ps % 2 ^ 64)
    (hps : ∀ x ∈ ps, 1 ≤ x ∧ x ≤ 3)
    (hpc1 : 1 ≤ gref_popcnt4 c) (hpc3 : gref_popcnt4 c ≤ 3)
    (hlen : st.kmer.length = (ps.drop (ps.length - k)).prod) :
    (gref_iter_append_base st c).cnt_arr =
      gref_pack4 (ps ++ [gref_popcnt4 c]) % 2 ^ 64 ∧
    (gref_iter_append_base st c).kmer_idx = 0 ∧
    (gref_iter_append_base st c).kmer.length =
      ((ps ++ [gref_popcnt4 c]).drop (ps.length + 1 - k)).prod := by
  have hcnt2 : ((st.cnt_arr <<< 2) ||| gref_popcnt4 c) % 2 ^ 64 =
      gref_pack4 (ps ++ [gref_popcnt4 c]) % 2 ^ 64 :=
    gref_cnt_step st.cnt_arr (gref_popcnt4 c) ps hcnt hpc3
  unfold gref_iter_append_base
  dsimp only
  rw [hcnt2, hshift]
  have hsh2 : 2 * (k - 1) + 2 = 2 * k := by omega
  rw [hsh2]
  refine ⟨rfl, rfl, ?_⟩
  rcases Nat.lt_or_ge ps.length k with hmk | hmk
  · have hz : 3 &&& ((gref_pack4 (ps ++ [gref_popcnt4 c]) % 2 ^ 64) >>> (2 * k)) = 0 := by
      apply gref_pack4_read_zero
      · intro x hx
        rcases List.mem_append.mp hx with h | h
        · exact (hps x h).2
        · simp at h
          omega
      · simp
        omega
      · exact hk31
    rw [hz]
    rw [if_neg (by omega)]
    rw [gref_flatMap_len, hlen]
    rw [Nat.sub_eq_zero_of_le (le_of_lt hmk), List.drop_zero]
    rw [Nat.sub_eq_zero_of_le (by omega), List.drop_zero]
    rw [List.prod_append, List.prod_cons, List.prod_nil]
    ring
  · have hmem : ps.getD (ps.length - k) 0 ∈ ps := by
      rw [List.getD_eq_getElem ps 0 (show ps.length - k < ps.length by omega)]
      exact List.getElem_mem _
    have hq13 := hps (ps.getD (ps.length - k) 0) hmem
    have hsplit3 : ps.drop (ps.length - k) =
        ps.getD (ps.length - k) 0 :: ps.drop (ps.length - k + 1) := by
      rw [List.getD_eq_getElem ps 0 (show ps.length - k < ps.length by omega)]
      exact List.drop_eq_getElem_cons _
    have hlen2 : (ps.drop (ps.length - k + 1)).length = k - 1 := by
      simp
      omega
    have hEq : ps ++ [gref_popcnt4 c] = ps.take (ps.length - k) ++
        (ps.getD (ps.length - k) 0 ::
          (ps.drop (ps.length - k + 1) ++ [gref_popcnt4 c])) := by
      conv_lhs => rw [← List.take_append_drop (ps.length - k) ps, hsplit3]
      simp
    have hread : 3 &&& ((gref_pack4 (ps ++ [gref_popcnt4 c]) % 2 ^ 64) >>> (2 * k)) =
        ps.getD (ps.length - k) 0 := by
      rw [hEq]
      apply gref_pack4_read
      · exact hq13.2
      · intro x hx
        rcases List.mem_append.mp hx with h | h
        · exact (hps x (List.mem_of_mem_drop h)).2
        · simp at h
          omega
      · simp
        omega
      · exact hk31
    rw [hread]
    have hdropEq : (ps ++ [gref_popcnt4 c]).drop (ps.length + 1 - k) =
        ps.drop (ps.length - k + 1) ++ [gref_popcnt4 c] := by
      rw [List.drop_append_of_le_length (by omega)]
      congr 2
      omega
    rcases Nat.lt_or_ge 1 (ps.getD (ps.length - k) 0) with hq | hq
    · rw [if_pos hq]
      rw [List.length_map, List.length_range]
      rw [hlen, hsplit3, List.prod_cons, hdropEq, List.prod_append,
        List.prod_cons, List.prod_nil]
      rw [show ps.getD (ps.length - k) 0 *
          (ps.drop (ps.length - k + 1)).prod * gref_popcnt4 c =
          ps.getD (ps.length - k) 0 *
          ((ps.drop (ps.length - k + 1)).prod * (gref_popcnt4 c * 1)) by ring]
      rw [Nat.mul_div_cancel_left _ (by omega)]
    · rw [if_neg (by omega)]
      rw [gref_flatMap_len, hlen, hsplit3, List.prod_cons, hdropEq,
        List.prod_append, List.prod_cons, List.prod_nil]
      have hq1 : ps.getD (ps.length - k) 0 = 1 := by omega
      rw [hq1]
      ring

/-- gref_iter_append_base on a concrete base (popcount 1) with a singleton
kmer set: the set stays the singleton of the stepped word, and the history
stays all-ones. -/
theorem gref_append_base_one (k m : Nat) (st : gref_iter_stack) (c w : Nat)
    (hk : 1 ≤ k) (hk31 : k ≤ 31) (hshift : st.shift_len = 2 * (k - 1))
    (hcnt : st.cnt_arr = gref_pack4 (List.replicate m 1) % 2 ^ 64)
    (hpc : gref_popcnt4 c = 1) (hkm : st.kmer = [w]) :
    gref_iter_append_base st c = { st with
      cnt_arr := gref_pack4 (List.replicate (m + 1) 1) % 2 ^ 64
      kmer_idx := 0
      kmer := [gref_pack_step k w ((gref_exp_table.getD c []).getD 0 0)] } := by
  have hrep : List.replicate m 1 ++ [1] = List.replicate (m + 1) (1:Nat) :=
    (List.replicate_succ' m 1).symm
  have hcnt2 : ((st.cnt_arr <<< 2) ||| gref_popcnt4 c) % 2 ^ 64 =
      gref_pack4 (List.replicate (m + 1) 1) % 2 ^ 64 := by
    rw [gref_cnt_step st.cnt_arr (gref_popcnt4 c) (List.replicate m 1) hcnt
      (by omega), hpc, hrep]
  unfold gref_iter_append_base
  dsimp only
  rw [hcnt2, hshift]
  have hsh2 : 2 * (k - 1) + 2 = 2 * k := by omega
  rw [hsh2]
  have hone : ∀ x ∈ List.replicate (m + 1) (1:Nat), 1 ≤ x ∧ x ≤ 3 := by
    intro x hx
    have := List.eq_of_mem_replicate hx
    omega
  have hskip : 3 &&& ((gref_pack4 (List.replicate (m + 1) 1) % 2 ^ 64) >>> (2 * k)) ≤ 1 := by
    rcases Nat.lt_or_ge (m + 1) (k + 1) with hm | hm
    · rw [gref_pack4_read_zero (List.replicate (m + 1) 1) k
        (fun x hx => (hone x hx).2) (by simp; omega) hk31]
      omega
    · have hdec : List.replicate (m + 1) (1:Nat) =
          List.replicate (m - k) 1 ++ (1 :: List.replicate k 1) := by
        rw [show (1:Nat) :: List.replicate k 1 = List.replicate (k + 1) 1 from rfl]
        rw [← List.replicate_add]
        congr 1
        omega
      rw [hdec, gref_pack4_read (List.replicate (m - k) 1) (List.replicate k 1)
        1 k (by omega) (fun x hx => by have := List.eq_of_mem_replicate hx; omega)
        (by simp) hk31]
  rw [if_neg (by omega)]
  rw [hpc, hkm]
  have hflat : (List.range 1).flatMap (fun j =>
      [w].map (fun y => (y >>> 2) |||
        ((gref_exp_table.getD c []).getD j 0) <<< (2 * (k - 1)))) =
      [gref_pack_step k w ((gref_exp_table.getD c []).getD 0 0)] := by
    rw [show List.range 1 = [0] from rfl]
    simp only [List.flatMap_cons, List.flatMap_nil, List.map_cons, List.map_nil,
      List.append_nil]
    rfl
  rw [hflat]

/-- take one more element, as an append of the indexed element. -/
theorem gref_take_succ (l : List Nat) (n : Nat) (h : n < l.length) :
    l.take (n + 1) = l.take n ++ [l.getD n 0] := by
  rw [List.getD_eq_getElem l 0 h]
  rw [List.take_succ]
  simp [List.getElem?_eq_getElem h]

/-- getD commutes with map at an in-range index. -/
theorem gref_getD_map (l : List Nat) (n : Nat) (f : Nat → Nat) (h : n < l.length) :
    (l.map f).getD n 0 = f (l.getD n 0) := by
  rw [List.getD_eq_getElem _ 0 (by simpa using h), List.getD_eq_getElem _ 0 h]
  simp

/-- gref_win_prod is the product of the 4-bit popcounts. -/
theorem gref_win_prod_eq (cs : List Nat) :
    gref_win_prod cs = (cs.map gref_popcnt4).prod := by
  have hacc : ∀ (l : List Nat) (a : Nat),
      l.foldl (fun x c => x * gref_popcnt4 c) a = a * (l.map gref_popcnt4).prod := by
    intro l
    induction l with
    | nil => intro a; simp
    | cons c l ih =>
      intro a
      simp only [List.foldl_cons, List.map_cons, List.prod_cons, ih]
      ring
  unfold gref_win_prod
  rw [hacc]
  ring

/-- gref_iter_next in the emission phase: return the next kmer of the top
frame and advance kmer_idx. -/
theorem gref_iter_next_emit (it : gref_iter) (st : gref_iter_stack)
    (rest : List gref_iter_stack) (hstk : it.stack = st :: rest)
    (h : st.kmer_idx < st.kmer.length) :
    gref_iter_next it = some (⟨st.kmer.getD st.kmer_idx 0, it.base_gid,
      (st.pos + (2 ^ 32 - it.seed_len % 2 ^ 32)) % 2 ^ 32⟩,
      { it with stack := { st with kmer_idx := st.kmer_idx + 1 } :: rest }) := by
  unfold gref_iter_next
  rw [hstk]
  dsimp only
  rw [if_pos h]
  rfl

/-- gref_iter_next in the advance phase: the kmer set is exhausted and the
frame still holds bases, so one base is fetched and appended, and the
first kmer of the refreshed set is returned. -/
theorem gref_iter_next_advance (it : gref_iter) (st : gref_iter_stack)
    (rest : List gref_iter_stack) (hstk : it.stack = st :: rest)
    (hj : st.kmer.length ≤ st.kmer_idx) (hrem : 0 < st.rem_len)
    (hrev : st.is_rev = false)
    (hlow : 0 ≤ st.seq_base + 1 - st.rem_len)
    (hhigh : st.seq_base < (it.seq.length : Int)) :
    gref_iter_next it = some (
      ⟨(gref_iter_append_base
          { st with rem_len := st.rem_len - 1, pos := st.pos + 1 }
          (it.seq.getD (st.seq_base - ((st.rem_len - 1 : Nat) : Int)).toNat 0)).kmer.getD 0 0,
        it.base_gid,
        (st.pos + 1 + (2 ^ 32 - it.seed_len % 2 ^ 32)) % 2 ^ 32⟩,
      { it with stack :=
          { gref_iter_append_base
              { st with rem_len := st.rem_len - 1, pos := st.pos + 1 }
              (it.seq.getD (st.seq_base - ((st.rem_len - 1 : Nat) : Int)).toNat 0)
            with kmer_idx := 1 } :: rest }) := by
  unfold gref_iter_next
  rw [hstk]
  dsimp only
  rw [if_neg (by omega)]
  rw [gref_root_fetch_step it st rest hrev hrem hlow hhigh]
  rfl

/-- gref_iter_append_base only touches cnt_arr, kmer_idx and kmer. -/
theorem gref_append_base_fields (st : gref_iter_stack) (c : Nat) :
    (gref_iter_append_base st c).is_rev = st.is_rev ∧
    (gref_iter_append_base st c).sec_gid = st.sec_gid ∧
    (gref_iter_append_base st c).link_idx = st.link_idx ∧
    (gref_iter_append_base st c).global_rem_len = st.global_rem_len ∧
    (gref_iter_append_base st c).shift_len = st.shift_len ∧
    (gref_iter_append_base st c).seq_base = st.seq_base ∧
    (gref_iter_append_base st c).rem_len = st.rem_len ∧
    (gref_iter_append_base st c).pos = st.pos := by
  unfold gref_iter_append_base
  exact ⟨rfl, rfl, rfl, rfl, rfl, rfl, rfl, rfl⟩

/-- the popcount entries of a window of an ambiguity-free segment are in
[1, 3]. -/
theorem gref_ps_bounds (codes : List Nat)
    (hcodes : ∀ c ∈ codes, 1 ≤ gref_popcnt4 c ∧ gref_popcnt4 c ≤ 3) :
    ∀ x ∈ codes.map gref_popcnt4, 1 ≤ x ∧ x ≤ 3 := by
  intro x hx
  rcases List.mem_map.mp hx with ⟨c, hc, rfl⟩
  exact hcodes c hc

/-- running the seed loop inside the single-segment root frame keeps the
gref_c2_frame shape and consumes one base per step. -/
theorem gref_c2_seed_loop (it : gref_iter) (k : Nat) (codes : List Nat)
    (hseq : it.seq = codes) (hk : 1 ≤ k) (hk31 : k ≤ 31)
    (hcodes : ∀ c ∈ codes, 1 ≤ gref_popcnt4 c ∧ gref_popcnt4 c ≤ 3) :
    ∀ (n : Nat) (st : gref_iter_stack) (rest : List gref_iter_stack) (m : Nat),
      gref_c2_frame k codes.length (codes.map gref_popcnt4) m st →
      m + n ≤ codes.length →
      ∃ st2, gref_iter_seed_loop it n (st :: rest) = some (st2 :: rest) ∧
        gref_c2_frame k codes.length (codes.map gref_popcnt4) (m + n) st2 ∧
        st2.kmer_idx = (if n = 0 then st.kmer_idx else 0)
  | 0, st, rest, m, hfr, hmn => ⟨st, rfl, by simpa using hfr, by simp⟩
  | n + 1, st, rest, m, hfr, hmn => by
    obtain ⟨hrev, hgid, hlidx, hgrl, hsh, hsb, hrem, hpos, hcnt, hklen, hkb⟩ := hfr
    have hmL : m < codes.length := by omega
    have hstep := gref_root_fetch_step it st rest hrev (by rw [hrem]; omega)
      (by rw [hsb, hrem]; omega)
      (by rw [hsb, hseq]; omega)
    have hidx : (st.seq_base - ((st.rem_len - 1 : Nat) : Int)).toNat = m := by
      rw [hsb, hrem]
      omega
    have hcv : it.seq.getD (st.seq_base - ((st.rem_len - 1 : Nat) : Int)).toNat 0 =
        codes.getD m 0 := by
      rw [hseq, hidx]
    have hcmem : codes.getD m 0 ∈ codes := by
      rw [List.getD_eq_getElem codes 0 hmL]
      exact List.getElem_mem _
    have hpc := hcodes _ hcmem
    have hpsm : (codes.map gref_popcnt4).getD m 0 =
        gref_popcnt4 (codes.getD m 0) := gref_getD_map codes m _ hmL
    have htk : (codes.map gref_popcnt4).take (m + 1) =
        (codes.map gref_popcnt4).take m ++ [gref_popcnt4 (codes.getD m 0)] := by
      rw [gref_take_succ _ m (by simpa using hmL), hpsm]
    have htklen : ((codes.map gref_popcnt4).take m).length = m := by
      simp
      omega
    set st1 := { st with rem_len := st.rem_len - 1, pos := st.pos + 1 } with hst1
    set c := it.seq.getD (st.seq_base - ((st.rem_len - 1 : Nat) : Int)).toNat 0 with hc
    have hup := gref_append_base_len k st1 c ((codes.map gref_popcnt4).take m)
      hk hk31 (by rw [hst1]; exact hsh) (by rw [hst1]; exact hcnt)
      (fun x hx => gref_ps_bounds codes hcodes x (List.mem_of_mem_take hx))
      (by rw [hcv]; omega) (by rw [hcv]; omega)
      (by rw [hst1, htklen]; exact hklen)
    obtain ⟨hup1, hup2, hup3⟩ := hup
    have hbnd := gref_append_base_bound k st1 c hk (by rw [hst1]; exact hsh)
      (by rw [hst1]; exact hkb)
    obtain ⟨hf1, hf2, hf3, hf4, hf5, hf6, hf7, hf8⟩ := gref_append_base_fields st1 c
    have hfr2 : gref_c2_frame k codes.length (codes.map gref_popcnt4) (m + 1)
        (gref_iter_append_base st1 c) := by
      refine ⟨?_, ?_, ?_, ?_, ?_, ?_, ?_, ?_, ?_, ?_, ?_⟩
      · rw [hf1, hst1]; exact hrev
      · rw [hf2, hst1]; exact hgid
      · rw [hf3, hst1]; exact hlidx
      · rw [hf4, hst1]; exact hgrl
      · rw [hf5, hst1]; exact hsh
      · rw [hf6, hst1]; exact hsb
      · rw [hf7, hst1]
        dsimp only
        rw [hrem]
        omega
      · rw [hf8, hst1]
        dsimp only
        rw [hpos]
      · rw [hup1]
        rw [hcv, ← htk]
      · rw [hup3]
        rw [hcv, htklen, ← htk]
      · exact hbnd
    obtain ⟨st3, hloop, hfr3, hkidx⟩ := gref_c2_seed_loop it k codes hseq hk hk31
      hcodes n (gref_iter_append_base st1 c) rest (m + 1) hfr2 (by omega)
    refine ⟨st3, ?_, ?_, ?_⟩
    · unfold gref_iter_seed_loop
      rw [hstep]
      exact hloop
    · rw [show m + (n + 1) = m + 1 + n by omega]
      exact hfr3
    · rw [if_neg (by omega)]
      rcases Nat.eq_zero_or_pos n with hn | hn
      · rw [hkidx, if_pos hn, hup2]
      · rw [hkidx, if_neg (by omega)]

/-- draining the single-segment walker from the window-i state emits
exactly the expansion count of every remaining window, at distinct
positions. -/
theorem gref_c2_trace (k : Nat) (codes : List Nat)
    (hk : 2 ≤ k) (hk31 : k ≤ 31) (hL31 : codes.length < 2 ^ 31)
    (hkL : k ≤ codes.length)
    (hcodes : ∀ c ∈ codes, 1 ≤ gref_popcnt4 c ∧ gref_popcnt4 c ≤ 3) :
    ∀ (fuel : Nat) (it : gref_iter) (st : gref_iter_stack) (i : Nat)
      (l : List gref_kmer_tuple),
      gref_c2_iter k codes it → it.stack = [st] →
      gref_c2_frame k codes.length (codes.map gref_popcnt4) (k + i) st →
      i ≤ codes.length - k → st.kmer_idx ≤ st.kmer.length →
      gref_iter_collect it fuel = some l →
      ∀ m : Nat, gref_count_pos 0 m l =
        if m < i ∨ codes.length - k < m then 0
        else if m = i then st.kmer.length - st.kmer_idx
        else (((codes.map gref_popcnt4).take (k + m)).drop m).prod
  | 0, it, st, i, l, hit, hstk, hfr, hi, hj, hcol => by
    simp [gref_iter_collect] at hcol
  | fuel + 1, it, st, i, l, hit, hstk, hfr, hi, hj, hcol => by
    obtain ⟨hbase, htail, hseed, hseq, hrv⟩ := hit
    obtain ⟨hrev, hgid, hlidx, hgrl, hsh, hsb, hrem, hpos, hcnt, hklen, hkb⟩ := hfr
    have h431 : (4:Nat) ^ k ≤ 4 ^ 31 := Nat.pow_le_pow_right (by omega) hk31
    have h4c : (4:Nat) ^ 31 < 2 ^ 64 - 1 := by norm_num
    by_cases hjlt : st.kmer_idx < st.kmer.length
    · -- emission phase
      have hnext := gref_iter_next_emit it st [] hstk hjlt
      have hmem : st.kmer.getD st.kmer_idx 0 ∈ st.kmer := by
        rw [List.getD_eq_getElem _ _ hjlt]
        exact List.getElem_mem _
      have hterm : ¬ st.kmer.getD st.kmer_idx 0 = GREF_ITER_KMER_TERM := by
        have := hkb _ hmem
        unfold GREF_ITER_KMER_TERM
        omega
      unfold gref_iter_collect at hcol
      rw [hnext] at hcol
      dsimp only at hcol
      rw [if_neg hterm] at hcol
      cases hcol2 : gref_iter_collect
          { it with stack := { st with kmer_idx := st.kmer_idx + 1 } :: [] } fuel with
      | none =>
        rw [hcol2] at hcol
        exact absurd hcol (by simp)
      | some l2 =>
        rw [hcol2] at hcol
        dsimp only at hcol
        have hl : l = ⟨st.kmer.getD st.kmer_idx 0, it.base_gid,
            (st.pos + (2 ^ 32 - it.seed_len % 2 ^ 32)) % 2 ^ 32⟩ :: l2 :=
          (Option.some_inj.mp hcol).symm
        have hIH := gref_c2_trace k codes hk hk31 hL31 hkL hcodes fuel
          { it with stack := { st with kmer_idx := st.kmer_idx + 1 } :: [] }
          { st with kmer_idx := st.kmer_idx + 1 } i l2
          ⟨hbase, htail, hseed, hseq, hrv⟩ rfl
          ⟨hrev, hgid, hlidx, hgrl, hsh, hsb, hrem, hpos, hcnt, hklen, hkb⟩
          hi (by dsimp only; omega) hcol2
        have hposval : (st.pos + (2 ^ 32 - it.seed_len % 2 ^ 32)) % 2 ^ 32 = i := by
          rw [hpos, hseed]
          rw [Nat.mod_eq_of_lt (show k < 2 ^ 32 by omega)]
          rw [show k + i + (2 ^ 32 - k) = i + 2 ^ 32 by omega]
          rw [Nat.add_mod_right]
          exact Nat.mod_eq_of_lt (by omega)
        intro m
        have hIHm := hIH m
        dsimp only at hIHm
        rw [hl]
        unfold gref_count_pos at hIHm ⊢
        rw [List.countP_cons, hIHm]
        dsimp only
        rw [hbase, hposval]
        by_cases hm : m = i
        · subst hm
          rw [if_neg (show ¬ (m < m ∨ codes.length - k < m) by omega),
            if_neg (show ¬ (m < m ∨ codes.length - k < m) by omega),
            if_pos rfl, if_pos rfl]
          rw [if_pos (show ((0:Nat) == 0 && (m:Nat) == m) = true by simp)]
          omega
        · rw [if_neg (show ¬ ((0:Nat) == 0 && (i:Nat) == m) = true by
            simp [Bool.and_eq_true, beq_iff_eq]
            omega)]
          split_ifs <;> omega
    · have hj' : st.kmer_idx = st.kmer.length := by omega
      by_cases hiW : i < codes.length - k
      · have hremp : 0 < st.rem_len := by rw [hrem]; omega
        have hnext := gref_iter_next_advance it st [] hstk (by omega) hremp hrev
          (by rw [hsb, hrem]; omega) (by rw [hsb, hseq]; omega)
        have hmL : k + i < codes.length := by omega
        have hidx : (st.seq_base - ((st.rem_len - 1 : Nat) : Int)).toNat = k + i := by
          rw [hsb, hrem]
          omega
        have hcv : it.seq.getD (st.seq_base - ((st.rem_len - 1 : Nat) : Int)).toNat 0 =
            codes.getD (k + i) 0 := by rw [hseq, hidx]
        have hcmem : codes.getD (k + i) 0 ∈ codes := by
          rw [List.getD_eq_getElem codes 0 hmL]
          exact List.getElem_mem _
        have hpc := hcodes _ hcmem
        have hpsm : (codes.map gref_popcnt4).getD (k + i) 0 =
            gref_popcnt4 (codes.getD (k + i) 0) := gref_getD_map codes _ _ hmL
        have htk : (codes.map gref_popcnt4).take (k + i + 1) =
            (codes.map gref_popcnt4).take (k + i) ++
              [gref_popcnt4 (codes.getD (k + i) 0)] := by
          rw [gref_take_succ _ _ (by simpa using hmL), hpsm]
        have htklen : ((codes.map gref_popcnt4).take (k + i)).length = k + i := by
          simp
          omega
        set st1 := { st with rem_len := st.rem_len - 1, pos := st.pos + 1 } with hst1
        set c := it.seq.getD (st.seq_base - ((st.rem_len - 1 : Nat) : Int)).toNat 0
          with hc
        have hup := gref_append_base_len k st1 c
          ((codes.map gref_popcnt4).take (k + i))
          (by omega) hk31 (by rw [hst1]; exact hsh) (by rw [hst1]; exact hcnt)
          (fun x hx => gref_ps_bounds codes hcodes x (List.mem_of_mem_take hx))
          (by rw [hcv]; omega) (by rw [hcv]; omega)
          (by rw [hst1, htklen]; exact hklen)
        obtain ⟨hup1, hup2, hup3⟩ := hup
        have hbnd := gref_append_base_bound k st1 c (by omega)
          (by rw [hst1]; exact hsh) (by rw [hst1]; exact hkb)
        obtain ⟨hf1, hf2, hf3, hf4, hf5, hf6, hf7, hf8⟩ :=
          gref_append_base_fields st1 c
        have hup3x : (gref_iter_append_base st1 c).kmer.length =
            (((codes.map gref_popcnt4).take (k + (i + 1))).drop (i + 1)).prod := by
          rw [hup3, hcv, htklen, ← htk]
          rw [show k + i + 1 - k = i + 1 by omega]
          rw [show k + i + 1 = k + (i + 1) by omega]
        have hlen1 : 1 ≤ (gref_iter_append_base st1 c).kmer.length := by
          rw [hup3x]
          apply List.one_le_prod_of_one_le
          intro x hx
          exact (gref_ps_bounds codes hcodes x
            (List.mem_of_mem_take (List.mem_of_mem_drop hx))).1
        have hval_mem : (gref_iter_append_base st1 c).kmer.getD 0 0 ∈
            (gref_iter_append_base st1 c).kmer := by
          rw [List.getD_eq_getElem _ _ (by omega)]
          exact List.getElem_mem _
        have hterm : ¬ (gref_iter_append_base st1 c).kmer.getD 0 0 =
            GREF_ITER_KMER_TERM := by
          have := hbnd _ hval_mem
          unfold GREF_ITER_KMER_TERM
          omega
        unfold gref_iter_collect at hcol
        rw [hnext] at hcol
        dsimp only at hcol
        rw [if_neg hterm] at hcol
        cases hcol2 : gref_iter_collect
            { it with stack :=
              { gref_iter_append_base st1 c with kmer_idx := 1 } :: [] } fuel with
        | none =>
          rw [hcol2] at hcol
          exact absurd hcol (by simp)
        | some l2 =>
          rw [hcol2] at hcol
          dsimp only at hcol
          have hl : l = ⟨(gref_iter_append_base st1 c).kmer.getD 0 0, it.base_gid,
              (st.pos + 1 + (2 ^ 32 - it.seed_len % 2 ^ 32)) % 2 ^ 32⟩ :: l2 :=
            (Option.some_inj.mp hcol).symm
          have hfr2 : gref_c2_frame k codes.length (codes.map gref_popcnt4)
              (k + (i + 1)) { gref_iter_append_base st1 c with kmer_idx := 1 } := by
            refine ⟨?_, ?_, ?_, ?_, ?_, ?_, ?_, ?_, ?_, ?_, ?_⟩
            · show (gref_iter_append_base st1 c).is_rev = false
              rw [hf1, hst1]
              exact hrev
            · show (gref_iter_append_base st1 c).sec_gid = 0
              rw [hf2, hst1]
              exact hgid
            · show (gref_iter_append_base st1 c).link_idx = 0
              rw [hf3, hst1]
              exact hlidx
            · show (gref_iter_append_base st1 c).global_rem_len = k - 1
              rw [hf4, hst1]
              exact hgrl
            · show (gref_iter_append_base st1 c).shift_len = 2 * (k - 1)
              rw [hf5, hst1]
              exact hsh
            · show (gref_iter_append_base st1 c).seq_base = (codes.length : Int) - 1
              rw [hf6, hst1]
              exact hsb
            · show (gref_iter_append_base st1 c).rem_len =
                codes.length - (k + (i + 1))
              rw [hf7, hst1]
              dsimp only
              rw [hrem]
              omega
            · show (gref_iter_append_base st1 c).pos = k + (i + 1)
              rw [hf8, hst1]
              dsimp only
              rw [hpos]
              omega
            · show (gref_iter_append_base st1 c).cnt_arr =
                gref_pack4 ((codes.map gref_popcnt4).take (k + (i + 1))) % 2 ^ 64
              rw [hup1, hcv, ← htk]
              rw [show k + i + 1 = k + (i + 1) by omega]
            · show (gref_iter_append_base st1 c).kmer.length =
                (((codes.map gref_popcnt4).take (k + (i + 1))).drop
                  (k + (i + 1) - k)).prod
              rw [hup3x]
              rw [show k + (i + 1) - k = i + 1 by omega]
            · exact hbnd
          have hIH := gref_c2_trace k codes hk hk31 hL31 hkL hcodes fuel
            { it with stack :=
              { gref_iter_append_base st1 c with kmer_idx := 1 } :: [] }
            { gref_iter_append_base st1 c with kmer_idx := 1 } (i + 1) l2
            ⟨hbase, htail, hseed, hseq, hrv⟩ rfl hfr2 (by omega)
            (by dsimp only; exact hlen1) hcol2
          have hposval : (st.pos + 1 + (2 ^ 32 - it.seed_len % 2 ^ 32)) % 2 ^ 32 =
              i + 1 := by
            rw [hpos, hseed]
            rw [Nat.mod_eq_of_lt (show k < 2 ^ 32 by omega)]
            rw [show k + i + 1 + (2 ^ 32 - k) = i + 1 + 2 ^ 32 by omega]
            rw [Nat.add_mod_right]
            exact Nat.mod_eq_of_lt (by omega)
          intro m
          have hIHm := hIH m
          dsimp only at hIHm
          rw [hl]
          unfold gref_count_pos at hIHm ⊢
          rw [List.countP_cons, hIHm]
          dsimp only
          rw [hbase, hposval]
          by_cases hm : m = i + 1
          · subst hm
            rw [if_neg (show ¬ (i + 1 < i + 1 ∨ codes.length - k < i + 1) by omega),
              if_pos rfl,
              if_neg (show ¬ (i + 1 < i ∨ codes.length - k < i + 1) by omega),
              if_neg (show ¬ (i + 1 = i) by omega)]
            rw [if_pos (show ((0:Nat) == 0 && (i + 1 : Nat) == i + 1) = true by simp)]
            rw [← hup3x]
            omega
          · rw [if_neg (show ¬ ((0:Nat) == 0 && (i + 1 : Nat) == m) = true by
              simp [Bool.and_eq_true, beq_iff_eq]
              omega)]
            split_ifs <;> omega
      · have hiW2 : i = codes.length - k := by omega
        have hrem0 : st.rem_len = 0 := by rw [hrem]; omega
        have hfetch : gref_iter_fetch it (st :: []) = gref_fetch_result.done := by
          simp only [gref_iter_fetch]
          rw [if_neg (by omega)]
          rw [if_neg (show ¬ st.global_rem_len = 0 by rw [hgrl]; omega)]
          simp only [gref_iter_pop_loop]
          rw [hlidx, hgid, hrv]
          rw [if_pos rfl]
        have hnext : gref_iter_next it =
            some (⟨GREF_ITER_KMER_TERM, 2 ^ 32 - 1, 0⟩,
              { it with base_gid := it.base_gid + 2, stack := [] }) := by
          unfold gref_iter_next
          rw [hstk]
          dsimp only
          rw [if_neg (by omega)]
          rw [hfetch]
          dsimp only
          rw [if_neg (show ¬ it.base_gid + 2 < it.tail_gid by
            rw [hbase, htail]
            omega)]
        unfold gref_iter_collect at hcol
        rw [hnext] at hcol
        dsimp only at hcol
        rw [if_pos rfl] at hcol
        have hl : l = [] := (Option.some_inj.mp hcol).symm
        intro m
        rw [hl]
        unfold gref_count_pos
        rw [List.countP_nil]
        split_ifs <;> omega

/-- getD ignores a set at a different index. -/
theorem gref_getD_set_ne {α : Type} (l : List α) (i j : Nat) (v d : α)
    (h : i ≠ j) : (l.set i v).getD j d = l.getD j d := by
  unfold List.getD
  rw [List.get?_eq_getElem?, List.get?_eq_getElem?, List.getElem?_set_ne h]

/-- getD reads the left part of an append when in range. -/
theorem gref_getD_append {α : Type} (l l2 : List α) (n : Nat) (d : α)
    (h : n < l.length) : (l ++ l2).getD n d = l.getD n d := by
  unfold List.getD
  rw [List.get?_eq_getElem?, List.get?_eq_getElem?, List.getElem?_append]
  rw [if_pos h]

/-- every 4-bit popcount is at most 3 (0x0f maps to 0 by construction). -/
theorem gref_popcnt4_le3 (c : Nat) : gref_popcnt4 c ≤ 3 := by
  unfold gref_popcnt4
  apply gref_getD_le
  · intro x hx
    fin_cases hx <;> omega
  · omega

/-- the pool built by a single append_segment, in closed form. -/
theorem gref_c2_pool (k : Nat) (chars : List Nat) :
    gref_apply_ops k [gref_op.seg "s" chars] =
      { names := ["s"], secs := [⟨0, min chars.length 0x80000000, 0⟩],
        tail_id := 1, gtype := GREF_POOL, k := k,
        seq := chars.map gref_encode_4bit, link := [],
        link_idx_table := [], link_table := [], mask := 0,
        kmer_idx_table := [], kmer_table := [] } := by
  unfold gref_apply_ops gref_apply_op
  rw [List.foldl_cons, List.foldl_nil]
  unfold gref_append_segment gref_copy_seq_ascii hmap_alloc gref_init_pool
  simp

/-- the sentinel loop only appends to the registry. -/
theorem gref_add_tail_loop_shape (target : Nat) :
    ∀ (fuel : Nat) (g : gref_pool) (m : Nat),
      ∃ ns, (gref_add_tail_loop target fuel g m).names = g.names ++ ns ∧
        (gref_add_tail_loop target fuel g m).secs =
          g.secs ++ List.replicate ns.length ⟨0, 0, 0⟩
  | 0, g, m => ⟨[], by simp [gref_add_tail_loop], by simp [gref_add_tail_loop]⟩
  | fuel + 1, g, m => by
    rw [gref_add_tail_loop_succ]
    unfold hmap_alloc
    cases hfind : g.names.findIdx? (fun n => n == gref_tail_sentinel_name m) with
    | some idx =>
      dsimp only
      split
      · exact ⟨[], by simp, by simp⟩
      · exact gref_add_tail_loop_shape target fuel g (m + 1)
    | none =>
      dsimp only
      split
      · exact ⟨[gref_tail_sentinel_name m], rfl, rfl⟩
      · obtain ⟨ns, h1, h2⟩ := gref_add_tail_loop_shape target fuel _ (m + 1)
        refine ⟨gref_tail_sentinel_name m :: ns, ?_, ?_⟩
        · rw [h1]
          simp
        · rw [h2]
          simp [List.replicate_succ]

/-- the in-range section records survive gref_add_tail_section. -/
theorem gref_add_tail_secs_getD (g : gref_pool) (j : Nat) (d : gref_section)
    (hj : j < g.secs.length) (hlen : g.secs.length = g.names.length) :
    (gref_add_tail_section g).secs.getD j d = g.secs.getD j d := by
  unfold gref_add_tail_section
  dsimp only
  split
  · rfl
  · obtain ⟨ns, h1, h2⟩ := gref_add_tail_loop_shape (g.tail_id + 1) 242 g 1
    rw [h2]
    rw [gref_getD_set_ne _ _ _ _ _ (by omega)]
    exact gref_getD_append _ _ _ _ hj

/-- C2 (corrected): over a single linkless segment with no N (every base
code has nonzero popcount), the number of tuples emitted at (gid 0, pos i)
is the product of the popcounts of the k bases of the window: 2 for a
single 2-way base, 3 for a single 3-way base.  (With an N the claim fails:
the kmer set becomes permanently empty and the fetch branch still emits
one stale tuple per window, as the counterexample shows.) -/
theorem C2_amended (k : Nat) (chars : List Nat) (a : gref_pool)
    (fuel : Nat) (l : List gref_kmer_tuple) (i : Nat)
    (hk : 2 ≤ k) (hk31 : k ≤ 31) (hL31 : chars.length < 2 ^ 31)
    (hfz : gref_freeze_pool (gref_apply_ops k [gref_op.seg "s" chars]) = some a)
    (henum : gref_enum fuel a = some l)
    (hcodes : ∀ c ∈ chars, 1 ≤ gref_popcnt4 (gref_encode_4bit c))
    (hik : i + k ≤ chars.length) :
    gref_count_pos 0 i l =
      gref_win_prod (((chars.map gref_encode_4bit).drop i).take k) := by
  have hgp := gref_c2_pool k chars
  obtain ⟨-, hlk, hlt, hidx, htaila, hseqa, hka, -, -, hsecsa⟩ :=
    gref_freeze_fields _ a hfz
  rw [hgp] at hidx htaila hseqa hka hsecsa
  dsimp only at hidx htaila hseqa hka hsecsa
  set codes := chars.map gref_encode_4bit with hcdef
  have hLen : codes.length = chars.length := by
    rw [hcdef]
    exact List.length_map _ _
  have hlitv : a.link_idx_table = [0, 0, 0, 0, 0] := by
    rw [hidx]
    decide
  have hsec0 : a.secs.getD 0 ⟨0, 0, 0⟩ = ⟨0, chars.length, 0⟩ := by
    rw [hsecsa]
    rw [gref_add_tail_secs_getD _ 0 _ (by simp) (by simp)]
    dsimp only
    rw [List.getD_cons_zero]
    congr 1
    omega
  have hcodes2 : ∀ c ∈ codes, 1 ≤ gref_popcnt4 c ∧ gref_popcnt4 c ≤ 3 := by
    intro c hc
    rw [hcdef] at hc
    rcases List.mem_map.mp hc with ⟨x, hx, rfl⟩
    exact ⟨hcodes x hx, gref_popcnt4_le3 _⟩
  unfold gref_enum at henum
  unfold gref_iter_init at henum
  dsimp only at henum
  set it0 : gref_iter := { base_gid := 0
                           tail_gid := 2 * a.tail_id
                           seed_len := a.k
                           shift_len := 2 * (a.k - 1)
                           seq := a.seq
                           link_table := a.link_table
                           secs := a.secs
                           link_idx_table := a.link_idx_table
                           stack := [] } with hit0
  have hseq0 : it0.seq = codes := hseqa
  have hseed0 : it0.seed_len = k := hka
  have hb0 : it0.base_gid = 0 := rfl
  have hfw : gref_fw_link_idx_base it0 0 = 0 := by
    unfold gref_fw_link_idx_base
    show a.link_idx_table.getD (2 * (0 / 2)) 0 = 0
    rw [hlitv]
    decide
  have hrv0 : gref_rv_link_idx_base it0 0 = 0 := by
    unfold gref_rv_link_idx_base
    show a.link_idx_table.getD (2 * (0 / 2) + 1) 0 = 0
    rw [hlitv]
    decide
  set root : gref_iter_stack := { global_rem_len := it0.seed_len - 1
                                  shift_len := it0.shift_len
                                  sec_gid := it0.base_gid
                                  link_idx := gref_fw_link_idx_base it0 it0.base_gid
                                  is_rev := false
                                  seq_base := gref_iter_calc_seq_base it0 it0.base_gid
                                    (it0.secs.getD (it0.base_gid / 2) ⟨0, 0, 0⟩).len
                                  rem_len := (it0.secs.getD (it0.base_gid / 2) ⟨0, 0, 0⟩).len
                                  pos := 0
                                  cnt_arr := 0
                                  kmer_idx := 0
                                  kmer := [0] } with hroot
  have hsecit0 : it0.secs.getD 0 ⟨0, 0, 0⟩ = ⟨0, chars.length, 0⟩ := by
    show a.secs.getD 0 ⟨0, 0, 0⟩ = ⟨0, chars.length, 0⟩
    exact hsec0
  have hfr0 : gref_c2_frame k codes.length (codes.map gref_popcnt4) 0 root := by
    refine ⟨?_, ?_, ?_, ?_, ?_, ?_, ?_, ?_, ?_, ?_, ?_⟩
    · show root.is_rev = false
      rfl
    · show root.sec_gid = 0
      exact hb0
    · show gref_fw_link_idx_base it0 it0.base_gid = 0
      rw [hb0]
      exact hfw
    · show it0.seed_len - 1 = k - 1
      rw [hseed0]
    · show it0.shift_len = 2 * (k - 1)
      show 2 * (a.k - 1) = 2 * (k - 1)
      rw [hka]
    · show gref_iter_calc_seq_base it0 it0.base_gid
        (it0.secs.getD (it0.base_gid / 2) ⟨0, 0, 0⟩).len = (codes.length : Int) - 1
      rw [hb0]
      rw [show (0:Nat) / 2 = 0 from rfl]
      rw [hsecit0]
      unfold gref_iter_calc_seq_base
      rw [show (0:Nat) / 2 = 0 from rfl]
      rw [hsecit0]
      dsimp only
      rw [if_pos (show (0:Nat) % 2 = 0 from rfl)]
      rw [hLen]
      omega
    · show root.rem_len = codes.length - 0
      show (it0.secs.getD (it0.base_gid / 2) ⟨0, 0, 0⟩).len = codes.length - 0
      rw [hb0]
      rw [show (0:Nat) / 2 = 0 from rfl]
      rw [hsecit0]
      dsimp only
      omega
    · show (0:Nat) = 0
      rfl
    · show (0:Nat) = gref_pack4 ((codes.map gref_popcnt4).take 0) % 2 ^ 64
      simp [gref_pack4]
    · show ([0] : List Nat).length =
        (((codes.map gref_popcnt4).take 0).drop (0 - k)).prod
      simp
    · intro w hw
      have hw0 : w = 0 := by simpa using hw
      rw [hw0]
      positivity
  obtain ⟨st2, hloop, hfr2, hkidx2⟩ := gref_c2_seed_loop it0 k codes hseq0
    (by omega) hk31 hcodes2 k root [] 0 hfr0 (by omega)
  have hinit : gref_iter_init_stack it0 = some [st2] := by
    show gref_iter_seed_loop it0 it0.seed_len [root] = some [st2]
    rw [hseed0]
    exact hloop
  rw [hinit] at henum
  dsimp only at henum
  have hfrK : gref_c2_frame k codes.length (codes.map gref_popcnt4) (k + 0) st2 := by
    rw [show k + 0 = 0 + k by omega]
    exact hfr2
  have hkidx0 : st2.kmer_idx = 0 := by
    rw [hkidx2, if_neg (by omega)]
  have hit2 : gref_c2_iter k codes { it0 with stack := [st2] } := by
    refine ⟨?_, ?_, ?_, ?_, ?_⟩
    · exact hb0
    · show it0.tail_gid = 2
      show 2 * a.tail_id = 2
      rw [htaila]
    · exact hseed0
    · exact hseq0
    · exact hrv0
  have htrace := gref_c2_trace k codes hk hk31 (by omega) (by omega) hcodes2
    fuel { it0 with stack := [st2] } st2 0 l hit2 rfl hfrK (by omega)
    (by omega) henum i
  have hconv : (((codes.map gref_popcnt4).take (k + i)).drop i).prod =
      gref_win_prod ((codes.drop i).take k) := by
    rw [gref_win_prod_eq]
    rw [List.map_take, List.map_drop]
    rw [List.drop_take (k + i) i]
    rw [show k + i - i = k by omega]
  rcases Nat.eq_zero_or_pos i with hi0 | hip
  · subst hi0
    rw [htrace]
    rw [if_neg (by omega), if_pos rfl, hkidx0, Nat.sub_zero]
    obtain ⟨-, -, -, -, -, -, -, -, -, hklen2, -⟩ := hfrK
    rw [hklen2]
    rw [show k + 0 - k = 0 by omega]
    rw [← hconv]
  · rw [htrace]
    rw [if_neg (by omega), if_neg (by omega)]
    exact hconv

theorem C2_witness :
    gref_freeze_pool (gref_apply_ops 3 [gref_op.seg "s" (gref_str "GGRA")]) =
      some gref_ex2c ∧
    gref_enum 100 gref_ex2c = some ((gref_enum 100 gref_ex2c).getD []) ∧
    gref_count_pos 0 1 ((gref_enum 100 gref_ex2c).getD []) =
      gref_win_prod ((((gref_str "GGRA").map gref_encode_4bit).drop 1).take 3) :=
  ⟨by decide, by decide,
   C2_amended 3 (gref_str "GGRA") gref_ex2c 100
     ((gref_enum 100 gref_ex2c).getD []) 1 (by decide) (by decide) (by decide)
     (by decide) (by decide) (by decide) (by decide)⟩

/-- a findIdx? hit for a name present in the registry. -/
theorem gref_findIdx_mem (l : List String) (s : String) (h : s ∈ l) :
    ∃ i, l.findIdx? (fun n => n == s) = some i ∧ i < l.length := by
  cases hf : l.findIdx? (fun n => n == s) with
  | none =>
    rw [List.findIdx?_eq_none_iff] at hf
    have := hf s h
    simp at this
  | some i =>
    exact ⟨i, rfl, (List.findIdx?_eq_some_iff_getElem.mp hf).1⟩

/-- gref_append_segment on a fresh name, in closed form. -/
theorem gref_append_segment_fresh (g : gref_pool) (n : String) (cs : List Nat)
    (hfresh : n ∉ g.names) :
    (gref_append_segment g n cs).2 =
      { g with names := g.names ++ [n]
               seq := g.seq ++ cs.map gref_encode_4bit
               tail_id := max g.tail_id (g.names.length + 1)
               secs := (g.secs ++ [(⟨0, 0, 0⟩ : gref_section)]).set g.names.length
                 ⟨g.names.length, min cs.length 0x80000000, g.seq.length⟩ } := by
  unfold gref_append_segment gref_copy_seq_ascii hmap_alloc
  dsimp only
  rw [gref_findIdx_none _ _ hfresh]
  dsimp only
  rw [show g.seq.length + cs.length - g.seq.length = cs.length by omega]

/-- the pool after appending a list of fresh, pairwise distinct segments:
the registry, the sequence arena and the section records in closed form. -/
theorem gref_segs_shape :
    ∀ (segs : List (String × List Nat)) (g : gref_pool),
      (∀ n ∈ segs.map Prod.fst, n ∉ g.names) →
      (segs.map Prod.fst).Nodup →
      g.tail_id = g.names.length →
      g.secs.length = g.names.length →
      ∀ g2, g2 = (segs.map (fun p => gref_op.seg p.1 p.2)).foldl gref_apply_op g →
        g2.names = g.names ++ segs.map Prod.fst ∧
        g2.seq = g.seq ++ segs.flatMap (fun p => p.2.map gref_encode_4bit) ∧
        g2.tail_id = g.names.length + segs.length ∧
        g2.secs.length = g.names.length + segs.length ∧
        g2.link = g.link ∧ g2.k = g.k ∧ g2.gtype = g.gtype ∧
        (∀ j, j < g.names.length →
          g2.secs.getD j (⟨0, 0, 0⟩ : gref_section) = g.secs.getD j ⟨0, 0, 0⟩) ∧
        (∀ t, t < segs.length →
          g2.secs.getD (g.names.length + t) (⟨0, 0, 0⟩ : gref_section) =
            ⟨g.names.length + t, min (segs.getD t ("", [])).2.length 0x80000000,
             g.seq.length + ((segs.take t).map (fun p => p.2.length)).sum⟩)
  | [], g, _, _, htl, hns, g2, hg2 => by
    subst hg2
    refine ⟨by simp, by simp, by simp [htl.symm], by simp [hns], rfl, rfl, rfl,
      fun j hj => rfl, fun t ht => absurd ht (by simp)⟩
  | p :: rest, g, hfresh, hnodup, htl, hns, g2, hg2 => by
    have hp1 : p.1 ∉ g.names := hfresh p.1 (by simp)
    have happ := gref_append_segment_fresh g p.1 p.2 hp1
    rw [List.map_cons, List.foldl_cons] at hg2
    have hg1 : gref_apply_op g (gref_op.seg p.1 p.2) =
        (gref_append_segment g p.1 p.2).2 := rfl
    rw [hg1, happ] at hg2
    set g1 : gref_pool :=
      { g with names := g.names ++ [p.1]
               seq := g.seq ++ p.2.map gref_encode_4bit
               tail_id := max g.tail_id (g.names.length + 1)
               secs := (g.secs ++ [(⟨0, 0, 0⟩ : gref_section)]).set g.names.length
                 ⟨g.names.length, min p.2.length 0x80000000, g.seq.length⟩ }
      with hg1def
    have hn1 : g1.names = g.names ++ [p.1] := rfl
    have hl1 : g1.names.length = g.names.length + 1 := by
      rw [hn1]
      simp
    have hfresh1 : ∀ n ∈ rest.map Prod.fst, n ∉ g1.names := by
      intro n hn
      rw [hn1]
      intro hmem
      rcases List.mem_append.mp hmem with h | h
      · exact hfresh n (by simp [hn]) h
      · have hne : n = p.1 := by simpa using h
        rw [List.map_cons] at hnodup
        have := (List.nodup_cons.mp hnodup).1
        rw [← hne] at this
        exact this hn
    have hnodup1 : (rest.map Prod.fst).Nodup := by
      rw [List.map_cons] at hnodup
      exact (List.nodup_cons.mp hnodup).2
    have htl1 : g1.tail_id = g1.names.length := by
      rw [hl1]
      show max g.tail_id (g.names.length + 1) = g.names.length + 1
      rw [htl]
      omega
    have hns1 : g1.secs.length = g1.names.length := by
      rw [hl1]
      show ((g.secs ++ [(⟨0, 0, 0⟩ : gref_section)]).set g.names.length _).length =
        g.names.length + 1
      rw [List.length_set]
      simp [hns]
    obtain ⟨ih1, ih2, ih3, ih4, ih5, ih6, ih7, ih8, ih9⟩ :=
      gref_segs_shape rest g1 hfresh1 hnodup1 htl1 hns1 g2 hg2
    refine ⟨?_, ?_, ?_, ?_, ih5, ih6, ih7, ?_, ?_⟩
    · rw [ih1, hn1]
      simp
    · rw [ih2]
      show g.seq ++ p.2.map gref_encode_4bit ++ _ = _
      rw [List.flatMap_cons, List.append_assoc]
    · rw [ih3, hl1]
      simp
      omega
    · rw [ih4, hl1]
      simp
      omega
    · intro j hj
      rw [ih8 j (by rw [hl1]; omega)]
      show ((g.secs ++ [(⟨0, 0, 0⟩ : gref_section)]).set g.names.length _).getD j
        ⟨0, 0, 0⟩ = g.secs.getD j ⟨0, 0, 0⟩
      rw [gref_getD_set_ne _ _ _ _ _ (by omega)]
      exact gref_getD_append _ _ _ _ (by omega)
    · intro t ht
      cases t with
      | zero =>
        rw [show g.names.length + 0 = g.names.length by omega]
        rw [ih8 g.names.length (by rw [hl1]; omega)]
        show ((g.secs ++ [(⟨0, 0, 0⟩ : gref_section)]).set g.names.length
          ⟨g.names.length, min p.2.length 0x80000000, g.seq.length⟩).getD
            g.names.length ⟨0, 0, 0⟩ = _
        rw [List.getD_eq_getElem?_getD, List.getElem?_set_self (by simp; omega)]
        simp
      | succ t2 =>
        have ht2 : t2 < rest.length := by simpa using ht
        have hx := ih9 t2 ht2
        have hidx : g.names.length + (t2 + 1) = g1.names.length + t2 := by
          rw [hl1]
          omega
        rw [hidx, hx, List.getD_cons_succ]
        congr 1
        rw [List.take_succ_cons, List.map_cons, List.sum_cons]
        show (g.seq ++ p.2.map gref_encode_4bit).length + _ = _
        simp
        omega

/-- appending links between registered names leaves the registry, the
sections, the arena and tail_id untouched. -/
theorem gref_links_keep :
    ∀ (lks : List (String × Nat × String × Nat)) (g : gref_pool),
      (∀ lk ∈ lks, lk.1 ∈ g.names ∧ lk.2.2.1 ∈ g.names) →
      g.tail_id = g.names.length →
      ∀ g2, g2 = (lks.map (fun lk =>
          gref_op.lnk lk.1 lk.2.1 lk.2.2.1 lk.2.2.2)).foldl gref_apply_op g →
        g2.names = g.names ∧ g2.secs = g.secs ∧ g2.seq = g.seq ∧
        g2.tail_id = g.tail_id ∧ g2.k = g.k ∧ g2.gtype = g.gtype
  | [], g, _, _, g2, hg2 => by
    subst hg2
    exact ⟨rfl, rfl, rfl, rfl, rfl, rfl⟩
  | lk :: rest, g, hmem, htl, g2, hg2 => by
    obtain ⟨hs, hd⟩ := hmem lk (by simp)
    obtain ⟨si, hsi, hsilt⟩ := gref_findIdx_mem g.names lk.1 hs
    obtain ⟨di, hdi, hdilt⟩ := gref_findIdx_mem g.names lk.2.2.1 hd
    rw [List.map_cons, List.foldl_cons] at hg2
    have hstep : gref_apply_op g (gref_op.lnk lk.1 lk.2.1 lk.2.2.1 lk.2.2.2) =
        { g with
          link := g.link ++
            [(gref_encode_gid si lk.2.1, gref_encode_gid di lk.2.2.2),
             (gref_encode_gid di (gref_rev_dir lk.2.2.2),
              gref_encode_gid si (gref_rev_dir lk.2.1))]
          tail_id := g.tail_id } := by
      show (gref_append_link g lk.1 lk.2.1 lk.2.2.1 lk.2.2.2).2 = _
      unfold gref_append_link hmap_alloc
      rw [hsi]
      dsimp only
      rw [hdi]
      dsimp only
      rw [show max (max g.tail_id si) di = g.tail_id by omega]
    rw [hstep] at hg2
    have hmem1 : ∀ l2 ∈ rest, l2.1 ∈ g.names ∧ l2.2.2.1 ∈ g.names := by
      intro l2 hl2
      exact hmem l2 (by simp [hl2])
    obtain ⟨ih1, ih2, ih3, ih4, ih5, ih6⟩ := gref_links_keep rest
      { g with
        link := g.link ++
          [(gref_encode_gid si lk.2.1, gref_encode_gid di lk.2.2.2),
           (gref_encode_gid di (gref_rev_dir lk.2.2.2),
            gref_encode_gid si (gref_rev_dir lk.2.1))]
        tail_id := g.tail_id }
      (by intro l2 hl2; exact hmem1 l2 hl2) (by dsimp only; exact htl) g2 hg2
    exact ⟨ih1, ih2, ih3, ih4, ih5, ih6⟩

/-- a successful per-frame fetch only advances rem_len and pos. -/
theorem gref_stack_fetch_fields (it : gref_iter) (st : gref_iter_stack)
    (c : Nat) (st2 : gref_iter_stack)
    (h : gref_iter_stack_fetch it st = some (c, st2)) :
    st2 = { st with rem_len := st.rem_len - 1, pos := st.pos + 1 } := by
  unfold gref_iter_stack_fetch gref_iter_reverse_fetch gref_iter_foward_fetch at h
  dsimp only at h
  split at h
  · split at h
    · exact absurd h (by simp)
    · split at h
      · have := Option.some_inj.mp h
        exact (congrArg Prod.snd this).symm
      · exact absurd h (by simp)
  · split at h
    · exact absurd h (by simp)
    · split at h
      · have := Option.some_inj.mp h
        exact (congrArg Prod.snd this).symm
      · exact absurd h (by simp)

/-- the frame built and filled by gref_iter_descend keeps the invariant. -/
theorem gref_descend_bound (k : Nat) (it : gref_iter) (st : gref_iter_stack)
    (rest stk2 : List gref_iter_stack) (hk : 1 ≤ k)
    (hb : gref_stack_bound k (st :: rest))
    (h : gref_iter_descend it st rest = .next stk2) :
    gref_stack_bound k stk2 := by
  obtain ⟨hsh, hkb⟩ := hb st (by simp)
  unfold gref_iter_descend at h
  dsimp only at h
  split at h
  · exact absurd h (by simp)
  · rename_i pr c nf2 hfe
    have hnf2 := gref_stack_fetch_fields it _ c nf2 hfe
    have hinj := gref_fetch_result.next.inj h
    rw [← hinj]
    intro fr hfr
    have hk2 : nf2.kmer = st.kmer := by
      rw [hnf2]
    have hs2 : nf2.shift_len = st.shift_len := by
      rw [hnf2]
    rw [List.mem_cons] at hfr
    rcases hfr with hfr | hfr
    · subst hfr
      constructor
      · rw [(gref_append_base_fields nf2 c).2.2.2.2.1, hs2]
        exact hsh
      · apply gref_append_base_bound k nf2 c hk (by rw [hs2]; exact hsh)
        rw [hk2]
        exact hkb
    · rw [List.mem_cons] at hfr
      rcases hfr with hfr | hfr
      · subst hfr
        exact ⟨hsh, hkb⟩
      · exact hb fr (by simp [hfr])

/-- the pop loop of gref_iter_fetch keeps the invariant. -/
theorem gref_pop_loop_bound (k : Nat) (it : gref_iter) (hk : 1 ≤ k) :
    ∀ (stk stk2 : List gref_iter_stack), gref_stack_bound k stk →
      gref_iter_pop_loop it stk = .next stk2 → gref_stack_bound k stk2
  | [], stk2, hb, h => absurd h (by simp [gref_iter_pop_loop])
  | st :: rest, stk2, hb, h => by
    simp only [gref_iter_pop_loop] at h
    split at h
    · cases rest with
      | nil => exact absurd h (by simp)
      | cons st2 rest2 =>
        exact gref_pop_loop_bound k it hk (st2 :: rest2) stk2
          (fun fr hfr => hb fr (by simp [hfr])) h
    · exact gref_descend_bound k it st rest stk2 hk hb h

/-- gref_iter_fetch keeps the invariant. -/
theorem gref_fetch_bound (k : Nat) (it : gref_iter) (hk : 1 ≤ k)
    (stk stk2 : List gref_iter_stack) (hb : gref_stack_bound k stk)
    (h : gref_iter_fetch it stk = .next stk2) : gref_stack_bound k stk2 := by
  cases stk with
  | nil => exact absurd h (by simp [gref_iter_fetch])
  | cons st rest =>
    obtain ⟨hsh, hkb⟩ := hb st (by simp)
    simp only [gref_iter_fetch] at h
    split at h
    · split at h
      · exact absurd h (by simp)
      · rename_i pr c st2 hfe
        have hst2 := gref_stack_fetch_fields it st c st2 hfe
        have hinj := gref_fetch_result.next.inj h
        rw [← hinj]
        intro fr hfr
        rw [List.mem_cons] at hfr
        rcases hfr with hfr | hfr
        · subst hfr
          constructor
          · rw [(gref_append_base_fields st2 c).2.2.2.2.1, hst2]
            exact hsh
          · apply gref_append_base_bound k st2 c hk (by rw [hst2]; exact hsh)
            rw [hst2]
            exact hkb
        · exact hb fr (by simp [hfr])
    · apply gref_pop_loop_bound k it hk _ stk2 _ h
      split
      · exact fun fr hfr => hb fr (by simp [hfr])
      · exact hb

/-- the seed loop keeps the invariant. -/
theorem gref_seed_loop_bound (k : Nat) (it : gref_iter) (hk : 1 ≤ k) :
    ∀ (n : Nat) (stk stk2 : List gref_iter_stack), gref_stack_bound k stk →
      gref_iter_seed_loop it n stk = some stk2 → gref_stack_bound k stk2
  | 0, stk, stk2, hb, h => by
    rw [Option.some_inj.mp h] at hb
    exact hb
  | n + 1, stk, stk2, hb, h => by
    unfold gref_iter_seed_loop at h
    split at h
    · exact absurd h (by simp)
    · split at h
      · rw [← Option.some_inj.mp h]
        intro fr hfr
        simp at hfr
      · exact absurd h (by simp)
    · rename_i stk3 hfe
      exact gref_seed_loop_bound k it hk n stk3 stk2
        (gref_fetch_bound k it hk stk stk3 hb hfe) h

/-- gref_iter_init_stack produces an invariant-respecting stack whenever
the iterator carries the window shift for k. -/
theorem gref_init_stack_bound (k : Nat) (it : gref_iter) (hk : 1 ≤ k)
    (hsh : it.shift_len = 2 * (k - 1))
    (stk : List gref_iter_stack) (h : gref_iter_init_stack it = some stk) :
    gref_stack_bound k stk := by
  unfold gref_iter_init_stack at h
  dsimp only at h
  apply gref_seed_loop_bound k it hk it.seed_len _ stk _ h
  intro fr hfr
  have hfr2 : fr = { global_rem_len := it.seed_len - 1
                     shift_len := it.shift_len
                     sec_gid := it.base_gid
                     link_idx := gref_fw_link_idx_base it it.base_gid
                     is_rev := false
                     seq_base := gref_iter_calc_seq_base it it.base_gid
                       (it.secs.getD (it.base_gid / 2) ⟨0, 0, 0⟩).len
                     rem_len := (it.secs.getD (it.base_gid / 2) ⟨0, 0, 0⟩).len
                     pos := 0
                     cnt_arr := 0
                     kmer_idx := 0
                     kmer := [0] } := by
    simpa using hfr
  rw [hfr2]
  refine ⟨hsh, ?_⟩
  intro w hw
  have hw0 : w = 0 := by simpa using hw
  rw [hw0]
  positivity

/-- once at least k values have been pushed, only the last k matter. -/
theorem gref_pack_fold_window_prefix (k : Nat) (es : List Nat) (m : Nat)
    (hk : 1 ≤ k) (hes : ∀ e ∈ es, e ≤ 3) (hm : k ≤ m) (hml : m ≤ es.length) :
    gref_pack_fold k 0 (es.take m) =
      gref_pack_fold k 0 ((es.take m).drop (m - k)) := by
  conv_lhs => rw [← List.take_append_drop (m - k) (es.take m)]
  rw [gref_pack_fold_append]
  apply gref_pack_fold_window
  · exact hk
  · intro e he
    exact hes e (List.mem_of_mem_take (List.mem_of_mem_drop he))
  · rw [List.length_drop, List.length_take]
    omega
  · apply gref_pack_fold_lt k hk
    · intro e he
      exact hes e (List.mem_of_mem_take (List.mem_of_mem_take he))
    · positivity

/-- the query fold of gref_match is the shared word fold over the 2-bit
encodings. -/
theorem gref_pack_ascii_eq (k : Nat) (q : List Nat) :
    gref_pack_ascii k q = gref_pack_fold k 0 (q.map gref_encode_2bit) := by
  unfold gref_pack_ascii gref_pack_fold
  rw [List.foldl_map]
  rfl

/-- the 2-bit encoding is a 2-bit value. -/
theorem gref_encode_2bit_le3 (c : Nat) : gref_encode_2bit c ≤ 3 := by
  unfold gref_encode_2bit
  dsimp only
  split_ifs <;> omega

/-- concrete A/C/G/T bases: the 4-bit code has popcount 1 and its single
expansion is the 2-bit encoding. -/
theorem gref_concrete_code (c : Nat) (hc : c ∈ [65, 67, 71, 84]) :
    gref_popcnt4 (gref_encode_4bit c) = 1 ∧
    (gref_exp_table.getD (gref_encode_4bit c) []).getD 0 0 =
      gref_encode_2bit c := by
  fin_cases hc <;> exact ⟨rfl, rfl⟩

/-- running the seed loop inside an all-concrete base-segment frame keeps
the gref_c1_frame shape: the kmer set stays the singleton word of the
consumed prefix. -/
theorem gref_c1_seed_loop (it : gref_iter) (k : Nat) (sec : gref_section)
    (es : List Nat) (hk : 1 ≤ k) (hk31 : k ≤ 31)
    (hsb : sec.base + sec.len ≤ it.seq.length)
    (hesl : es.length = sec.len)
    (hcode : ∀ t, t < sec.len →
      gref_popcnt4 (it.seq.getD (sec.base + t) 0) = 1 ∧
      (gref_exp_table.getD (it.seq.getD (sec.base + t) 0) []).getD 0 0 =
        es.getD t 0) :
    ∀ (n : Nat) (st : gref_iter_stack) (rest : List gref_iter_stack) (m : Nat),
      gref_c1_frame k sec es m st → m + n ≤ sec.len →
      ∃ st2, gref_iter_seed_loop it n (st :: rest) = some (st2 :: rest) ∧
        gref_c1_frame k sec es (m + n) st2 ∧
        st2.kmer_idx = (if n = 0 then st.kmer_idx else 0)
  | 0, st, rest, m, hfr, hmn => ⟨st, rfl, by simpa using hfr, by simp⟩
  | n + 1, st, rest, m, hfr, hmn => by
    obtain ⟨hrev, hsbv, hrem, hpos, hcnt, hsh, hkm⟩ := hfr
    have hmL : m < sec.len := by omega
    have hstep := gref_root_fetch_step it st rest hrev (by rw [hrem]; omega)
      (by rw [hsbv, hrem]; omega)
      (by rw [hsbv]; omega)
    have hidx : (st.seq_base - ((st.rem_len - 1 : Nat) : Int)).toNat =
        sec.base + m := by
      rw [hsbv, hrem]
      omega
    have hcv := hcode m hmL
    set c := it.seq.getD (st.seq_base - ((st.rem_len - 1 : Nat) : Int)).toNat 0
      with hc
    have hcpc : gref_popcnt4 c = 1 := by
      rw [hc, hidx]
      exact hcv.1
    have hcexp : (gref_exp_table.getD c []).getD 0 0 = es.getD m 0 := by
      rw [hc, hidx]
      exact hcv.2
    set st1 := { st with rem_len := st.rem_len - 1, pos := st.pos + 1 } with hst1
    have hup := gref_append_base_one k m st1 c (gref_pack_fold k 0 (es.take m))
      hk hk31 (by rw [hst1]; exact hsh) (by rw [hst1]; exact hcnt) hcpc
      (by rw [hst1]; exact hkm)
    have hfr2 : gref_c1_frame k sec es (m + 1) (gref_iter_append_base st1 c) := by
      rw [hup]
      refine ⟨?_, ?_, ?_, ?_, ?_, ?_, ?_⟩
      · show st1.is_rev = false
        rw [hst1]
        exact hrev
      · show st1.seq_base = _
        rw [hst1]
        exact hsbv
      · show st1.rem_len = sec.len - (m + 1)
        rw [hst1]
        dsimp only
        rw [hrem]
        omega
      · show st1.pos = m + 1
        rw [hst1]
        dsimp only
        rw [hpos]
      · rfl
      · show st1.shift_len = 2 * (k - 1)
        rw [hst1]
        exact hsh
      · show [gref_pack_step k (gref_pack_fold k 0 (es.take m))
          ((gref_exp_table.getD c []).getD 0 0)] =
          [gref_pack_fold k 0 (es.take (m + 1))]
        rw [hcexp]
        rw [gref_take_succ es m (by omega)]
        rw [gref_pack_fold_append]
        rfl
    obtain ⟨st3, hloop, hfr3, hkidx⟩ := gref_c1_seed_loop it k sec es hk hk31
      hsb hesl hcode n (gref_iter_append_base st1 c) rest (m + 1) hfr2 (by omega)
    refine ⟨st3, ?_, ?_, ?_⟩
    · unfold gref_iter_seed_loop
      rw [hstep]
      exact hloop
    · rw [show m + (n + 1) = m + 1 + n by omega]
      exact hfr3
    · rw [if_neg (by omega)]
      rcases Nat.eq_zero_or_pos n with hn | hn
      · rw [hkidx, if_pos hn, hup]
      · rw [hkidx, if_neg (by omega)]

/-- an emitted kmer value from an invariant-respecting frame is a valid
2 k-bit word (the stale default 0 included). -/
theorem gref_emit_lt (k : Nat) (f : gref_iter_stack) (hk : 1 ≤ k)
    (hb : ∀ w ∈ f.kmer, w < 4 ^ k) : f.kmer.getD f.kmer_idx 0 < 4 ^ k := by
  rcases Nat.lt_or_ge f.kmer_idx f.kmer.length with h | h
  · rw [List.getD_eq_getElem _ _ h]
    exact hb _ (List.getElem_mem h)
  · rw [List.getD_eq_default _ _ h]
    positivity

/-- every window of the long all-concrete segment s is reached by the
drain loop: walking from any iterator state that either has not yet
reached base s (case A) or is enumerating segment s at window i (case B),
the output contains the window tuple of every remaining window of s. -/
theorem gref_c1_reach (k N s : Nat) (seq : List Nat) (secs : List gref_section)
    (sec : gref_section) (es : List Nat)
    (hk : 2 ≤ k) (hk31 : k ≤ 31) (hseqlen : seq.length < 2 ^ 31)
    (hsN : s < N) (hsec : secs.getD s ⟨0, 0, 0⟩ = sec)
    (hklen : k ≤ sec.len) (hsb : sec.base + sec.len ≤ seq.length)
    (hesl : es.length = sec.len) (hes : ∀ e ∈ es, e ≤ 3)
    (hcode : ∀ t, t < sec.len →
      gref_popcnt4 (seq.getD (sec.base + t) 0) = 1 ∧
      (gref_exp_table.getD (seq.getD (sec.base + t) 0) []).getD 0 0 =
        es.getD t 0) :
    ∀ (fuel : Nat) (it : gref_iter) (l : List gref_kmer_tuple) (i j : Nat),
      gref_c1_iter k N seq secs it → gref_stack_bound k it.stack →
      gref_iter_collect it fuel = some l →
      ((it.base_gid % 2 = 0 ∧ it.base_gid < 2 * s ∧ i = 0 ∧ j = 0) ∨
        (it.base_gid = 2 * s ∧ j ≤ 1 ∧
          ∃ st, it.stack = [st] ∧ gref_c1_frame k sec es (k + i) st ∧
            st.kmer_idx = j)) →
      ∀ m, i + j ≤ m → m + k ≤ sec.len →
        (⟨gref_pack_fold k 0 ((es.take (k + m)).drop m), 2 * s, m⟩ :
          gref_kmer_tuple) ∈ l
  | 0, it, l, i, j, hit, hbd, hcol, hAB => by
    simp [gref_iter_collect] at hcol
  | fuel + 1, it, l, i, j, hit, hbd, hcol, hAB => by
    obtain ⟨hseed, hshift, htail, hseq, hsecs⟩ := hit
    have h431 : (4 : Nat) ^ k ≤ 4 ^ 31 := Nat.pow_le_pow_right (by omega) hk31
    have h4c : (4 : Nat) ^ 31 < 2 ^ 64 - 1 := by norm_num
    rcases hAB with ⟨hev, hlt, hi0, hj0⟩ | ⟨hb2s, hj1, st, hstk, hfr, hkidx⟩
    · -- case A: before segment s
      subst hi0
      subst hj0
      cases hstk : it.stack with
      | nil =>
        have hnext : gref_iter_next it = none := by
          unfold gref_iter_next
          rw [hstk]
        unfold gref_iter_collect at hcol
        rw [hnext] at hcol
        exact absurd hcol (by simp)
      | cons st rest =>
        obtain ⟨hsh0, hkb0⟩ := hbd st (by rw [hstk]; simp)
        by_cases hidx : st.kmer_idx < st.kmer.length
        · -- emission from a foreign frame
          have hnext := gref_iter_next_emit it st rest hstk hidx
          have hterm : ¬ st.kmer.getD st.kmer_idx 0 = GREF_ITER_KMER_TERM := by
            have := gref_emit_lt k st (by omega) hkb0
            unfold GREF_ITER_KMER_TERM
            omega
          unfold gref_iter_collect at hcol
          rw [hnext] at hcol
          dsimp only at hcol
          rw [if_neg hterm] at hcol
          cases hcol2 : gref_iter_collect
              { it with stack := { st with kmer_idx := st.kmer_idx + 1 } :: rest }
              fuel with
          | none =>
            rw [hcol2] at hcol
            exact absurd hcol (by simp)
          | some l2 =>
            rw [hcol2] at hcol
            dsimp only at hcol
            have hl := (Option.some_inj.mp hcol).symm
            intro m hm1 hm2
            rw [hl]
            apply List.mem_cons_of_mem
            apply gref_c1_reach k N s seq secs sec es hk hk31 hseqlen hsN hsec
              hklen hsb hesl hes hcode fuel
              { it with stack := { st with kmer_idx := st.kmer_idx + 1 } :: rest }
              l2 0 0 ⟨hseed, hshift, htail, hseq, hsecs⟩ ?_ hcol2
              (Or.inl ⟨hev, hlt, rfl, rfl⟩) m (by omega) hm2
            intro fr hfr2
            rw [List.mem_cons] at hfr2
            rcases hfr2 with hfr2 | hfr2
            · subst hfr2
              exact ⟨hsh0, hkb0⟩
            · exact hbd fr (by rw [hstk]; simp [hfr2])
        · cases hfe : gref_iter_fetch it (st :: rest) with
          | crash =>
            have hnext : gref_iter_next it = none := by
              unfold gref_iter_next
              rw [hstk]
              dsimp only
              rw [if_neg hidx, hfe]
            unfold gref_iter_collect at hcol
            rw [hnext] at hcol
            exact absurd hcol (by simp)
          | next stk2 =>
            have hbd2 : gref_stack_bound k stk2 := by
              apply gref_fetch_bound k it (by omega) (st :: rest) stk2 _ hfe
              intro fr hfr2
              exact hbd fr (by rw [hstk]; exact hfr2)
            cases stk2 with
            | nil =>
              have hnext : gref_iter_next it = none := by
                unfold gref_iter_next
                rw [hstk]
                dsimp only
                rw [if_neg hidx, hfe]
              unfold gref_iter_collect at hcol
              rw [hnext] at hcol
              exact absurd hcol (by simp)
            | cons st2 rest2 =>
              obtain ⟨hsh2, hkb2⟩ := hbd2 st2 (by simp)
              have hnext : gref_iter_next it =
                  some (⟨st2.kmer.getD st2.kmer_idx 0, it.base_gid,
                    (st2.pos + (2 ^ 32 - it.seed_len % 2 ^ 32)) % 2 ^ 32⟩,
                    { it with stack :=
                      { st2 with kmer_idx := st2.kmer_idx + 1 } :: rest2 }) := by
                unfold gref_iter_next
                rw [hstk]
                dsimp only
                rw [if_neg hidx, hfe]
                rfl
              have hterm : ¬ st2.kmer.getD st2.kmer_idx 0 = GREF_ITER_KMER_TERM := by
                have := gref_emit_lt k st2 (by omega) hkb2
                unfold GREF_ITER_KMER_TERM
                omega
              unfold gref_iter_collect at hcol
              rw [hnext] at hcol
              dsimp only at hcol
              rw [if_neg hterm] at hcol
              cases hcol2 : gref_iter_collect
                  { it with stack :=
                    { st2 with kmer_idx := st2.kmer_idx + 1 } :: rest2 } fuel with
              | none =>
                rw [hcol2] at hcol
                exact absurd hcol (by simp)
              | some l2 =>
                rw [hcol2] at hcol
                dsimp only at hcol
                have hl := (Option.some_inj.mp hcol).symm
                intro m hm1 hm2
                rw [hl]
                apply List.mem_cons_of_mem
                apply gref_c1_reach k N s seq secs sec es hk hk31 hseqlen hsN hsec
                  hklen hsb hesl hes hcode fuel
                  { it with stack :=
                    { st2 with kmer_idx := st2.kmer_idx + 1 } :: rest2 }
                  l2 0 0 ⟨hseed, hshift, htail, hseq, hsecs⟩ ?_ hcol2
                  (Or.inl ⟨hev, hlt, rfl, rfl⟩) m (by omega) hm2
                intro fr hfr2
                rw [List.mem_cons] at hfr2
                rcases hfr2 with hfr2 | hfr2
                · subst hfr2
                  exact ⟨hsh2, hkb2⟩
                · exact hbd2 fr (by simp [hfr2])
          | done =>
            have hble : it.base_gid + 2 ≤ 2 * s := by omega
            have hblt : it.base_gid + 2 < 2 * N := by omega
            cases hini : gref_iter_init_stack
                { it with base_gid := it.base_gid + 2, stack := [] } with
            | none =>
              have hnext : gref_iter_next it = none := by
                unfold gref_iter_next
                rw [hstk]
                dsimp only
                rw [if_neg hidx, hfe]
                dsimp only
                rw [if_pos (show it.base_gid + 2 < it.tail_gid by
                  rw [htail]
                  omega)]
                rw [hini]
              unfold gref_iter_collect at hcol
              rw [hnext] at hcol
              exact absurd hcol (by simp)
            | some stk2 =>
              cases stk2 with
              | nil =>
                have hnext : gref_iter_next it = none := by
                  unfold gref_iter_next
                  rw [hstk]
                  dsimp only
                  rw [if_neg hidx, hfe]
                  dsimp only
                  rw [if_pos (show it.base_gid + 2 < it.tail_gid by
                    rw [htail]
                    omega)]
                  rw [hini]
                unfold gref_iter_collect at hcol
                rw [hnext] at hcol
                exact absurd hcol (by simp)
              | cons st2 rest2 =>
                have hbd2 : gref_stack_bound k (st2 :: rest2) := by
                  refine gref_init_stack_bound k _ (by omega) ?_ _ hini
                  exact hshift
                obtain ⟨hsh2, hkb2⟩ := hbd2 st2 (by simp)
                have hnext : gref_iter_next it =
                    some (⟨st2.kmer.getD st2.kmer_idx 0, it.base_gid + 2,
                      (st2.pos + (2 ^ 32 - it.seed_len % 2 ^ 32)) % 2 ^ 32⟩,
                      { it with base_gid := it.base_gid + 2
                                stack :=
                        { st2 with kmer_idx := st2.kmer_idx + 1 } :: rest2 }) := by
                  unfold gref_iter_next
                  rw [hstk]
                  dsimp only
                  rw [if_neg hidx, hfe]
                  dsimp only
                  rw [if_pos (show it.base_gid + 2 < it.tail_gid by
                    rw [htail]
                    omega)]
                  rw [hini]
                  rfl
                have hterm : ¬ st2.kmer.getD st2.kmer_idx 0 =
                    GREF_ITER_KMER_TERM := by
                  have := gref_emit_lt k st2 (by omega) hkb2
                  unfold GREF_ITER_KMER_TERM
                  omega
                unfold gref_iter_collect at hcol
                rw [hnext] at hcol
                dsimp only at hcol
                rw [if_neg hterm] at hcol
                cases hcol2 : gref_iter_collect
                    { it with base_gid := it.base_gid + 2
                              stack :=
                      { st2 with kmer_idx := st2.kmer_idx + 1 } :: rest2 } fuel with
                | none =>
                  rw [hcol2] at hcol
                  exact absurd hcol (by simp)
                | some l2 =>
                  rw [hcol2] at hcol
                  dsimp only at hcol
                  have hl := (Option.some_inj.mp hcol).symm
                  have hbd3 : gref_stack_bound k
                      ({ st2 with kmer_idx := st2.kmer_idx + 1 } :: rest2) := by
                    intro fr hfr2
                    rw [List.mem_cons] at hfr2
                    rcases hfr2 with hfr2 | hfr2
                    · subst hfr2
                      exact ⟨hsh2, hkb2⟩
                    · exact hbd2 fr (by simp [hfr2])
                  rcases Nat.lt_or_ge (it.base_gid + 2) (2 * s) with hcase | hcase
                  · -- still before segment s
                    intro m hm1 hm2
                    rw [hl]
                    apply List.mem_cons_of_mem
                    exact gref_c1_reach k N s seq secs sec es hk hk31 hseqlen hsN
                      hsec hklen hsb hesl hes hcode fuel
                      { it with base_gid := it.base_gid + 2
                                stack :=
                        { st2 with kmer_idx := st2.kmer_idx + 1 } :: rest2 }
                      l2 0 0 ⟨hseed, hshift, htail, hseq, hsecs⟩ hbd3 hcol2
                      (Or.inl ⟨show (it.base_gid + 2) % 2 = 0 by omega, hcase,
                        rfl, rfl⟩) m (by omega) hm2
                  · -- landing on segment s: the seeding is deterministic
                    have hceq : it.base_gid + 2 = 2 * s := by omega
                    have hsecv : it.secs.getD ((it.base_gid + 2) / 2)
                        ⟨0, 0, 0⟩ = sec := by
                      rw [hsecs, show (it.base_gid + 2) / 2 = s by omega, hsec]
                    have hfr0 : gref_c1_frame k sec es 0
                        { global_rem_len := it.seed_len - 1
                          shift_len := it.shift_len
                          sec_gid := it.base_gid + 2
                          link_idx := gref_fw_link_idx_base it (it.base_gid + 2)
                          is_rev := false
                          seq_base := gref_iter_calc_seq_base it
                            (it.base_gid + 2)
                            (it.secs.getD ((it.base_gid + 2) / 2) ⟨0, 0, 0⟩).len
                          rem_len := (it.secs.getD ((it.base_gid + 2) / 2)
                            ⟨0, 0, 0⟩).len
                          pos := 0
                          cnt_arr := 0
                          kmer_idx := 0
                          kmer := [0] } := by
                      refine ⟨rfl, ?_, ?_, rfl, ?_, ?_, ?_⟩
                      · show gref_iter_calc_seq_base it (it.base_gid + 2)
                          (it.secs.getD ((it.base_gid + 2) / 2) ⟨0, 0, 0⟩).len = _
                        rw [hsecv]
                        unfold gref_iter_calc_seq_base
                        rw [hsecv]
                        dsimp only
                        rw [if_pos (show (it.base_gid + 2) % 2 = 0 by omega)]
                      · show (it.secs.getD ((it.base_gid + 2) / 2)
                          ⟨0, 0, 0⟩).len = sec.len - 0
                        rw [hsecv]
                        omega
                      · show (0 : Nat) = gref_pack4 (List.replicate 0 1) % 2 ^ 64
                        simp [gref_pack4]
                      · show it.shift_len = 2 * (k - 1)
                        exact hshift
                      · show [0] = [gref_pack_fold k 0 (es.take 0)]
                        simp [gref_pack_fold]
                    obtain ⟨stB, hloopB, hfrB, hkidxB⟩ := gref_c1_seed_loop
                      { it with base_gid := it.base_gid + 2
                                stack := [] }
                      k sec es (by omega) hk31
                      (by show sec.base + sec.len ≤ it.seq.length
                          rw [hseq]
                          exact hsb)
                      hesl
                      (by intro t ht
                          show gref_popcnt4 (it.seq.getD (sec.base + t) 0) = 1 ∧
                            (gref_exp_table.getD (it.seq.getD (sec.base + t) 0)
                              []).getD 0 0 = es.getD t 0
                          rw [hseq]
                          exact hcode t ht)
                      k _ [] 0 hfr0 (by omega)
                    rw [← hseed] at hloopB
                    have hini2 : gref_iter_init_stack
                        { it with base_gid := it.base_gid + 2
                                  stack := [] } =
                        some [stB] := by
                      show gref_iter_seed_loop
                        { it with base_gid := it.base_gid + 2
                                  stack := [] } it.seed_len
                        [{ global_rem_len := it.seed_len - 1
                           shift_len := it.shift_len
                           sec_gid := it.base_gid + 2
                           link_idx := gref_fw_link_idx_base it (it.base_gid + 2)
                           is_rev := false
                           seq_base := gref_iter_calc_seq_base it
                             (it.base_gid + 2)
                             (it.secs.getD ((it.base_gid + 2) / 2) ⟨0, 0, 0⟩).len
                           rem_len := (it.secs.getD ((it.base_gid + 2) / 2)
                             ⟨0, 0, 0⟩).len
                           pos := 0
                           cnt_arr := 0
                           kmer_idx := 0
                           kmer := [0] }] = some [stB]
                      exact hloopB
                    rw [hini] at hini2
                    have hpair := List.cons.inj (Option.some_inj.mp hini2)
                    obtain ⟨hst2B, hrest2⟩ := hpair
                    obtain ⟨hrevB, hsbB, hremB, hposB, hcntB, hshB, hkmB⟩ := hfrB
                    have hkidxB0 : stB.kmer_idx = 0 := by
                      rw [hkidxB, if_neg (by omega)]
                    have hvalB : st2.kmer.getD st2.kmer_idx 0 =
                        gref_pack_fold k 0 (es.take (0 + k)) := by
                      rw [hst2B, hkidxB0, hkmB]
                      rfl
                    have hposvalB : (st2.pos +
                        (2 ^ 32 - it.seed_len % 2 ^ 32)) % 2 ^ 32 = 0 := by
                      rw [hst2B, hposB, hseed]
                      rw [Nat.mod_eq_of_lt (show k < 2 ^ 32 by omega)]
                      rw [show 0 + k + (2 ^ 32 - k) = 2 ^ 32 by omega]
                      simp
                    intro m hm1 hm2
                    rw [hl]
                    rcases Nat.eq_zero_or_pos m with hm0 | hmpos
                    · subst hm0
                      have ht : (⟨gref_pack_fold k 0 ((es.take (k + 0)).drop 0),
                          2 * s, 0⟩ : gref_kmer_tuple) =
                          ⟨st2.kmer.getD st2.kmer_idx 0, it.base_gid + 2,
                            (st2.pos + (2 ^ 32 - it.seed_len % 2 ^ 32)) %
                              2 ^ 32⟩ := by
                        rw [hvalB, hposvalB, hceq]
                        rw [List.drop_zero]
                        rw [show k + 0 = 0 + k by omega]
                      rw [ht]
                      exact List.mem_cons_self _ _
                    · apply List.mem_cons_of_mem
                      apply gref_c1_reach k N s seq secs sec es hk hk31 hseqlen
                        hsN hsec hklen hsb hesl hes hcode fuel
                        { it with base_gid := it.base_gid + 2
                                  stack :=
                          { st2 with kmer_idx := st2.kmer_idx + 1 } :: rest2 }
                        l2 0 1 ⟨hseed, hshift, htail, hseq, hsecs⟩ hbd3 hcol2
                        ?_ m (by omega) hm2
                      refine Or.inr ⟨hceq, by omega,
                        { st2 with kmer_idx := st2.kmer_idx + 1 }, ?_, ?_, ?_⟩
                      · rw [hrest2]
                      · show gref_c1_frame k sec es (k + 0) st2
                        rw [hst2B]
                        rw [show k + 0 = 0 + k by omega]
                        exact ⟨hrevB, hsbB, hremB, hposB, hcntB, hshB, hkmB⟩
                      · show st2.kmer_idx + 1 = 1
                        rw [hst2B, hkidxB0]
    · -- case B: enumerating segment s at window i
      obtain ⟨hrev, hsbv, hrem, hpos, hcnt, hshf, hkm⟩ := hfr
      have hlen1 : st.kmer.length = 1 := by
        rw [hkm]
        rfl
      intro m hm1 hm2
      have hexl : k + i ≤ es.length := by
        rw [hesl]
        omega
      have hvlt : gref_pack_fold k 0 (es.take (k + i)) < 4 ^ k := by
        apply gref_pack_fold_lt k (by omega)
        · intro e he
          exact hes e (List.mem_of_mem_take he)
        · positivity
      rcases Nat.eq_zero_or_pos j with hj0 | hjpos
      · -- j = 0: emit the window-i tuple first
        rw [hj0] at hkidx
        have hidxlt : st.kmer_idx < st.kmer.length := by
          rw [hkidx, hlen1]
          omega
        have hnext := gref_iter_next_emit it st [] hstk hidxlt
        have hval : st.kmer.getD st.kmer_idx 0 =
            gref_pack_fold k 0 (es.take (k + i)) := by
          rw [hkidx, hkm]
          rfl
        have hterm : ¬ st.kmer.getD st.kmer_idx 0 = GREF_ITER_KMER_TERM := by
          rw [hval]
          unfold GREF_ITER_KMER_TERM
          omega
        unfold gref_iter_collect at hcol
        rw [hnext] at hcol
        dsimp only at hcol
        rw [if_neg hterm] at hcol
        cases hcol2 : gref_iter_collect
            { it with stack := { st with kmer_idx := st.kmer_idx + 1 } :: [] }
            fuel with
        | none =>
          rw [hcol2] at hcol
          exact absurd hcol (by simp)
        | some l2 =>
          rw [hcol2] at hcol
          dsimp only at hcol
          have hl := (Option.some_inj.mp hcol).symm
          have hposval : (st.pos + (2 ^ 32 - it.seed_len % 2 ^ 32)) % 2 ^ 32 =
              i := by
            rw [hpos, hseed]
            rw [Nat.mod_eq_of_lt (show k < 2 ^ 32 by omega)]
            rw [show k + i + (2 ^ 32 - k) = i + 2 ^ 32 by omega]
            rw [Nat.add_mod_right]
            exact Nat.mod_eq_of_lt (by omega)
          rw [hl]
          rcases Nat.eq_or_lt_of_le hm1 with hmi | hmi
          · have hmi2 : m = i := by omega
            subst hmi2
            have ht : (⟨gref_pack_fold k 0 ((es.take (k + m)).drop m),
                2 * s, m⟩ : gref_kmer_tuple) =
                ⟨st.kmer.getD st.kmer_idx 0, it.base_gid,
                  (st.pos + (2 ^ 32 - it.seed_len % 2 ^ 32)) % 2 ^ 32⟩ := by
              rw [hval, hposval, hb2s]
              congr 1
              have hwp := gref_pack_fold_window_prefix k es (k + m) (by omega)
                hes (by omega) hexl
              rw [show k + m - k = m by omega] at hwp
              exact hwp.symm
            rw [ht]
            exact List.mem_cons_self _ _
          · apply List.mem_cons_of_mem
            apply gref_c1_reach k N s seq secs sec es hk hk31 hseqlen hsN hsec
              hklen hsb hesl hes hcode fuel
              { it with stack := { st with kmer_idx := st.kmer_idx + 1 } :: [] }
              l2 i 1 ⟨hseed, hshift, htail, hseq, hsecs⟩ ?_ hcol2 ?_ m
              (by omega) hm2
            · intro fr hfr2
              have hfr3 : fr = { st with kmer_idx := st.kmer_idx + 1 } := by
                simpa using hfr2
              rw [hfr3]
              refine ⟨hshf, ?_⟩
              intro w hw
              rw [hkm] at hw
              have hw2 : w = gref_pack_fold k 0 (es.take (k + i)) := by
                simpa using hw
              rw [hw2]
              exact hvlt
            · refine Or.inr ⟨hb2s, by omega,
                { st with kmer_idx := st.kmer_idx + 1 }, rfl,
                ⟨hrev, hsbv, hrem, hpos, hcnt, hshf, hkm⟩, ?_⟩
              show st.kmer_idx + 1 = 1
              rw [hkidx]
      · -- j = 1: advance to window i + 1
        have hj1 : j = 1 := by omega
        rw [hj1] at hkidx hm1
        have hremp : 0 < st.rem_len := by
          rw [hrem]
          omega
        have hnext := gref_iter_next_advance it st [] hstk
          (by rw [hkidx, hlen1]) hremp hrev
          (by rw [hsbv, hrem]; omega)
          (by rw [hsbv, hseq]; omega)
        have hidxv : (st.seq_base - ((st.rem_len - 1 : Nat) : Int)).toNat =
            sec.base + (k + i) := by
          rw [hsbv, hrem]
          omega
        have hcv := hcode (k + i) (by omega)
        set c := it.seq.getD (st.seq_base - ((st.rem_len - 1 : Nat) : Int)).toNat 0
          with hc
        have hcpc : gref_popcnt4 c = 1 := by
          rw [hc, show it.seq = seq from hseq, hidxv]
          exact hcv.1
        have hcexp : (gref_exp_table.getD c []).getD 0 0 = es.getD (k + i) 0 := by
          rw [hc, show it.seq = seq from hseq, hidxv]
          exact hcv.2
        set st1 := { st with rem_len := st.rem_len - 1, pos := st.pos + 1 }
          with hst1
        have hup := gref_append_base_one k (k + i) st1 c
          (gref_pack_fold k 0 (es.take (k + i))) (by omega) hk31
          (by rw [hst1]; exact hshf) (by rw [hst1]; exact hcnt) hcpc
          (by rw [hst1]; exact hkm)
        have hnewk : (gref_iter_append_base st1 c).kmer =
            [gref_pack_fold k 0 (es.take (k + i + 1))] := by
          rw [hup]
          dsimp only
          rw [hcexp]
          rw [gref_take_succ es (k + i) (by omega)]
          rw [gref_pack_fold_append]
          rfl
        have hvlt2 : gref_pack_fold k 0 (es.take (k + i + 1)) < 4 ^ k := by
          apply gref_pack_fold_lt k (by omega)
          · intro e he
            exact hes e (List.mem_of_mem_take he)
          · positivity
        have hval : (gref_iter_append_base st1 c).kmer.getD 0 0 =
            gref_pack_fold k 0 (es.take (k + i + 1)) := by
          rw [hnewk]
          rfl
        have hterm : ¬ (gref_iter_append_base st1 c).kmer.getD 0 0 =
            GREF_ITER_KMER_TERM := by
          rw [hval]
          unfold GREF_ITER_KMER_TERM
          omega
        unfold gref_iter_collect at hcol
        rw [hnext] at hcol
        dsimp only at hcol
        rw [if_neg hterm] at hcol
        cases hcol2 : gref_iter_collect
            { it with stack :=
              { gref_iter_append_base st1 c with kmer_idx := 1 } :: [] } fuel with
        | none =>
          rw [hcol2] at hcol
          exact absurd hcol (by simp)
        | some l2 =>
          rw [hcol2] at hcol
          dsimp only at hcol
          have hl := (Option.some_inj.mp hcol).symm
          have hposval : (st.pos + 1 + (2 ^ 32 - it.seed_len % 2 ^ 32)) %
              2 ^ 32 = i + 1 := by
            rw [hpos, hseed]
            rw [Nat.mod_eq_of_lt (show k < 2 ^ 32 by omega)]
            rw [show k + i + 1 + (2 ^ 32 - k) = i + 1 + 2 ^ 32 by omega]
            rw [Nat.add_mod_right]
            exact Nat.mod_eq_of_lt (by omega)
          have hfr2 : gref_c1_frame k sec es (k + (i + 1))
              { gref_iter_append_base st1 c with kmer_idx := 1 } := by
            refine ⟨?_, ?_, ?_, ?_, ?_, ?_, ?_⟩
            · show (gref_iter_append_base st1 c).is_rev = false
              rw [(gref_append_base_fields st1 c).1, hst1]
              exact hrev
            · show (gref_iter_append_base st1 c).seq_base = _
              rw [(gref_append_base_fields st1 c).2.2.2.2.2.1, hst1]
              exact hsbv
            · show (gref_iter_append_base st1 c).rem_len = sec.len - (k + (i + 1))
              rw [(gref_append_base_fields st1 c).2.2.2.2.2.2.1, hst1]
              dsimp only
              rw [hrem]
              omega
            · show (gref_iter_append_base st1 c).pos = k + (i + 1)
              rw [(gref_append_base_fields st1 c).2.2.2.2.2.2.2, hst1]
              dsimp only
              rw [hpos]
              omega
            · show (gref_iter_append_base st1 c).cnt_arr =
                gref_pack4 (List.replicate (k + (i + 1)) 1) % 2 ^ 64
              rw [hup]
              dsimp only
              rw [show k + (i + 1) = k + i + 1 by omega]
            · show (gref_iter_append_base st1 c).shift_len = 2 * (k - 1)
              rw [(gref_append_base_fields st1 c).2.2.2.2.1, hst1]
              exact hshf
            · show (gref_iter_append_base st1 c).kmer =
                [gref_pack_fold k 0 (es.take (k + (i + 1)))]
              rw [hnewk]
              rw [show k + (i + 1) = k + i + 1 by omega]
          rw [hl]
          rcases Nat.eq_or_lt_of_le hm1 with hmi | hmi
          · have hmi2 : m = i + 1 := by omega
            rw [hmi2]
            have ht : (⟨gref_pack_fold k 0
                  ((es.take (k + (i + 1))).drop (i + 1)),
                2 * s, i + 1⟩ : gref_kmer_tuple) =
                ⟨(gref_iter_append_base st1 c).kmer.getD 0 0, it.base_gid,
                  (st.pos + 1 + (2 ^ 32 - it.seed_len % 2 ^ 32)) % 2 ^ 32⟩ := by
              rw [hval, hposval, hb2s]
              congr 1
              have hwp := gref_pack_fold_window_prefix k es (k + (i + 1))
                (by omega) hes (by omega) (by rw [hesl]; omega)
              rw [show k + (i + 1) - k = i + 1 by omega] at hwp
              rw [← hwp]
              rw [show k + (i + 1) = k + i + 1 by omega]
            rw [ht]
            exact List.mem_cons_self _ _
          · apply List.mem_cons_of_mem
            apply gref_c1_reach k N s seq secs sec es hk hk31 hseqlen hsN hsec
              hklen hsb hesl hes hcode fuel
              { it with stack :=
                { gref_iter_append_base st1 c with kmer_idx := 1 } :: [] }
              l2 (i + 1) 1 ⟨hseed, hshift, htail, hseq, hsecs⟩ ?_ hcol2 ?_ m
              (by omega) hm2
            · intro fr hfr3
              have hfr4 : fr =
                  { gref_iter_append_base st1 c with kmer_idx := 1 } := by
                simpa using hfr3
              rw [hfr4]
              constructor
              · show (gref_iter_append_base st1 c).shift_len = 2 * (k - 1)
                rw [(gref_append_base_fields st1 c).2.2.2.2.1, hst1]
                exact hshf
              · show ∀ w ∈ (gref_iter_append_base st1 c).kmer, w < 4 ^ k
                intro w hw
                rw [hnewk] at hw
                have hw2 : w = gref_pack_fold k 0 (es.take (k + i + 1)) := by
                  simpa using hw
                rw [hw2]
                exact hvlt2
            · exact Or.inr ⟨hb2s, by omega,
                { gref_iter_append_base st1 c with kmer_idx := 1 }, rfl, hfr2,
                rfl⟩

/-- every tuple collected by the drain loop from an invariant-respecting
iterator carries a valid 2 k-bit kmer word. -/
theorem gref_collect_bound (k : Nat) (hk : 1 ≤ k) (hk31 : k ≤ 31) :
    ∀ (fuel : Nat) (it : gref_iter) (l : List gref_kmer_tuple),
      it.shift_len = 2 * (k - 1) → gref_stack_bound k it.stack →
      gref_iter_collect it fuel = some l →
      ∀ t ∈ l, t.kmer < 4 ^ k
  | 0, it, l, hsh, hbd, hcol => by
    simp [gref_iter_collect] at hcol
  | fuel + 1, it, l, hsh, hbd, hcol => by
    have h431 : (4 : Nat) ^ k ≤ 4 ^ 31 := Nat.pow_le_pow_right (by omega) hk31
    have h4c : (4 : Nat) ^ 31 < 2 ^ 64 - 1 := by norm_num
    cases hstk : it.stack with
    | nil =>
      have hnext : gref_iter_next it = none := by
        unfold gref_iter_next
        rw [hstk]
      unfold gref_iter_collect at hcol
      rw [hnext] at hcol
      exact absurd hcol (by simp)
    | cons st rest =>
      obtain ⟨hsh0, hkb0⟩ := hbd st (by rw [hstk]; simp)
      by_cases hidx : st.kmer_idx < st.kmer.length
      · have hnext := gref_iter_next_emit it st rest hstk hidx
        have hlt := gref_emit_lt k st hk hkb0
        have hterm : ¬ st.kmer.getD st.kmer_idx 0 = GREF_ITER_KMER_TERM := by
          unfold GREF_ITER_KMER_TERM
          omega
        unfold gref_iter_collect at hcol
        rw [hnext] at hcol
        dsimp only at hcol
        rw [if_neg hterm] at hcol
        cases hcol2 : gref_iter_collect
            { it with stack := { st with kmer_idx := st.kmer_idx + 1 } :: rest }
            fuel with
        | none =>
          rw [hcol2] at hcol
          exact absurd hcol (by simp)
        | some l2 =>
          rw [hcol2] at hcol
          dsimp only at hcol
          have hl := (Option.some_inj.mp hcol).symm
          intro t ht
          rw [hl] at ht
          rcases List.mem_cons.mp ht with ht | ht
          · rw [ht]
            exact hlt
          · apply gref_collect_bound k hk hk31 fuel
              { it with stack := { st with kmer_idx := st.kmer_idx + 1 } :: rest }
              l2 hsh ?_ hcol2 t ht
            intro fr hfr2
            rcases List.mem_cons.mp hfr2 with hfr2 | hfr2
            · subst hfr2
              exact ⟨hsh0, hkb0⟩
            · exact hbd fr (by rw [hstk]; simp [hfr2])
      · cases hfe : gref_iter_fetch it (st :: rest) with
        | crash =>
          have hnext : gref_iter_next it = none := by
            unfold gref_iter_next
            rw [hstk]
            dsimp only
            rw [if_neg hidx, hfe]
          unfold gref_iter_collect at hcol
          rw [hnext] at hcol
          exact absurd hcol (by simp)
        | next stk2 =>
          have hbd2 : gref_stack_bound k stk2 := by
            apply gref_fetch_bound k it hk (st :: rest) stk2 _ hfe
            intro fr hfr2
            exact hbd fr (by rw [hstk]; exact hfr2)
          cases stk2 with
          | nil =>
            have hnext : gref_iter_next it = none := by
              unfold gref_iter_next
              rw [hstk]
              dsimp only
              rw [if_neg hidx, hfe]
            unfold gref_iter_collect at hcol
            rw [hnext] at hcol
            exact absurd hcol (by simp)
          | cons st2 rest2 =>
            obtain ⟨hsh2, hkb2⟩ := hbd2 st2 (by simp)
            have hnext : gref_iter_next it =
                some (⟨st2.kmer.getD st2.kmer_idx 0, it.base_gid,
                  (st2.pos + (2 ^ 32 - it.seed_len % 2 ^ 32)) % 2 ^ 32⟩,
                  { it with stack :=
                    { st2 with kmer_idx := st2.kmer_idx + 1 } :: rest2 }) := by
              unfold gref_iter_next
              rw [hstk]
              dsimp only
              rw [if_neg hidx, hfe]
              rfl
            have hlt := gref_emit_lt k st2 hk hkb2
            have hterm : ¬ st2.kmer.getD st2.kmer_idx 0 =
                GREF_ITER_KMER_TERM := by
              unfold GREF_ITER_KMER_TERM
              omega
            unfold gref_iter_collect at hcol
            rw [hnext] at hcol
            dsimp only at hcol
            rw [if_neg hterm] at hcol
            cases hcol2 : gref_iter_collect
                { it with stack :=
                  { st2 with kmer_idx := st2.kmer_idx + 1 } :: rest2 } fuel with
            | none =>
              rw [hcol2] at hcol
              exact absurd hcol (by simp)
            | some l2 =>
              rw [hcol2] at hcol
              dsimp only at hcol
              have hl := (Option.some_inj.mp hcol).symm
              intro t ht
              rw [hl] at ht
              rcases List.mem_cons.mp ht with ht | ht
              · rw [ht]
                exact hlt
              · apply gref_collect_bound k hk hk31 fuel
                  { it with stack :=
                    { st2 with kmer_idx := st2.kmer_idx + 1 } :: rest2 }
                  l2 hsh ?_ hcol2 t ht
                intro fr hfr2
                rcases List.mem_cons.mp hfr2 with hfr2 | hfr2
                · subst hfr2
                  exact ⟨hsh2, hkb2⟩
                · exact hbd2 fr (by simp [hfr2])
        | done =>
          rcases Nat.lt_or_ge (it.base_gid + 2) it.tail_gid with hblt | hbge
          · cases hini : gref_iter_init_stack
                { it with base_gid := it.base_gid + 2, stack := [] } with
            | none =>
              have hnext : gref_iter_next it = none := by
                unfold gref_iter_next
                rw [hstk]
                dsimp only
                rw [if_neg hidx, hfe]
                dsimp only
                rw [if_pos (show it.base_gid + 2 < it.tail_gid from hblt)]
                rw [hini]
              unfold gref_iter_collect at hcol
              rw [hnext] at hcol
              exact absurd hcol (by simp)
            | some stk2 =>
              cases stk2 with
              | nil =>
                have hnext : gref_iter_next it = none := by
                  unfold gref_iter_next
                  rw [hstk]
                  dsimp only
                  rw [if_neg hidx, hfe]
                  dsimp only
                  rw [if_pos (show it.base_gid + 2 < it.tail_gid from hblt)]
                  rw [hini]
                unfold gref_iter_collect at hcol
                rw [hnext] at hcol
                exact absurd hcol (by simp)
              | cons st2 rest2 =>
                have hbd2 : gref_stack_bound k (st2 :: rest2) := by
                  refine gref_init_stack_bound k _ hk ?_ _ hini
                  exact hsh
                obtain ⟨hsh2, hkb2⟩ := hbd2 st2 (by simp)
                have hnext : gref_iter_next it =
                    some (⟨st2.kmer.getD st2.kmer_idx 0, it.base_gid + 2,
                      (st2.pos + (2 ^ 32 - it.seed_len % 2 ^ 32)) % 2 ^ 32⟩,
                      { it with base_gid := it.base_gid + 2
                                stack :=
                        { st2 with kmer_idx := st2.kmer_idx + 1 } :: rest2 }) := by
                  unfold gref_iter_next
                  rw [hstk]
                  dsimp only
                  rw [if_neg hidx, hfe]
                  dsimp only
                  rw [if_pos (show it.base_gid + 2 < it.tail_gid from hblt)]
                  rw [hini]
                  rfl
                have hlt := gref_emit_lt k st2 hk hkb2
                have hterm : ¬ st2.kmer.getD st2.kmer_idx 0 =
                    GREF_ITER_KMER_TERM := by
                  unfold GREF_ITER_KMER_TERM
                  omega
                unfold gref_iter_collect at hcol
                rw [hnext] at hcol
                dsimp only at hcol
                rw [if_neg hterm] at hcol
                cases hcol2 : gref_iter_collect
                    { it with base_gid := it.base_gid + 2
                              stack :=
                      { st2 with kmer_idx := st2.kmer_idx + 1 } :: rest2 }
                    fuel with
                | none =>
                  rw [hcol2] at hcol
                  exact absurd hcol (by simp)
                | some l2 =>
                  rw [hcol2] at hcol
                  dsimp only at hcol
                  have hl := (Option.some_inj.mp hcol).symm
                  intro t ht
                  rw [hl] at ht
                  rcases List.mem_cons.mp ht with ht | ht
                  · rw [ht]
                    exact hlt
                  · apply gref_collect_bound k hk hk31 fuel
                      { it with base_gid := it.base_gid + 2
                                stack :=
                        { st2 with kmer_idx := st2.kmer_idx + 1 } :: rest2 }
                      l2 hsh ?_ hcol2 t ht
                    intro fr hfr2
                    rcases List.mem_cons.mp hfr2 with hfr2 | hfr2
                    · subst hfr2
                      exact ⟨hsh2, hkb2⟩
                    · exact hbd2 fr (by simp [hfr2])
          · have hnext : gref_iter_next it =
                some (⟨GREF_ITER_KMER_TERM, 2 ^ 32 - 1, 0⟩,
                  { it with base_gid := it.base_gid + 2, stack := [] }) := by
              unfold gref_iter_next
              rw [hstk]
              dsimp only
              rw [if_neg hidx, hfe]
              dsimp only
              rw [if_neg (show ¬ it.base_gid + 2 < it.tail_gid by omega)]
            unfold gref_iter_collect at hcol
            rw [hnext] at hcol
            dsimp only at hcol
            rw [if_pos rfl] at hcol
            have hl := (Option.some_inj.mp hcol).symm
            intro t ht
            rw [hl] at ht
            simp at ht

/-- getD on the right part of an append. -/
theorem gref_getD_append_right {α : Type} (l1 l2 : List α) (n : Nat) (d : α)
    (h : l1.length ≤ n) : (l1 ++ l2).getD n d = l2.getD (n - l1.length) d := by
  unfold List.getD
  rw [List.get?_eq_getElem?, List.get?_eq_getElem?, List.getElem?_append_right h]

/-- an in-range getD is a member. -/
theorem gref_getD_mem {α : Type} (l : List α) (n : Nat) (d : α)
    (h : n < l.length) : l.getD n d ∈ l := by
  rw [List.getD_eq_getElem l d h]
  exact List.getElem_mem h

/-- a prefix sum plus the next summand is at most the total sum. -/
theorem gref_prefix_sum_le (f : (String × List Nat) → Nat) :
    ∀ (l : List (String × List Nat)) (s : Nat), s < l.length →
      ((l.take s).map f).sum + f (l.getD s ("", [])) ≤ (l.map f).sum
  | [], s, hs => absurd hs (by simp)
  | p :: rest, 0, _ => by simp
  | p :: rest, s + 1, hs => by
    rw [List.take_succ_cons, List.map_cons, List.sum_cons, List.map_cons,
      List.sum_cons, List.getD_cons_succ]
    have := gref_prefix_sum_le f rest s (by simpa using hs)
    omega

/-- reading the encoded arena at a section offset returns the encoded
character of that section. -/
theorem gref_flatMap_getD :
    ∀ (segs : List (String × List Nat)) (s t : Nat), s < segs.length →
      t < (segs.getD s ("", [])).2.length →
      (segs.flatMap (fun p => p.2.map gref_encode_4bit)).getD
        (((segs.take s).map (fun p => p.2.length)).sum + t) 0 =
        gref_encode_4bit ((segs.getD s ("", [])).2.getD t 0)
  | [], s, t, hs, ht => absurd hs (by simp)
  | p :: rest, 0, t, hs, ht => by
    rw [List.getD_cons_zero] at ht ⊢
    rw [List.flatMap_cons, List.take_zero, List.map_nil, List.sum_nil,
      Nat.zero_add]
    rw [gref_getD_append _ _ _ _ (by simpa using ht)]
    exact gref_getD_map p.2 t gref_encode_4bit ht
  | p :: rest, s + 1, t, hs, ht => by
    rw [List.getD_cons_succ] at ht ⊢
    rw [List.flatMap_cons, List.take_succ_cons, List.map_cons, List.sum_cons]
    rw [gref_getD_append_right _ _ _ _
      (by rw [List.length_map]; omega)]
    have hidx : p.2.length + ((rest.take s).map (fun p => p.2.length)).sum + t -
        (p.2.map gref_encode_4bit).length =
        ((rest.take s).map (fun p => p.2.length)).sum + t := by
      rw [List.length_map]
      omega
    rw [hidx]
    exact gref_flatMap_getD rest s t (by simpa using hs) ht

/-- C1: round-trip for concrete segments.  For every pool built from
segments whose bases are all concrete A/C/G/T (with any links between
registered names), once freeze and build_index succeed, matching the
ascii window s[i .. i+k) of segment s returns a slice containing the pair
(gid = 2 * s, pos = i). -/
theorem C1_theorem (k : Nat) (segs : List (String × List Nat))
    (lks : List (String × Nat × String × Nat))
    (a gi : gref_pool) (fuel : Nat) (s i : Nat)
    (hk : 2 ≤ k)
    (hnodup : (segs.map Prod.fst).Nodup)
    (hlks : ∀ lk ∈ lks, lk.1 ∈ segs.map Prod.fst ∧ lk.2.2.1 ∈ segs.map Prod.fst)
    (hconc : ∀ p ∈ segs, ∀ c ∈ p.2, c ∈ [65, 67, 71, 84])
    (hlen : (segs.map (fun p => p.2.length)).sum < 2 ^ 31)
    (hfz : gref_freeze_pool (gref_apply_ops k
      (segs.map (fun p => gref_op.seg p.1 p.2) ++
       lks.map (fun lk => gref_op.lnk lk.1 lk.2.1 lk.2.2.1 lk.2.2.2))) = some a)
    (hbi : gref_build_index fuel a = some gi)
    (hs : s < segs.length)
    (hik : i + k ≤ (segs.getD s ("", [])).2.length) :
    (2 * s, i) ∈ gref_match gi (((segs.getD s ("", [])).2.drop i).take k) := by
  set chars := (segs.getD s ("", [])).2 with hcharsdef
  set offset := ((segs.take s).map (fun p => p.2.length)).sum with hoffdef
  set es := chars.map gref_encode_2bit with hesdef
  -- the pool after the segment appends, in closed form
  set g1 := (segs.map (fun p => gref_op.seg p.1 p.2)).foldl gref_apply_op
    (gref_init_pool k) with hg1def
  have hfsh : ∀ n ∈ segs.map Prod.fst, n ∉ (gref_init_pool k).names := by
    intro n hn
    show n ∉ ([] : List String)
    simp
  obtain ⟨hn1, hq1, ht1, hs1, hl1, hk1, hg1ty, hold1, hsec1⟩ :=
    gref_segs_shape segs (gref_init_pool k) hfsh hnodup rfl rfl g1 hg1def
  -- the links leave the registry and the arena untouched
  set g2 := (lks.map (fun lk => gref_op.lnk lk.1 lk.2.1 lk.2.2.1 lk.2.2.2)).foldl
    gref_apply_op g1 with hg2def
  have hmem2 : ∀ lk ∈ lks, lk.1 ∈ g1.names ∧ lk.2.2.1 ∈ g1.names := by
    intro lk hlk
    rw [hn1]
    exact ⟨List.mem_append.mpr (Or.inr (hlks lk hlk).1),
           List.mem_append.mpr (Or.inr (hlks lk hlk).2)⟩
  have htl1 : g1.tail_id = g1.names.length := by
    rw [ht1, hn1]
    simp [gref_init_pool]
  obtain ⟨hn2, hsec2, hq2, ht2, hk2, hg2ty⟩ :=
    gref_links_keep lks g1 hmem2 htl1 g2 hg2def
  have hfold : gref_apply_ops k
      (segs.map (fun p => gref_op.seg p.1 p.2) ++
       lks.map (fun lk => gref_op.lnk lk.1 lk.2.1 lk.2.2.1 lk.2.2.2)) = g2 := by
    unfold gref_apply_ops
    rw [List.foldl_append]
  rw [hfold] at hfz
  -- the frozen archive
  obtain ⟨-, -, hltb, hidxt, htaila, hseqa, hka, hacv, -, hsecsa⟩ :=
    gref_freeze_fields g2 a hfz
  have hN : a.tail_id = segs.length := by
    rw [htaila, ht2, ht1]
    simp [gref_init_pool]
  have hseq : a.seq = segs.flatMap (fun p => p.2.map gref_encode_4bit) := by
    rw [hseqa, hq2, hq1]
    simp [gref_init_pool]
  have hkk : a.k = k := by
    rw [hka, hk2, hk1]
    rfl
  have hg2len : g2.secs.length = g2.names.length := by
    rw [hsec2, hn2, hs1, hn1]
    simp [gref_init_pool]
  have hsecvlen : s < g2.secs.length := by
    rw [hsec2, hs1]
    show s < 0 + segs.length
    omega
  have hps := gref_prefix_sum_le (fun p => p.2.length) segs s hs
  dsimp only at hps
  have hseqleneq : a.seq.length = (segs.map (fun p => p.2.length)).sum := by
    rw [hseq]
    rw [List.length_flatMap]
    congr 1
    simp [Function.comp_def]
  have hlenS : chars.length ≤ (segs.map (fun p => p.2.length)).sum := by
    rw [hcharsdef]
    omega
  have hsb' : offset + chars.length ≤ a.seq.length := by
    rw [hoffdef, hcharsdef, hseqleneq]
    exact hps
  have hseqlt : a.seq.length < 2 ^ 31 := by
    rw [hseqleneq]
    exact hlen
  have hklen' : k ≤ chars.length := by omega
  have hx := hsec1 s hs
  have h0s : (gref_init_pool k).names.length + s = s := by
    simp [gref_init_pool]
  rw [h0s] at hx
  have hsecv : a.secs.getD s ⟨0, 0, 0⟩ = ⟨s, chars.length, offset⟩ := by
    rw [hsecsa, gref_add_tail_secs_getD g2 s _ hsecvlen hg2len, hsec2, hx]
    show (⟨s, min chars.length 0x80000000, 0 + offset⟩ : gref_section) = _
    rw [show (0 : Nat) + offset = offset by omega]
    congr 1
    exact Nat.min_eq_left (by omega)
  have hcodeA : ∀ t, t < chars.length →
      gref_popcnt4 (a.seq.getD (offset + t) 0) = 1 ∧
      (gref_exp_table.getD (a.seq.getD (offset + t) 0) []).getD 0 0 =
        es.getD t 0 := by
    intro t ht
    have hsegmem : segs.getD s ("", []) ∈ segs := gref_getD_mem _ _ _ hs
    have hcc : chars.getD t 0 ∈ [65, 67, 71, 84] :=
      hconc _ hsegmem _ (gref_getD_mem _ _ _ ht)
    have hgetseq : a.seq.getD (offset + t) 0 =
        gref_encode_4bit (chars.getD t 0) := by
      rw [hseq]
      exact gref_flatMap_getD segs s t hs ht
    obtain ⟨hp1, hp2⟩ := gref_concrete_code (chars.getD t 0) hcc
    refine ⟨by rw [hgetseq]; exact hp1, ?_⟩
    rw [hgetseq, hp2, hesdef]
    exact (gref_getD_map chars t gref_encode_2bit ht).symm
  have hes' : ∀ e ∈ es, e ≤ 3 := by
    rw [hesdef]
    intro e he
    rcases List.mem_map.mp he with ⟨c, hc, rfl⟩
    exact gref_encode_2bit_le3 c
  have hesl' : es.length = chars.length := by
    rw [hesdef]
    simp
  -- destructure the successful build
  unfold gref_build_index at hbi
  rw [if_pos hacv] at hbi
  cases hii : gref_iter_init a with
  | none =>
    rw [hii] at hbi
    exact absurd hbi (by simp)
  | some it1 =>
    rw [hii] at hbi
    dsimp only at hbi
    unfold gref_iter_init at hii
    dsimp only at hii
    set it0 : gref_iter := { base_gid := 0
                             tail_gid := 2 * a.tail_id
                             seed_len := a.k
                             shift_len := 2 * (a.k - 1)
                             seq := a.seq
                             link_table := a.link_table
                             secs := a.secs
                             link_idx_table := a.link_idx_table
                             stack := [] } with hit0
    cases hini : gref_iter_init_stack it0 with
    | none =>
      rw [hini] at hii
      exact absurd hii (by simp)
    | some stk =>
      rw [hini] at hii
      dsimp only at hii
      have hit1 : it1 = { it0 with stack := stk } := (Option.some_inj.mp hii).symm
      subst hit1
      cases hcol : gref_iter_collect { it0 with stack := stk } fuel with
      | none =>
        rw [hcol] at hbi
        exact absurd hbi (by simp)
      | some v =>
        rw [hcol] at hbi
        dsimp only at hbi
        cases hmc : gref_mask_const a.k with
        | none =>
          rw [hmc] at hbi
          exact absurd hbi (by simp)
        | some mk =>
          rw [hmc] at hbi
          dsimp only at hbi
          have hgi := (Option.some_inj.mp hbi).symm
          rw [hkk] at hmc
          unfold gref_mask_const at hmc
          by_cases h2k : 2 * k < 32
          case neg =>
            rw [if_neg h2k] at hmc
            exact absurd hmc (by simp)
          case pos =>
          rw [if_pos h2k] at hmc
          have hmkval : mk = 2 ^ (2 * k) - 1 := (Option.some_inj.mp hmc).symm
          have hk31 : k ≤ 31 := by omega
          -- walker invariants for the initial iterator
          have hbd1 : gref_stack_bound k stk :=
            gref_init_stack_bound k it0 (by omega)
              (by show 2 * (a.k - 1) = 2 * (k - 1)
                  rw [hkk]) stk hini
          have hc1iter : gref_c1_iter k segs.length a.seq a.secs
              { it0 with stack := stk } := by
            refine ⟨?_, ?_, ?_, rfl, rfl⟩
            · show a.k = k
              exact hkk
            · show 2 * (a.k - 1) = 2 * (k - 1)
              rw [hkk]
            · show 2 * a.tail_id = 2 * segs.length
              rw [hN]
          set w0 := gref_pack_fold k 0 ((es.take (k + i)).drop i) with hw0def
          have htup : (⟨w0, 2 * s, i⟩ : gref_kmer_tuple) ∈ v := by
            rw [hw0def]
            rcases Nat.eq_zero_or_pos s with hs0 | hsp
            · -- segment 0: the initial seeding lands exactly on it
              have hsecv0 : a.secs.getD 0 ⟨0, 0, 0⟩ =
                  ⟨s, chars.length, offset⟩ := by
                have h := hsecv
                rw [hs0] at h
                rw [h]
                congr 1 <;> omega
              have hsec00 : it0.secs.getD (it0.base_gid / 2) ⟨0, 0, 0⟩ =
                  ⟨s, chars.length, offset⟩ := by
                rw [hit0]
                show a.secs.getD (0 / 2) ⟨0, 0, 0⟩ = _
                rw [Nat.zero_div]
                exact hsecv0
              set root : gref_iter_stack :=
                { global_rem_len := it0.seed_len - 1
                  shift_len := it0.shift_len
                  sec_gid := it0.base_gid
                  link_idx := gref_fw_link_idx_base it0 it0.base_gid
                  is_rev := false
                  seq_base := gref_iter_calc_seq_base it0 it0.base_gid
                    (it0.secs.getD (it0.base_gid / 2) ⟨0, 0, 0⟩).len
                  rem_len := (it0.secs.getD (it0.base_gid / 2) ⟨0, 0, 0⟩).len
                  pos := 0
                  cnt_arr := 0
                  kmer_idx := 0
                  kmer := [0] } with hroot
              have hfr0 : gref_c1_frame k ⟨s, chars.length, offset⟩ es 0 root := by
                refine ⟨rfl, ?_, ?_, rfl, ?_, ?_, ?_⟩
                · show gref_iter_calc_seq_base it0 it0.base_gid
                    (it0.secs.getD (it0.base_gid / 2) ⟨0, 0, 0⟩).len = _
                  rw [hsec00]
                  unfold gref_iter_calc_seq_base
                  rw [hsec00]
                  dsimp only
                  rw [if_pos (show it0.base_gid % 2 = 0 from rfl)]
                · show (it0.secs.getD (it0.base_gid / 2) ⟨0, 0, 0⟩).len =
                    chars.length - 0
                  rw [hsec00]
                  show chars.length = chars.length - 0
                  omega
                · show (0 : Nat) = gref_pack4 (List.replicate 0 1) % 2 ^ 64
                  simp [gref_pack4]
                · show it0.shift_len = 2 * (k - 1)
                  show 2 * (a.k - 1) = 2 * (k - 1)
                  rw [hkk]
                · show [0] = [gref_pack_fold k 0 (es.take 0)]
                  simp [gref_pack_fold]
              obtain ⟨stB, hloopB, hfrB, hkidxB⟩ :=
                gref_c1_seed_loop it0 k ⟨s, chars.length, offset⟩ es (by omega)
                  hk31
                  (by show offset + chars.length ≤ a.seq.length
                      exact hsb')
                  hesl'
                  (by intro t ht
                      show gref_popcnt4 (a.seq.getD (offset + t) 0) = 1 ∧
                        (gref_exp_table.getD (a.seq.getD (offset + t) 0)
                          []).getD 0 0 = es.getD t 0
                      exact hcodeA t ht)
                  k root [] 0 hfr0
                  (by show 0 + k ≤ chars.length
                      omega)
              have hini2 : gref_iter_init_stack it0 = some [stB] := by
                show gref_iter_seed_loop it0 it0.seed_len [root] = some [stB]
                rw [show it0.seed_len = k from hkk]
                exact hloopB
              rw [hini] at hini2
              have hstkB : stk = [stB] := Option.some_inj.mp hini2
              have hreach := gref_c1_reach k segs.length s a.seq a.secs
                ⟨s, chars.length, offset⟩ es hk hk31 hseqlt hs hsecv
                (by show k ≤ chars.length
                    omega)
                (by show offset + chars.length ≤ a.seq.length
                    exact hsb')
                hesl' hes' hcodeA fuel { it0 with stack := stk } v 0 0
                hc1iter hbd1 hcol
                (Or.inr ⟨by show (0 : Nat) = 2 * s
                            omega,
                  by omega, stB,
                  by show stk = [stB]
                     exact hstkB,
                  by rw [show k + 0 = 0 + k by omega]
                     exact hfrB,
                  by rw [hkidxB, if_neg (by omega)]⟩)
              exact hreach i (by omega)
                (by show i + k ≤ chars.length
                    omega)
            · -- a later segment: start in the pre-segment phase
              have hreach := gref_c1_reach k segs.length s a.seq a.secs
                ⟨s, chars.length, offset⟩ es hk hk31 hseqlt hs hsecv
                (by show k ≤ chars.length
                    omega)
                (by show offset + chars.length ≤ a.seq.length
                    exact hsb')
                hesl' hes' hcodeA fuel { it0 with stack := stk } v 0 0
                hc1iter hbd1 hcol
                (Or.inl ⟨rfl, by show (0 : Nat) < 2 * s
                                 omega, rfl, rfl⟩)
              exact hreach i (by omega)
                (by show i + k ≤ chars.length
                    omega)
          -- from the collected tuple to the match slice
          have hballv : ∀ t ∈ v, t.kmer < 4 ^ k :=
            gref_collect_bound k (by omega) hk31 fuel { it0 with stack := stk } v
              (by show 2 * (a.k - 1) = 2 * (k - 1)
                  rw [hkk]) hbd1 hcol
          set sorted := psort_half_tuples v with hsorteddef
          have hperm : List.Perm sorted v := List.perm_insertionSort _ v
          have hsortedpw : List.Pairwise
              (fun a b : gref_kmer_tuple => a.kmer ≤ b.kmer) sorted :=
            List.sorted_insertionSort gref_tuple_le v
          have hmemS : (⟨w0, 2 * s, i⟩ : gref_kmer_tuple) ∈ sorted :=
            hperm.mem_iff.mpr htup
          have hbS : ∀ t ∈ sorted, t.kmer < 4 ^ k :=
            fun t ht => hballv t (hperm.subset ht)
          have h4k : (4 : Nat) ^ k = 2 ^ (2 * k) := by
            rw [show (4 : Nat) = 2 ^ 2 from rfl, ← Nat.pow_mul]
          have hw0lt4 : w0 < 4 ^ k := by
            rw [hw0def]
            apply gref_pack_fold_lt k (by omega)
            · intro e he
              exact hes' e (List.mem_of_mem_take (List.mem_of_mem_drop he))
            · positivity
          have hw0lt2 : w0 < 2 ^ (2 * k) := h4k ▸ hw0lt4
          set keys := sorted.map gref_kmer_tuple.kmer with hkeysdef
          have hchkeys : List.Pairwise (· ≤ ·) keys := by
            rw [hkeysdef]
            exact List.pairwise_map.mpr hsortedpw
          have hbkeys : ∀ x ∈ keys, x ≤ 2 ^ (2 * k) := by
            rw [hkeysdef]
            intro x hx
            rcases List.mem_map.mp hx with ⟨t, ht, rfl⟩
            have h1 := hbS t ht
            rw [h4k] at h1
            omega
          have hlook1 : (0 :: gref_idx_scan (2 ^ (2 * k)) keys.length keys 0
              0).getD w0 0 = keys.countP (fun x => decide (x < w0)) :=
            gref_idx_table_lookup (2 ^ (2 * k)) keys w0 hchkeys hbkeys
              (by omega)
          have hlook2 : (0 :: gref_idx_scan (2 ^ (2 * k)) keys.length keys 0
              0).getD (w0 + 1) 0 =
              keys.countP (fun x => decide (x < w0 + 1)) :=
            gref_idx_table_lookup (2 ^ (2 * k)) keys (w0 + 1) hchkeys hbkeys
              (by omega)
          have hcnt1 : keys.countP (fun x => decide (x < w0)) =
              sorted.countP (fun t => decide (t.kmer < w0)) := by
            rw [hkeysdef, List.countP_map]
            rfl
          have hcnt2 : keys.countP (fun x => decide (x < w0 + 1)) =
              sorted.countP (fun t => decide (t.kmer < w0 + 1)) := by
            rw [hkeysdef, List.countP_map]
            rfl
          have hslice := gref_sorted_slice gref_kmer_tuple.kmer w0 sorted
            hsortedpw
          have hgik : gi.k = k := by
            rw [hgi]
            exact hkk
          have hgimask : gi.mask = 2 ^ (2 * k) - 1 := by
            rw [hgi]
            exact hmkval
          have hgiidx : gi.kmer_idx_table =
              0 :: gref_idx_scan (2 ^ (2 * k)) keys.length keys 0 0 := by
            rw [hgi]
            show gref_build_kmer_idx_table a.k keys = _
            unfold gref_build_kmer_idx_table
            rw [hkk]
          have hgitbl : gi.kmer_table =
              sorted.map (fun t => (t.gid, t.pos)) := by
            rw [hgi]
          have hq : gref_pack_ascii gi.k ((chars.drop i).take k) = w0 := by
            rw [hgik, gref_pack_ascii_eq, List.map_take, List.map_drop]
            rw [hw0def, hesdef]
            rw [List.drop_take]
            rw [show k + i - i = k by omega]
          have hmaskand : w0 &&& gi.mask = w0 := by
            rw [hgimask, Nat.and_pow_two_sub_one_eq_mod]
            exact Nat.mod_eq_of_lt hw0lt2
          unfold gref_match gref_match_2bitpacked
          dsimp only
          rw [hq, hmaskand, hgiidx, hgitbl, hlook1, hlook2, hcnt1, hcnt2]
          rw [← List.map_drop, ← List.map_take]
          rw [hslice]
          exact List.mem_map.mpr
            ⟨⟨w0, 2 * s, i⟩, List.mem_filter.mpr ⟨hmemS, by simp⟩, rfl⟩

theorem C1_witness :
    gref_freeze_pool (gref_apply_ops 3
      ([("sec0", gref_str "ACGT")].map (fun p => gref_op.seg p.1 p.2) ++
       ([] : List (String × Nat × String × Nat)).map
         (fun lk => gref_op.lnk lk.1 lk.2.1 lk.2.2.1 lk.2.2.2))) =
      some gref_ex1acv ∧
    gref_build_index 50 gref_ex1acv = some gref_ex1idx ∧
    (2 * 0, 0) ∈ gref_match gref_ex1idx
      ((([("sec0", gref_str "ACGT")].getD 0 ("", [])).2.drop 0).take 3) :=
  ⟨by decide, by decide,
   C1_theorem 3 [("sec0", gref_str "ACGT")] [] gref_ex1acv gref_ex1idx 50 0 0
     (by decide) (by decide) (by decide) (by decide) (by decide) (by decide)
     (by decide) (by decide) (by decide)⟩
